import Mathlib

/-!
# CppRayMarch: a shallow embedding of the sphere-marching renderer

The C++ sources (`common.hpp`, `scene.cpp`, `renderer.cpp`, `camera.cpp`) are embedded as
Lean functions.  Conventions of the embedding:

* `float` is idealised as `ℝ`: every arithmetic operation is exact, `std::sqrt` is
  `Real.sqrt`, `std::pow` is `Real.rpow`, `std::tan` is `Real.tan` and `pi_v<float>` is
  `Real.pi`.  The finite floats are the reals of magnitude at most `FLT_MAX`; a hypothesis
  `x ≤ FLT_MAX` says that `x` is a finite `float`.
* `int` values stay within range in everything modelled here and are integers of `ℤ`;
  `/` and `%` on `int` are `Int.tdiv` and `Int.tmod`.
* An SDF node is a value of the inductive type `SDF`; a `shared_ptr` child is a sub-term, so
  the embedding covers node trees (no node shared between two parents).
* `distance` has a side effect on `Union` and `SmoothUnion` (the `mutable closestShape`
  cache).  The returned number is `SDF.distance`, the node as it is left by the call is
  `SDF.afterDistance`.
* Dereferencing a null `shared_ptr` is the explicit outcome `MarchResult.nullDeref`.
-/

noncomputable section

namespace rm

/-! ## common.hpp -/

/-- The constant `std::numeric_limits<float>::max()`, that is `(2^24 - 1) * 2^104`. -/
def FLT_MAX : ℝ := (2 ^ 24 - 1) * 2 ^ 104

/-- The struct `Vec3`. -/
@[ext]
structure Vec3 where
  x : ℝ
  y : ℝ
  z : ℝ

namespace Vec3

/-- The default constructor `Vec3()`. -/
instance : Inhabited Vec3 := ⟨⟨0, 0, 0⟩⟩

/-- The member `operator+(const Vec3&)`. -/
instance : Add Vec3 := ⟨fun u v => ⟨u.x + v.x, u.y + v.y, u.z + v.z⟩⟩

/-- The binary member `operator-(const Vec3&)`. -/
instance : Sub Vec3 := ⟨fun u v => ⟨u.x - v.x, u.y - v.y, u.z - v.z⟩⟩

/-- The member `operator*(float)`. -/
instance : HMul Vec3 ℝ Vec3 := ⟨fun u s => ⟨u.x * s, u.y * s, u.z * s⟩⟩

/-- The member `operator/(float)`. -/
instance : HDiv Vec3 ℝ Vec3 := ⟨fun u s => ⟨u.x / s, u.y / s, u.z / s⟩⟩

/-- The unary member `operator-()`. -/
instance : Neg Vec3 := ⟨fun u => ⟨-u.x, -u.y, -u.z⟩⟩

/-- Modelled from the spec: the component-wise colour product `Vec3 * Vec3` that `scene.cpp`
and `renderer.cpp` use (`albedo * ambientLight`); it is declared in the module `common`,
whose source is not part of `common.hpp`. -/
instance : Mul Vec3 := ⟨fun u v => ⟨u.x * v.x, u.y * v.y, u.z * v.z⟩⟩

/-- The member `dot`. -/
def dot (u v : Vec3) : ℝ := u.x * v.x + u.y * v.y + u.z * v.z

/-- The member `cross`. -/
def cross (u v : Vec3) : Vec3 :=
  ⟨u.y * v.z - u.z * v.y, u.z * v.x - u.x * v.z, u.x * v.y - u.y * v.x⟩

/-- The member `length`. -/
def length (u : Vec3) : ℝ := Real.sqrt (u.x * u.x + u.y * u.y + u.z * u.z)

/-- The member `normalize`. -/
def normalize (u : Vec3) : Vec3 := u / u.length

end Vec3

/-- The struct `Ray`. -/
structure Ray where
  origin : Vec3
  direction : Vec3

/-- The member `Ray::at`. -/
def Ray.at (r : Ray) (t : ℝ) : Vec3 := r.origin + r.direction * t

/-- The struct `Material`; the defaults are those of the default constructor. -/
structure Material where
  albedo : Vec3 := ⟨1, 1, 1⟩
  metallic : ℝ := 0
  roughness : ℝ := 1 / 2
  emissive : ℝ := 0

instance : Inhabited Material := ⟨{}⟩

/-- The struct `Hit`; the defaults are those of the default constructor. -/
structure Hit where
  distance : ℝ := FLT_MAX
  position : Vec3 := default
  normal : Vec3 := default
  material : Material := {}

/-! ## scene.cpp: the SDF node tree -/

/-- The value of `std::clamp(v, lo, hi)`. -/
def clamp (v lo hi : ℝ) : ℝ := if v < lo then lo else if hi < v then hi else v

/-- The integer `x` rounded toward zero. -/
def truncate (x : ℝ) : ℤ := if 0 ≤ x then ⌊x⌋ else ⌈x⌉

/-- The value of `std::fmod(x, y)`: `x - n * y`, where `n` is the quotient `x / y` with its
fractional part cut off, so the result has the sign of `x`. -/
def fmod (x y : ℝ) : ℝ := x - (truncate (x / y) : ℝ) * y

/-- Which of its two child pointers a `closestShape` cache holds. -/
inductive Child where
  | a
  | b
  deriving DecidableEq

/-- The class `SDF` with its ten subclasses.  The first field of every constructor is the
base-class member `material`; `closestShape` is `none` for the null pointer. -/
inductive SDF where
  | Sphere (material : Material) (center : Vec3) (radius : ℝ)
  | Box (material : Material) (center : Vec3) (dimensions : Vec3)
  | Torus (material : Material) (center : Vec3) (majorRadius : ℝ) (minorRadius : ℝ)
  | Plane (material : Material) (normal : Vec3) (distanceFromOrigin : ℝ)
  | Cylinder (material : Material) (center : Vec3) (radius : ℝ) (height : ℝ)
  | Union (material : Material) (a : SDF) (b : SDF) (closestShape : Option Child)
  | Subtraction (material : Material) (a : SDF) (b : SDF)
  | Intersection (material : Material) (a : SDF) (b : SDF)
  | SmoothUnion (material : Material) (a : SDF) (b : SDF) (k : ℝ)
      (closestShape : Option Child)
  | RepetitionSDF (material : Material) (shape : SDF) (spacing : Vec3)

namespace SDF

/-- The point `modPoint` that `RepetitionSDF::distance` hands to the wrapped shape. -/
def modPoint (spacing point : Vec3) : Vec3 :=
  ⟨if spacing.x > 0 then fmod (point.x + 1 / 2 * spacing.x) spacing.x - 1 / 2 * spacing.x
    else point.x,
   if spacing.y > 0 then fmod (point.y + 1 / 2 * spacing.y) spacing.y - 1 / 2 * spacing.y
    else point.y,
   if spacing.z > 0 then fmod (point.z + 1 / 2 * spacing.z) spacing.z - 1 / 2 * spacing.z
    else point.z⟩

/-- The value `h` of `SmoothUnion::distance` for child distances `distA`, `distB`. -/
def smoothH (distA distB k : ℝ) : ℝ := clamp (1 / 2 + 1 / 2 * (distB - distA) / k) 0 1

/-- The number returned by the virtual `distance(point)`. -/
def distance : SDF → Vec3 → ℝ
  | Sphere _ center radius, point => (point - center).length - radius
  | Box _ center dimensions, point =>
      let q : Vec3 := ⟨|point.x - center.x| - dimensions.x * (1 / 2),
                       |point.y - center.y| - dimensions.y * (1 / 2),
                       |point.z - center.z| - dimensions.z * (1 / 2)⟩
      min (max q.x (max q.y q.z)) 0 +
        (Vec3.mk (max q.x 0) (max q.y 0) (max q.z 0)).length
  | Torus _ center majorRadius minorRadius, point =>
      let p := point - center
      let q : Vec3 := ⟨(Vec3.mk p.x 0 p.z).length - majorRadius, p.y, 0⟩
      q.length - minorRadius
  | Plane _ normal distanceFromOrigin, point => normal.dot point + distanceFromOrigin
  | Cylinder _ center radius height, point =>
      let p := point - center
      let d := Real.sqrt (p.x * p.x + p.z * p.z) - radius
      let y := |p.y| - height * (1 / 2)
      max d y
  | Union _ a b _, point =>
      let distA := a.distance point
      let distB := b.distance point
      if distA < distB then distA else distB
  | Subtraction _ a b, point => max (a.distance point) (-(b.distance point))
  | Intersection _ a b, point => max (a.distance point) (b.distance point)
  | SmoothUnion _ a b k _, point =>
      let distA := a.distance point
      let distB := b.distance point
      let h := smoothH distA distB k
      distB * (1 - h) + distA * h - k * h * (1 - h)
  | RepetitionSDF _ shape spacing, point => shape.distance (modPoint spacing point)

/-- The node as `distance(point)` leaves it: the `closestShape` caches of the `Union` and
`SmoothUnion` nodes reached by the call are overwritten. -/
def afterDistance : SDF → Vec3 → SDF
  | Union m a b _, point =>
      Union m (a.afterDistance point) (b.afterDistance point)
        (if a.distance point < b.distance point then some Child.a else some Child.b)
  | Subtraction m a b, point => Subtraction m (a.afterDistance point) (b.afterDistance point)
  | Intersection m a b, point => Intersection m (a.afterDistance point) (b.afterDistance point)
  | SmoothUnion m a b k _, point =>
      SmoothUnion m (a.afterDistance point) (b.afterDistance point) k
        (if smoothH (a.distance point) (b.distance point) k > 1 / 2 then some Child.a
          else some Child.b)
  | RepetitionSDF m shape spacing, point =>
      RepetitionSDF m (shape.afterDistance (modPoint spacing point)) spacing
  | s, _ => s

/-- The virtual `getMaterial()`: the base-class version returns the node's own `material`;
`Union`, `SmoothUnion` and `RepetitionSDF` override it. -/
def getMaterial : SDF → Material
  | Sphere m _ _ => m
  | Box m _ _ => m
  | Torus m _ _ _ => m
  | Plane m _ _ => m
  | Cylinder m _ _ _ => m
  | Union m a b closestShape =>
      match closestShape with
      | some Child.a => a.getMaterial
      | some Child.b => b.getMaterial
      | none => m
  | Subtraction m _ _ => m
  | Intersection m _ _ => m
  | SmoothUnion m a b _ closestShape =>
      match closestShape with
      | some Child.a => a.getMaterial
      | some Child.b => b.getMaterial
      | none => m
  | RepetitionSDF _ shape _ => shape.getMaterial

end SDF

namespace SDF

/-- The six points at which `SDF::normal` evaluates `distance`. -/
inductive Probe where
  | xPlus
  | xMinus
  | yPlus
  | yMinus
  | zPlus
  | zMinus
  deriving DecidableEq

/-- The finite-difference step `h` of `SDF::normal`. -/
def normalStep : ℝ := 1 / 10000

/-- The argument of the `distance` call that a probe stands for: `point + dx`,
`point - dx`, and so on. -/
def Probe.point (point : Vec3) : Probe → Vec3
  | xPlus => point + ⟨normalStep, 0, 0⟩
  | xMinus => point - ⟨normalStep, 0, 0⟩
  | yPlus => point + ⟨0, normalStep, 0⟩
  | yMinus => point - ⟨0, normalStep, 0⟩
  | zPlus => point + ⟨0, 0, normalStep⟩
  | zMinus => point - ⟨0, 0, normalStep⟩

/-- The vector returned by `SDF::normal(point)`. -/
def normal (s : SDF) (point : Vec3) : Vec3 :=
  let h : ℝ := normalStep
  let dx : Vec3 := ⟨h, 0, 0⟩
  let dy : Vec3 := ⟨0, h, 0⟩
  let dz : Vec3 := ⟨0, 0, h⟩
  (Vec3.mk (s.distance (point + dx) - s.distance (point - dx))
           (s.distance (point + dy) - s.distance (point - dy))
           (s.distance (point + dz) - s.distance (point - dz))).normalize

/-- The node as `SDF::normal(point)` leaves it.  C++ does not fix the order in which the six
`distance` calls of the constructor arguments run, so the order is the parameter `order`. -/
def afterNormal (order : List Probe) (s : SDF) (point : Vec3) : SDF :=
  order.foldl (fun node probe => node.afterDistance (probe.point point)) s

/-- The member `setMaterial`. -/
def setMaterial (mat : Material) : SDF → SDF
  | Sphere _ c r => Sphere mat c r
  | Box _ c d => Box mat c d
  | Torus _ c r1 r2 => Torus mat c r1 r2
  | Plane _ n d => Plane mat n d
  | Cylinder _ c r h => Cylinder mat c r h
  | Union _ a b cs => Union mat a b cs
  | Subtraction _ a b => Subtraction mat a b
  | Intersection _ a b => Intersection mat a b
  | SmoothUnion _ a b k cs => SmoothUnion mat a b k cs
  | RepetitionSDF _ shape spacing => RepetitionSDF mat shape spacing

/-- The constructor `Sphere(center, radius)`. -/
def newSphere (center : Vec3) (radius : ℝ) : SDF := Sphere {} center radius

/-- The constructor `Box(center, dimensions)`. -/
def newBox (center dimensions : Vec3) : SDF := Box {} center dimensions

/-- The constructor `Torus(center, majorRadius, minorRadius)`. -/
def newTorus (center : Vec3) (majorRadius minorRadius : ℝ) : SDF :=
  Torus {} center majorRadius minorRadius

/-- The constructor `Plane(normal, distance)`; it stores the normalised normal. -/
def newPlane (normal : Vec3) (distance : ℝ) : SDF := Plane {} normal.normalize distance

/-- The constructor `Cylinder(center, radius, height)`. -/
def newCylinder (center : Vec3) (radius height : ℝ) : SDF := Cylinder {} center radius height

/-- The constructor `Union(a, b)`; `closestShape` starts as the null pointer. -/
def newUnion (a b : SDF) : SDF := Union {} a b none

/-- The constructor `Subtraction(a, b)`. -/
def newSubtraction (a b : SDF) : SDF := Subtraction {} a b

/-- The constructor `Intersection(a, b)`. -/
def newIntersection (a b : SDF) : SDF := Intersection {} a b

/-- The constructor `SmoothUnion(a, b, k)`; `closestShape` starts as the null pointer. -/
def newSmoothUnion (a b : SDF) (k : ℝ) : SDF := SmoothUnion {} a b k none

/-- The constructor `RepetitionSDF(shape, spacing)`. -/
def newRepetitionSDF (shape : SDF) (spacing : Vec3) : SDF := RepetitionSDF {} shape spacing

end SDF

/-! ## scene.cpp: the class `Scene` -/

/-- The struct `Scene::Light`. -/
structure Light where
  position : Vec3
  color : Vec3
  intensity : ℝ

/-- The data members of the class `Scene`. -/
structure Scene where
  objects : List SDF := []
  ambientLight : Vec3 := ⟨1 / 10, 1 / 10, 1 / 10⟩
  lights : List Light := []

/-- What a call of `Scene::march` does: return `true` with `hit` filled in, return `false`,
or dereference the null `closestObject`. -/
inductive MarchResult where
  | hit (h : Hit)
  | miss
  | nullDeref

/-- The `bool` that a call of `march` returns. -/
def MarchResult.returned : MarchResult → Bool
  | MarchResult.hit _ => true
  | _ => false

/-- The default argument `maxDist = 100.0f` of `Scene::march`. -/
def defaultMaxDist : ℝ := 100

/-- The default argument `epsilon = 0.001f` of `Scene::march`. -/
def defaultEpsilon : ℝ := 1 / 1000

namespace Scene

/-- The member `add`. -/
def add (sc : Scene) (object : SDF) : Scene := { sc with objects := sc.objects ++ [object] }

/-- The member `setAmbientLight`. -/
def setAmbientLight (sc : Scene) (color : Vec3) : Scene := { sc with ambientLight := color }

/-- The member `addLight`. -/
def addLight (sc : Scene) (position color : Vec3) (intensity : ℝ) : Scene :=
  { sc with lights := sc.lights ++ [⟨position, color, intensity⟩] }

/-- The inner loop of `march` over the objects not yet visited, from the current
`(minDist, closestObject)`; a stored object carries the caches its `distance` call wrote. -/
def closestScan (pos : Vec3) : List SDF → ℝ × Option SDF → ℝ × Option SDF
  | [], acc => acc
  | object :: rest, (minDist, closestObject) =>
      let d := object.distance pos
      if d < minDist then closestScan pos rest (d, some (object.afterDistance pos))
      else closestScan pos rest (minDist, closestObject)

/-- The outer loop of `march` with `n` iterations left and the current parameter `t`. -/
def marchLoop (order : List SDF.Probe) (objects : List SDF) (ray : Ray) (maxDist epsilon : ℝ) :
    ℕ → ℝ → MarchResult
  | 0, _ => MarchResult.miss
  | n + 1, t =>
      let pos := ray.at t
      let scan := closestScan pos objects (FLT_MAX, none)
      if scan.1 < epsilon then
        match scan.2 with
        | none => MarchResult.nullDeref
        | some closestObject =>
            MarchResult.hit
              { distance := t
                position := pos
                normal := closestObject.normal pos
                material := (closestObject.afterNormal order pos).getMaterial }
      else if t + scan.1 > maxDist then MarchResult.miss
      else marchLoop order objects ray maxDist epsilon n (t + scan.1)

/-- The member `march(ray, hit, maxDist, epsilon)`: at most 100 iterations from `t = 0`. -/
def march (order : List SDF.Probe) (sc : Scene) (ray : Ray) (maxDist epsilon : ℝ) :
    MarchResult :=
  marchLoop order sc.objects ray maxDist epsilon 100 0

/-- The body of the loop over the lights in `calculateLighting`: the colour after `light`.
The shadow march runs with the default `epsilon`, for which `march` never dereferences the
null pointer (`march_ne_nullDeref`). -/
def addLightContribution (order : List SDF.Probe) (sc : Scene) (hit : Hit) (ray : Ray)
    (color : Vec3) (light : Light) : Vec3 :=
  let lightDir := (light.position - hit.position).normalize
  let diffuse := max 0 (lightDir.dot hit.normal)
  let shadowRay : Ray := ⟨hit.position + hit.normal * (1 / 1000 : ℝ), lightDir⟩
  let inShadow :=
    (sc.march order shadowRay (light.position - hit.position).length defaultEpsilon).returned
  if !inShadow then
    let color1 := color + hit.material.albedo * light.color * diffuse * light.intensity
    if hit.material.metallic > 0 then
      let reflectDir := ray.direction - hit.normal * (2 : ℝ) * ray.direction.dot hit.normal
      let spec := (max 0 (reflectDir.dot lightDir)) ^ (32 * (1 - hit.material.roughness))
      color1 + hit.material.albedo * light.color * spec * hit.material.metallic * light.intensity
    else color1
  else color

/-- The member `calculateLighting(hit, ray)`. -/
def calculateLighting (order : List SDF.Probe) (sc : Scene) (hit : Hit) (ray : Ray) : Vec3 :=
  let color := sc.lights.foldl (addLightContribution order sc hit ray)
    (hit.material.albedo * sc.ambientLight)
  if hit.material.emissive > 0 then color + hit.material.albedo * hit.material.emissive
  else color

end Scene

/-! ## renderer.cpp: the recursive trace -/

/-- The configuration members of the class `Renderer`. -/
structure Renderer where
  width : ℤ
  height : ℤ
  exposure : ℝ := 1
  maxBounces : ℤ := 4
  samplesPerPixel : ℤ := 1
  skyHorizon : Vec3 := ⟨8 / 10, 9 / 10, 1⟩
  skyZenith : Vec3 := ⟨2 / 10, 4 / 10, 8 / 10⟩
  groundHorizon : Vec3 := ⟨7 / 10, 75 / 100, 6 / 10⟩
  groundNadir : Vec3 := ⟨3 / 10, 35 / 100, 2 / 10⟩

namespace Renderer

/-- The member `renderSky(ray)`. -/
def renderSky (r : Renderer) (ray : Ray) : Vec3 :=
  let t := ray.direction.y
  if t ≥ 0 then
    let skyGradient := t ^ (1 / 2 : ℝ)
    r.skyHorizon * (1 - skyGradient) + r.skyZenith * skyGradient
  else
    let groundGradient := (min (-t) 1) ^ (1 / 2 : ℝ)
    r.groundHorizon * (1 - groundGradient) + r.groundNadir * groundGradient

/-- The member `trace(ray, scene, depth)`.  The march runs with the default `epsilon`, for
which it never dereferences the null pointer (`march_ne_nullDeref`). -/
def trace (r : Renderer) (order : List SDF.Probe) (ray : Ray) (scene : Scene) (depth : ℤ) :
    Vec3 :=
  if depth ≤ 0 then ⟨0, 0, 0⟩
  else
    match scene.march order ray defaultMaxDist defaultEpsilon with
    | MarchResult.hit hit =>
        let directLighting := scene.calculateLighting order hit ray
        if hit.material.metallic > 9 / 10 ∧ hit.material.roughness < 1 / 10 then
          let reflectDir := ray.direction - hit.normal * (2 : ℝ) * ray.direction.dot hit.normal
          let reflectRay : Ray := ⟨hit.position + hit.normal * (1 / 1000 : ℝ), reflectDir⟩
          let reflectedColor := trace r order reflectRay scene (depth - 1)
          directLighting + reflectedColor * hit.material.albedo * (8 / 10 : ℝ)
        else directLighting
    | _ => r.renderSky ray
termination_by depth.toNat
decreasing_by omega

end Renderer

namespace Renderer

/-- The member `trace(ray, scene, depth)` instrumented with a counter: the colour it returns
together with the number of `Scene::march` calls it makes on the primary ray and on reflection
rays (the shadow marches inside `calculateLighting` are not counted). -/
def traceCounted (r : Renderer) (order : List SDF.Probe) (ray : Ray) (scene : Scene)
    (depth : ℤ) : Vec3 × ℕ :=
  if depth ≤ 0 then (⟨0, 0, 0⟩, 0)
  else
    match scene.march order ray defaultMaxDist defaultEpsilon with
    | MarchResult.hit hit =>
        let directLighting := scene.calculateLighting order hit ray
        if hit.material.metallic > 9 / 10 ∧ hit.material.roughness < 1 / 10 then
          let reflectDir := ray.direction - hit.normal * (2 : ℝ) * ray.direction.dot hit.normal
          let reflectRay : Ray := ⟨hit.position + hit.normal * (1 / 1000 : ℝ), reflectDir⟩
          let reflected := traceCounted r order reflectRay scene (depth - 1)
          (directLighting + reflected.1 * hit.material.albedo * (8 / 10 : ℝ), 1 + reflected.2)
        else (directLighting, 1)
    | _ => (r.renderSky ray, 1)
termination_by depth.toNat
decreasing_by omega

/-- The sample coordinate `u` of the supersampling loop of `render` for column `x` and
sample index `s`; `%` on `int` is `Int.tmod`. -/
def sampleU (r : Renderer) (x s : ℤ) : ℝ :=
  ((x : ℝ) + ((Int.tmod s 2 : ℤ) : ℝ) * (1 / 2)) / (r.width : ℝ)

/-- The sample coordinate `v` of the supersampling loop of `render` for row `row` and sample
index `s`; `/` on `int` is `Int.tdiv`. -/
def sampleV (r : Renderer) (row s : ℤ) : ℝ :=
  ((row : ℝ) + ((Int.tdiv s 2 : ℤ) : ℝ) * (1 / 2)) / (r.height : ℝ)

end Renderer

/-! ## common.hpp: tone mapping -/

/-- The colour type `sf::Color` of SFML: four `uint8_t` channels. -/
structure Color where
  r : ℤ
  g : ℤ
  b : ℤ
  a : ℤ := 255

/-- The data members of the class `Camera` with their default member initialisers. -/
structure Camera where
  position : Vec3 := ⟨0, 0, 5⟩
  target : Vec3 := ⟨0, 0, 0⟩
  forward : Vec3 := ⟨0, 0, -1⟩
  right : Vec3 := ⟨1, 0, 0⟩
  up : Vec3 := ⟨0, 1, 0⟩
  fov : ℝ
  aspect : ℝ
  tanHalfFov : ℝ

namespace Camera

/-- The member `updateVectors`. -/
def updateVectors (cam : Camera) : Camera :=
  let forward := (cam.target - cam.position).normalize
  if |forward.y| > 99999 / 100000 then
    { cam with
      forward := forward
      right := ⟨1, 0, 0⟩
      up := ⟨0, if forward.y > 0 then 0 else 1, if forward.y > 0 then -1 else 0⟩ }
  else
    let worldUp : Vec3 := ⟨0, 1, 0⟩
    let right := (worldUp.cross forward).normalize
    { cam with
      forward := forward
      right := right
      up := (forward.cross right).normalize }

/-- The constructor `Camera(fov, aspect)`. -/
def new (fov aspect : ℝ) : Camera :=
  updateVectors
    { fov := fov, aspect := aspect, tanHalfFov := Real.tan (fov * (1 / 2) * Real.pi / 180) }

/-- The member `setPosition`. -/
def setPosition (cam : Camera) (position : Vec3) : Camera :=
  updateVectors { cam with position := position }

/-- The member `setTarget`. -/
def setTarget (cam : Camera) (target : Vec3) : Camera :=
  updateVectors { cam with target := target }

/-- The member `setAspectRatio`. -/
def setAspectRatio (cam : Camera) (aspect : ℝ) : Camera := { cam with aspect := aspect }

/-- The member `setFOV`. -/
def setFOV (cam : Camera) (fov : ℝ) : Camera :=
  { cam with fov := fov, tanHalfFov := Real.tan (fov * (1 / 2) * Real.pi / 180) }

/-- The local variable `direction` of `getRay(u, v)`, the vector that is then normalised. -/
def direction (cam : Camera) (u v : ℝ) : Vec3 :=
  let nx := (2 * u - 1) * cam.aspect * cam.tanHalfFov
  let ny := (1 - 2 * v) * cam.tanHalfFov
  cam.forward + cam.right * nx + cam.up * ny

/-- The member `getRay(u, v)`. -/
def getRay (cam : Camera) (u v : ℝ) : Ray := ⟨cam.position, (cam.direction u v).normalize⟩

end Camera

/-! ## renderer.cpp: configuration and the per-pixel loop -/

namespace Renderer

/-- The constructor `Renderer(width, height)`; the other members take their default member
initialisers. -/
def new (width height : ℤ) : Renderer := { width := width, height := height }

/-- The member `setExposure`. -/
def setExposure (r : Renderer) (value : ℝ) : Renderer := { r with exposure := value }

/-- The member `setMaxBounces`. -/
def setMaxBounces (r : Renderer) (bounces : ℤ) : Renderer := { r with maxBounces := bounces }

/-- The member `setSamplesPerPixel`. -/
def setSamplesPerPixel (r : Renderer) (samples : ℤ) : Renderer :=
  { r with samplesPerPixel := samples }

/-- The member `getSamplesPerPixel`. -/
def getSamplesPerPixel (r : Renderer) : ℤ := r.samplesPerPixel

/-- The member `setSkyColors`. -/
def setSkyColors (r : Renderer) (horizon zenith : Vec3) : Renderer :=
  { r with skyHorizon := horizon, skyZenith := zenith }

/-- The member `setGroundColors`. -/
def setGroundColors (r : Renderer) (horizon nadir : Vec3) : Renderer :=
  { r with groundHorizon := horizon, groundNadir := nadir }

/-- The supersampling loop of `render` for the pixel `(x, row)`: the value of `pixelColor`
after the loop `for (int s = 0; s < samplesPerPixel; ++s)`, which runs
`samplesPerPixel.toNat` times. -/
def sampleSum (r : Renderer) (order : List SDF.Probe) (scene : Scene) (camera : Camera)
    (x row : ℤ) : Vec3 :=
  (List.range r.samplesPerPixel.toNat).foldl
    (fun pixelColor s =>
      let u := r.sampleU x (s : ℤ)
      let v := r.sampleV row (s : ℤ)
      let ray := camera.getRay u v
      pixelColor + r.trace order ray scene r.maxBounces)
    ⟨0, 0, 0⟩

end Renderer

namespace Scene

/-- The outer loop of `march` instrumented with a counter: the result together with the
number of positions `pos = ray.at(t)` at which the scene was evaluated. -/
def marchLoopCounted (order : List SDF.Probe) (objects : List SDF) (ray : Ray)
    (maxDist epsilon : ℝ) : ℕ → ℝ → MarchResult × ℕ
  | 0, _ => (MarchResult.miss, 0)
  | n + 1, t =>
      let pos := ray.at t
      let scan := closestScan pos objects (FLT_MAX, none)
      if scan.1 < epsilon then
        match scan.2 with
        | none => (MarchResult.nullDeref, 1)
        | some closestObject =>
            (MarchResult.hit
              { distance := t
                position := pos
                normal := closestObject.normal pos
                material := (closestObject.afterNormal order pos).getMaterial }, 1)
      else if t + scan.1 > maxDist then (MarchResult.miss, 1)
      else
        ((marchLoopCounted order objects ray maxDist epsilon n (t + scan.1)).1,
          (marchLoopCounted order objects ray maxDist epsilon n (t + scan.1)).2 + 1)

end Scene

/-! ## renderer.cpp: the worker pool of `render` -/

/-- The image type `sf::Image` of SFML, as the map from pixel coordinates to colours. -/
structure Image where
  pixels : ℤ → ℤ → Color

/-- The call `image.create(width, height)`: SFML fills the new image with opaque black. -/
def Image.create : Image := ⟨fun _ _ => ⟨0, 0, 0, 255⟩⟩

namespace Renderer

end Renderer

/-! ## Specification-side notions used to state the claims -/

/-- The Euclidean distance between two points. -/
def euclid (p q : Vec3) : ℝ :=
  Real.sqrt ((p.x - q.x) ^ 2 + (p.y - q.y) ^ 2 + (p.z - q.z) ^ 2)

/-- The number `d` is the Euclidean distance from `p` to the nearest point of the set `S`:
some point of `S` lies at distance `d` from `p` and none lies closer. -/
def IsNearestDistance (S : Vec3 → Prop) (p : Vec3) (d : ℝ) : Prop :=
  (∃ q, S q ∧ euclid p q = d) ∧ ∀ q, S q → d ≤ euclid p q

/-- The surface of the sphere with centre `c` and radius `r`. -/
def onSphere (c : Vec3) (r : ℝ) (q : Vec3) : Prop := euclid q c = r

/-- The solid box `[c - dim/2, c + dim/2]`. -/
def inSolidBox (c dim : Vec3) (q : Vec3) : Prop :=
  (c.x - dim.x / 2 ≤ q.x ∧ q.x ≤ c.x + dim.x / 2) ∧
  (c.y - dim.y / 2 ≤ q.y ∧ q.y ≤ c.y + dim.y / 2) ∧
  (c.z - dim.z / 2 ≤ q.z ∧ q.z ≤ c.z + dim.z / 2)

/-- The six faces of the solid box `[c - dim/2, c + dim/2]`: its points with at least one
coordinate on the boundary of its interval. -/
def onBoxFace (c dim : Vec3) (q : Vec3) : Prop :=
  inSolidBox c dim q ∧
  (|q.x - c.x| = dim.x / 2 ∨ |q.y - c.y| = dim.y / 2 ∨ |q.z - c.z| = dim.z / 2)

/-- The minimum distance to every root at `pos`, as the march step finds it: the least of
the root distances and of `FLT_MAX`, the value the search starts from. -/
def sceneDist (objects : List SDF) (pos : Vec3) : ℝ :=
  objects.foldl (fun m object => min m (object.distance pos)) FLT_MAX

/-- The number `d` is the minimum over all roots of `distance(pos)`: some root has distance
`d` at `pos` and no root has a smaller one. -/
def IsMinRootDistance (objects : List SDF) (pos : Vec3) (d : ℝ) : Prop :=
  (∃ o ∈ objects, o.distance pos = d) ∧ ∀ o ∈ objects, d ≤ o.distance pos

/-- The march parameter at the `i`-th visited position: `t = 0` at first, then advanced by
the minimum distance found at the position before. -/
def visitedParam (objects : List SDF) (ray : Ray) : ℕ → ℝ
  | 0 => 0
  | i + 1 => visitedParam objects ray i + sceneDist objects (ray.at (visitedParam objects ray i))

/-- The six probes of `SDF::normal` in the order in which the source text lists them. -/
def sourceOrder : List SDF.Probe :=
  [SDF.Probe.xPlus, SDF.Probe.xMinus, SDF.Probe.yPlus, SDF.Probe.yMinus, SDF.Probe.zPlus,
    SDF.Probe.zMinus]

/-- The sum of a list of colours. -/
def Vec3.sum : List Vec3 → Vec3
  | [] => ⟨0, 0, 0⟩
  | v :: rest => v + Vec3.sum rest

/-- The shadow march of `calculateLighting` for one light: from `hit.position` moved by
`0.001` along the normal, towards the light, with `maxDist` the distance from `hit.position`
to the light and the default `epsilon`. -/
def Scene.shadowMarch (order : List SDF.Probe) (sc : Scene) (hit : Hit) (light : Light) :
    MarchResult :=
  sc.march order
    ⟨hit.position + hit.normal * (1 / 1000 : ℝ), (light.position - hit.position).normalize⟩
    (light.position - hit.position).length defaultEpsilon

/-- Whether a march missed. -/
def MarchResult.isMiss : MarchResult → Bool
  | MarchResult.miss => true
  | _ => false

/-- The contribution of one unoccluded light as the lighting model states it: the diffuse
term `albedo * lightColor * max(0, n.l) * intensity` and, only when `metallic > 0`, the
specular term `albedo * lightColor * max(0, r.l)^(32 (1 - roughness)) * metallic * intensity`,
with `l = normalize(lightPos - hit.position)`, `n = hit.normal` and
`r = ray.direction - 2 (ray.direction . n) n`. -/
def specLightTerm (hit : Hit) (ray : Ray) (light : Light) : Vec3 :=
  let l := (light.position - hit.position).normalize
  let n := hit.normal
  let r := ray.direction - n * (2 * ray.direction.dot n)
  hit.material.albedo * light.color * max 0 (n.dot l) * light.intensity +
    (if hit.material.metallic > 0 then
      hit.material.albedo * light.color * (max 0 (r.dot l)) ^ (32 * (1 - hit.material.roughness)) *
        hit.material.metallic * light.intensity
    else ⟨0, 0, 0⟩)

/-- The lighting model as stated: ambient term, plus the sum of the contributions of the
lights whose shadow march misses, plus the emissive term. -/
def specLighting (order : List SDF.Probe) (sc : Scene) (hit : Hit) (ray : Ray) : Vec3 :=
  hit.material.albedo * sc.ambientLight +
    Vec3.sum ((sc.lights.filter fun light => (sc.shadowMarch order hit light).isMiss).map
      (specLightTerm hit ray)) +
    hit.material.albedo * hit.material.emissive

/-- The basis of a camera is orthonormal: `forward`, `right` and `up` have length 1 and are
pairwise orthogonal. -/
def Camera.Orthonormal (cam : Camera) : Prop :=
  cam.forward.length = 1 ∧ cam.right.length = 1 ∧ cam.up.length = 1 ∧
  cam.forward.dot cam.right = 0 ∧ cam.forward.dot cam.up = 0 ∧ cam.right.dot cam.up = 0

/-- A call of one of the four setters of `Camera`. -/
inductive CameraOp where
  | setPosition (position : Vec3)
  | setTarget (target : Vec3)
  | setFOV (fov : ℝ)
  | setAspectRatio (aspect : ℝ)

/-- The camera after one setter call. -/
def Camera.apply (cam : Camera) : CameraOp → Camera
  | CameraOp.setPosition position => cam.setPosition position
  | CameraOp.setTarget target => cam.setTarget target
  | CameraOp.setFOV fov => cam.setFOV fov
  | CameraOp.setAspectRatio aspect => cam.setAspectRatio aspect

/-- The camera after a sequence of setter calls. -/
def Camera.run (cam : Camera) (ops : List CameraOp) : Camera := ops.foldl Camera.apply cam

/-- The state invariant of a camera: `forward` is the normalised direction to the target,
`right` and `up` are what `updateVectors` derives (recomputing the basis changes nothing),
and `tanHalfFov` is `tan(fov * pi / 360)`. -/
def Camera.Consistent (cam : Camera) : Prop :=
  cam.forward = (cam.target - cam.position).normalize ∧
  cam.updateVectors = cam ∧
  cam.tanHalfFov = Real.tan (cam.fov * Real.pi / 360)

/-- The direction `d` from the camera to its target is outside the near-vertical band of
`updateVectors` (`|normalize(d).y| ≤ 0.99999`), or it points straight up. -/
def regularOrStraightUp (d : Vec3) : Prop :=
  |d.normalize.y| ≤ 99999 / 100000 ∨ d.normalize = ⟨0, 1, 0⟩

/-- Position and target differ before every call of a sequence of setter calls and after the
last one. -/
def Camera.keepsApart (cam : Camera) : List CameraOp → Prop
  | [] => cam.position ≠ cam.target
  | op :: rest => cam.position ≠ cam.target ∧ Camera.keepsApart (cam.apply op) rest

/-- The solid capped cylinder with centre `c`, radius `r` and height `h`, its axis along `y`:
the points within `r` of the axis and within `h/2` of the centre's height. -/
def inSolidCylinder (c : Vec3) (r h : ℝ) (q : Vec3) : Prop :=
  Real.sqrt ((q.x - c.x) ^ 2 + (q.z - c.z) ^ 2) ≤ r ∧ |q.y - c.y| ≤ h / 2

/-- The node is one of the five primitives (sphere, box, torus, plane, cylinder). -/
def SDF.IsPrimitive : SDF → Prop
  | SDF.Sphere _ _ _ => True
  | SDF.Box _ _ _ => True
  | SDF.Torus _ _ _ _ => True
  | SDF.Plane _ _ _ => True
  | SDF.Cylinder _ _ _ _ => True
  | _ => False

namespace Vec3

@[simp] theorem add_x (u v : Vec3) : (u + v).x = u.x + v.x := rfl
@[simp] theorem add_y (u v : Vec3) : (u + v).y = u.y + v.y := rfl
@[simp] theorem add_z (u v : Vec3) : (u + v).z = u.z + v.z := rfl
@[simp] theorem sub_x (u v : Vec3) : (u - v).x = u.x - v.x := rfl
@[simp] theorem sub_y (u v : Vec3) : (u - v).y = u.y - v.y := rfl
@[simp] theorem sub_z (u v : Vec3) : (u - v).z = u.z - v.z := rfl
@[simp] theorem smul_x (u : Vec3) (s : ℝ) : (u * s).x = u.x * s := rfl
@[simp] theorem smul_y (u : Vec3) (s : ℝ) : (u * s).y = u.y * s := rfl
@[simp] theorem smul_z (u : Vec3) (s : ℝ) : (u * s).z = u.z * s := rfl
@[simp] theorem sdiv_x (u : Vec3) (s : ℝ) : (u / s).x = u.x / s := rfl
@[simp] theorem sdiv_y (u : Vec3) (s : ℝ) : (u / s).y = u.y / s := rfl
@[simp] theorem sdiv_z (u : Vec3) (s : ℝ) : (u / s).z = u.z / s := rfl
@[simp] theorem neg_x (u : Vec3) : (-u).x = -u.x := rfl
@[simp] theorem neg_y (u : Vec3) : (-u).y = -u.y := rfl
@[simp] theorem neg_z (u : Vec3) : (-u).z = -u.z := rfl
@[simp] theorem mul_x (u v : Vec3) : (u * v).x = u.x * v.x := rfl
@[simp] theorem mul_y (u v : Vec3) : (u * v).y = u.y * v.y := rfl
@[simp] theorem mul_z (u v : Vec3) : (u * v).z = u.z * v.z := rfl

theorem length_nonneg (u : Vec3) : 0 ≤ u.length := Real.sqrt_nonneg _

theorem sq_sum_nonneg (u : Vec3) : 0 ≤ u.x * u.x + u.y * u.y + u.z * u.z := by
  nlinarith [mul_self_nonneg u.x, mul_self_nonneg u.y, mul_self_nonneg u.z]

theorem length_mul_self (u : Vec3) :
    u.length * u.length = u.x * u.x + u.y * u.y + u.z * u.z :=
  Real.mul_self_sqrt u.sq_sum_nonneg

end Vec3

theorem FLT_MAX_pos : 0 < FLT_MAX := by
  unfold FLT_MAX
  norm_num

/-! ## C5, C6: the combinators' distances -/

/-- C5: for all children `A`, `B` and every point `p`, `Union` returns the minimum of the two
child distances, `Intersection` their maximum, and `Subtraction` the maximum of `A`'s
distance and the negated distance of `B`. -/
theorem C5_csg_distance (m : Material) (A B : SDF) (cs : Option Child) (p : Vec3) :
    (SDF.Union m A B cs).distance p = min (A.distance p) (B.distance p) ∧
    (SDF.Intersection m A B).distance p = max (A.distance p) (B.distance p) ∧
    (SDF.Subtraction m A B).distance p = max (A.distance p) (-(B.distance p)) := by
  refine ⟨?_, rfl, rfl⟩
  simp only [SDF.distance]
  rcases lt_or_le (A.distance p) (B.distance p) with h | h
  · rw [if_pos h, min_eq_left h.le]
  · rw [if_neg (not_lt.mpr h), min_eq_right h]

/-- C6: for all children `A`, `B`, every smoothing factor `k > 0` and every point `p`, the
distance of `SmoothUnion(A, B, k)` at `p` is at most the smaller of the two child
distances. -/
theorem C6_smoothUnion_le_min (m : Material) (A B : SDF) (k : ℝ) (cs : Option Child)
    (p : Vec3) (hk : 0 < k) :
    (SDF.SmoothUnion m A B k cs).distance p ≤ min (A.distance p) (B.distance p) := by
  simp only [SDF.distance, SDF.smoothH, clamp]
  set dA := A.distance p
  set dB := B.distance p
  have hx : (dB - dA) / k * k = dB - dA := div_mul_cancel₀ _ hk.ne'
  set x := (dB - dA) / k
  have e : 1 / 2 + 1 / 2 * (dB - dA) / k = 1 / 2 + 1 / 2 * x := by
    simp only [x]
    ring
  rw [e]
  refine le_min ?_ ?_
  · split_ifs with h1 h2
    · nlinarith
    · nlinarith
    · have hB : dB = dA + x * k := by linarith
      rw [hB]
      nlinarith [mul_nonneg hk.le (sq_nonneg (1 - (1 / 2 + 1 / 2 * x)))]
  · split_ifs with h1 h2
    · nlinarith
    · nlinarith
    · have hB : dB = dA + x * k := by linarith
      rw [hB]
      nlinarith [mul_nonneg hk.le (sq_nonneg (1 / 2 + 1 / 2 * x))]

/-- Witness for C6: two planes blended with `k = 1`, queried at the origin. -/
theorem C6_smoothUnion_le_min_witness :
    (0 : ℝ) < 1 ∧
    (SDF.SmoothUnion {} (SDF.Plane {} ⟨0, 1, 0⟩ 0) (SDF.Plane {} ⟨0, 1, 0⟩ 1) 1 none).distance
        ⟨0, 0, 0⟩ ≤
      min ((SDF.Plane {} ⟨0, 1, 0⟩ 0).distance ⟨0, 0, 0⟩)
        ((SDF.Plane {} ⟨0, 1, 0⟩ 1).distance ⟨0, 0, 0⟩) :=
  ⟨one_pos, C6_smoothUnion_le_min {} _ _ 1 none _ one_pos⟩

/-! ## Lengths and Euclidean distance -/

theorem euclid_eq_length (p q : Vec3) : euclid p q = (p - q).length := by
  unfold euclid Vec3.length
  congr 1
  simp only [Vec3.sub_x, Vec3.sub_y, Vec3.sub_z]
  ring

theorem euclid_comm (p q : Vec3) : euclid p q = euclid q p := by
  unfold euclid
  congr 1
  ring

theorem euclid_nonneg (p q : Vec3) : 0 ≤ euclid p q := Real.sqrt_nonneg _

theorem euclid_mul_self (p q : Vec3) :
    euclid p q * euclid p q = (p.x - q.x) ^ 2 + (p.y - q.y) ^ 2 + (p.z - q.z) ^ 2 :=
  Real.mul_self_sqrt (by positivity)

/-- The Cauchy-Schwarz inequality for `Vec3.dot`. -/
theorem Vec3.dot_le_length_mul (u v : Vec3) : u.dot v ≤ u.length * v.length := by
  have hcs : (u.dot v) ^ 2 ≤
      (u.x * u.x + u.y * u.y + u.z * u.z) * (v.x * v.x + v.y * v.y + v.z * v.z) := by
    unfold Vec3.dot
    nlinarith [sq_nonneg (u.x * v.y - u.y * v.x), sq_nonneg (u.y * v.z - u.z * v.y),
      sq_nonneg (u.z * v.x - u.x * v.z)]
  calc u.dot v ≤ |u.dot v| := le_abs_self _
    _ ≤ Real.sqrt ((u.x * u.x + u.y * u.y + u.z * u.z) *
          (v.x * v.x + v.y * v.y + v.z * v.z)) := Real.abs_le_sqrt hcs
    _ = u.length * v.length := Real.sqrt_mul u.sq_sum_nonneg _

/-- The triangle inequality for `Vec3.length`. -/
theorem Vec3.length_add_le (u v : Vec3) : (u + v).length ≤ u.length + v.length := by
  have hu := u.length_nonneg
  have hv := v.length_nonneg
  have h := Vec3.dot_le_length_mul u v
  have hu2 := u.length_mul_self
  have hv2 := v.length_mul_self
  unfold Vec3.dot at h
  apply Real.sqrt_le_iff.mpr
  refine ⟨by positivity, ?_⟩
  simp only [Vec3.add_x, Vec3.add_y, Vec3.add_z]
  nlinarith

/-- The triangle inequality for the Euclidean distance. -/
theorem euclid_triangle (p q r : Vec3) : euclid p r ≤ euclid p q + euclid q r := by
  rw [euclid_eq_length, euclid_eq_length, euclid_eq_length]
  have h := Vec3.length_add_le (p - q) (q - r)
  have e : p - q + (q - r) = p - r := by
    ext <;> simp
  rwa [e] at h

/-! ## C7: the sphere -/

/-- The point of the sphere around `c` with radius `r` on the segment from `c` to `p`. -/
theorem sphere_foot (c p : Vec3) (r : ℝ) (hr : 0 ≤ r) (hp : r < euclid p c) :
    euclid (c + (p - c) * (r / euclid p c)) c = r ∧
    euclid p (c + (p - c) * (r / euclid p c)) = euclid p c - r := by
  have hL : 0 < euclid p c := lt_of_le_of_lt hr hp
  have hLL := euclid_mul_self p c
  set L := euclid p c
  constructor
  · have e : (r : ℝ) = Real.sqrt (r ^ 2) := (Real.sqrt_sq hr).symm
    rw [e]
    unfold euclid
    congr 1
    simp only [Vec3.add_x, Vec3.add_y, Vec3.add_z, Vec3.sub_x, Vec3.sub_y, Vec3.sub_z,
      Vec3.smul_x, Vec3.smul_y, Vec3.smul_z]
    rw [Real.sqrt_sq hr]
    field_simp
    nlinarith
  · have e : L - r = Real.sqrt ((L - r) ^ 2) := (Real.sqrt_sq (by linarith)).symm
    rw [e]
    unfold euclid
    congr 1
    simp only [Vec3.add_x, Vec3.add_y, Vec3.add_z, Vec3.sub_x, Vec3.sub_y, Vec3.sub_z,
      Vec3.smul_x, Vec3.smul_y, Vec3.smul_z]
    have hx : ∀ a b : ℝ, a - (b + (a - b) * (r / L)) = (a - b) * ((L - r) / L) := by
      intro a b
      field_simp
      ring
    rw [hx, hx, hx]
    have hq : ((L - r) / L) ^ 2 * (L * L) = (L - r) ^ 2 := by
      have h1 : ((L - r) / L) ^ 2 * (L * L) = ((L - r) / L * L) ^ 2 := by ring
      rw [h1, div_mul_cancel₀ _ hL.ne']
    rw [← hq, hLL]
    ring

/-- C7: for every centre `c`, radius `r ≥ 0` and point `p`, the distance of `Sphere(c, r)` at
`p` is `|p - c| - r`; for `p` strictly outside it is the Euclidean distance from `p` to the
nearest point of the surface; it is zero exactly on the surface and negative exactly in the
interior. -/
theorem C7_sphere_distance (m : Material) (c : Vec3) (r : ℝ) (p : Vec3) (hr : 0 ≤ r) :
    (SDF.Sphere m c r).distance p = euclid p c - r ∧
    (r < euclid p c →
      IsNearestDistance (onSphere c r) p ((SDF.Sphere m c r).distance p)) ∧
    ((SDF.Sphere m c r).distance p = 0 ↔ onSphere c r p) ∧
    ((SDF.Sphere m c r).distance p < 0 ↔ euclid p c < r) := by
  have hd : (SDF.Sphere m c r).distance p = euclid p c - r := by
    rw [euclid_eq_length]
    rfl
  rw [hd]
  refine ⟨rfl, ?_, ?_, ?_⟩
  · intro hp
    obtain ⟨h1, h2⟩ := sphere_foot c p r hr hp
    refine ⟨⟨_, h1, h2⟩, ?_⟩
    intro q hq
    have ht := euclid_triangle p q c
    unfold onSphere at hq
    linarith
  · unfold onSphere
    constructor <;> intro h <;> linarith
  · constructor <;> intro h <;> linarith

/-- Witness for C7: the unit sphere at the origin and the point `(0, 0, 5)`. -/
theorem C7_sphere_distance_witness :
    (0 : ℝ) ≤ 1 ∧
    ((SDF.Sphere {} ⟨0, 0, 0⟩ 1).distance ⟨0, 0, 5⟩ = euclid ⟨0, 0, 5⟩ ⟨0, 0, 0⟩ - 1 ∧
    (1 < euclid ⟨0, 0, 5⟩ ⟨0, 0, 0⟩ →
      IsNearestDistance (onSphere ⟨0, 0, 0⟩ 1) ⟨0, 0, 5⟩
        ((SDF.Sphere {} ⟨0, 0, 0⟩ 1).distance ⟨0, 0, 5⟩)) ∧
    ((SDF.Sphere {} ⟨0, 0, 0⟩ 1).distance ⟨0, 0, 5⟩ = 0 ↔ onSphere ⟨0, 0, 0⟩ 1 ⟨0, 0, 5⟩) ∧
    ((SDF.Sphere {} ⟨0, 0, 0⟩ 1).distance ⟨0, 0, 5⟩ < 0 ↔ euclid ⟨0, 0, 5⟩ ⟨0, 0, 0⟩ < 1)) :=
  ⟨zero_le_one, C7_sphere_distance {} ⟨0, 0, 0⟩ 1 ⟨0, 0, 5⟩ zero_le_one⟩

/-! ## C9: domain repetition -/

theorem Vec3.length_eq_of_mul_self (u : Vec3) (a : ℝ) (ha : 0 ≤ a)
    (h : u.x * u.x + u.y * u.y + u.z * u.z = a * a) : u.length = a := by
  unfold Vec3.length
  rw [h, Real.sqrt_mul_self ha]

/-- For a dividend of magnitude below the divisor the quotient truncates to zero, so `fmod`
returns the dividend itself, negative dividends included. -/
theorem fmod_eq_self (x y : ℝ) (hy : 0 < y) (hx : |x| < y) : fmod x y = x := by
  have hlt := abs_lt.mp hx
  have ht : truncate (x / y) = 0 := by
    unfold truncate
    split_ifs with h
    · rw [Int.floor_eq_iff]
      refine ⟨by simpa using h, ?_⟩
      rw [div_lt_iff₀ hy]
      simp only [Int.cast_zero, zero_add, one_mul]
      exact hlt.2
    · rw [Int.ceil_eq_iff]
      push_neg at h
      refine ⟨?_, by simpa using h.le⟩
      rw [lt_div_iff₀ hy]
      simp only [Int.cast_zero, zero_sub, neg_mul, one_mul]
      exact hlt.1
  unfold fmod
  rw [ht]
  simp

/-- C9, evaluated at the failing input `RepetitionSDF(Sphere((0,0,0), 0.5), (2,0,0))` and
`p = (-1.5, 0, 0)`: the x coordinate handed to the sphere is `-1.5`, outside the cell
`[-1, 1)`, and the distance at `p` is `1` while the distance one period further, at
`p + (2, 0, 0)`, is `0`; the field is not periodic. -/
theorem C9_repetition_negative_side :
    (SDF.modPoint ⟨2, 0, 0⟩ ⟨-3 / 2, 0, 0⟩).x = -3 / 2 ∧
    (SDF.newRepetitionSDF (SDF.newSphere ⟨0, 0, 0⟩ (1 / 2)) ⟨2, 0, 0⟩).distance
      ⟨-3 / 2, 0, 0⟩ = 1 ∧
    (SDF.newRepetitionSDF (SDF.newSphere ⟨0, 0, 0⟩ (1 / 2)) ⟨2, 0, 0⟩).distance
      (⟨-3 / 2, 0, 0⟩ + ⟨2, 0, 0⟩) = 0 := by
  have h1 : fmod (-3 / 2 + 1 / 2 * 2) 2 = -1 / 2 := by
    have e : (-3 / 2 + 1 / 2 * 2 : ℝ) = -1 / 2 := by norm_num
    rw [e]
    apply fmod_eq_self _ _ (by norm_num)
    rw [abs_lt]
    constructor <;> norm_num
  have h2 : fmod (-3 / 2 + 2 + 1 / 2 * 2) 2 = 3 / 2 := by
    have e : (-3 / 2 + 2 + 1 / 2 * 2 : ℝ) = 3 / 2 := by norm_num
    rw [e]
    apply fmod_eq_self _ _ (by norm_num)
    rw [abs_lt]
    constructor <;> norm_num
  have m1 : SDF.modPoint ⟨2, 0, 0⟩ ⟨-3 / 2, 0, 0⟩ = ⟨-3 / 2, 0, 0⟩ := by
    unfold SDF.modPoint
    simp only [gt_iff_lt, lt_self_iff_false, if_false, h1]
    norm_num
  have m2 : SDF.modPoint ⟨2, 0, 0⟩ (⟨-3 / 2, 0, 0⟩ + ⟨2, 0, 0⟩) = ⟨1 / 2, 0, 0⟩ := by
    unfold SDF.modPoint
    simp only [Vec3.add_x, Vec3.add_y, Vec3.add_z, gt_iff_lt, lt_self_iff_false, if_false, h2]
    norm_num
  refine ⟨by rw [m1], ?_, ?_⟩
  · simp only [SDF.newRepetitionSDF, SDF.newSphere, SDF.distance, m1]
    rw [Vec3.length_eq_of_mul_self _ (3 / 2) (by norm_num) (by norm_num)]
    norm_num
  · simp only [SDF.newRepetitionSDF, SDF.newSphere, SDF.distance, m2]
    rw [Vec3.length_eq_of_mul_self _ (1 / 2) (by norm_num) (by norm_num)]
    norm_num

/-! ## C10: material lookup of the combinators -/

/-- C10, evaluated at the failing input, the `centralCSG` node of `main.cpp`
(`Intersection(centralBox, centralSphere)`, materials set on the two children only), and
the `Subtraction` of the same children: after a distance query at any point `getMaterial`
returns the combinator's own default material, which is neither child's material. -/
theorem C10_intersection_subtraction_own_material (p : Vec3) :
    let centralBox := (SDF.newBox ⟨0, 1, 0⟩ ⟨2, 2, 2⟩).setMaterial
      ⟨⟨3 / 10, 3 / 10, 3 / 10⟩, 8 / 10, 5 / 100, 0⟩
    let centralSphere := (SDF.newSphere ⟨0, 1, 0⟩ (14 / 10)).setMaterial
      ⟨⟨95 / 100, 9 / 10, 1 / 10⟩, 9 / 10, 5 / 100, 15 / 100⟩
    (((SDF.newIntersection centralBox centralSphere).afterDistance p).getMaterial = {} ∧
     ((SDF.newSubtraction centralBox centralSphere).afterDistance p).getMaterial = {}) ∧
    ({} : Material) ≠ centralBox.getMaterial ∧ ({} : Material) ≠ centralSphere.getMaterial := by
  refine ⟨⟨rfl, rfl⟩, ?_, ?_⟩
  · intro h
    have hx := congrArg (fun mat : Material => mat.albedo.x) h
    simp only [SDF.newBox, SDF.setMaterial, SDF.getMaterial] at hx
    norm_num at hx
  · intro h
    have hx := congrArg (fun mat : Material => mat.albedo.x) h
    simp only [SDF.newSphere, SDF.setMaterial, SDF.getMaterial] at hx
    norm_num at hx

/-! ## The caches do not influence distances -/

/-- The number `distance` returns does not depend on the caches an earlier `distance` call
wrote. -/
theorem SDF.distance_afterDistance (s : SDF) (q p : Vec3) :
    (s.afterDistance q).distance p = s.distance p := by
  induction s generalizing q p with
  | Sphere m c r => rfl
  | Box m c d => rfl
  | Torus m c r1 r2 => rfl
  | Plane m n d => rfl
  | Cylinder m c r h => rfl
  | Union m a b cs iha ihb => simp only [SDF.afterDistance, SDF.distance, iha, ihb]
  | Subtraction m a b iha ihb => simp only [SDF.afterDistance, SDF.distance, iha, ihb]
  | Intersection m a b iha ihb => simp only [SDF.afterDistance, SDF.distance, iha, ihb]
  | SmoothUnion m a b k cs iha ihb => simp only [SDF.afterDistance, SDF.distance, iha, ihb]
  | RepetitionSDF m shape spacing ih => simp only [SDF.afterDistance, SDF.distance, ih]

/-- The estimated normal does not depend on the caches either. -/
theorem SDF.normal_afterDistance (s : SDF) (q p : Vec3) :
    (s.afterDistance q).normal p = s.normal p := by
  simp only [SDF.normal, SDF.distance_afterDistance]

/-! ## The inner loop of `march` -/

theorem closestScan_fst (pos : Vec3) (objects : List SDF) (acc : ℝ × Option SDF) :
    (Scene.closestScan pos objects acc).1 =
      objects.foldl (fun m object => min m (object.distance pos)) acc.1 := by
  induction objects generalizing acc with
  | nil => rfl
  | cons o rest ih =>
    obtain ⟨m, c⟩ := acc
    simp only [Scene.closestScan, List.foldl_cons]
    split_ifs with h
    · rw [ih, min_eq_right h.le]
    · rw [ih, min_eq_left (not_lt.mp h)]

theorem closestScan_fst_eq_sceneDist (pos : Vec3) (objects : List SDF) :
    (Scene.closestScan pos objects (FLT_MAX, none)).1 = sceneDist objects pos :=
  closestScan_fst pos objects _

/-- What the inner loop returns: a lower bound of all root distances that is at most the
starting value; either nothing was closer than the starting value, or the result is the
distance of a root, which is then the stored closest object. -/
theorem closestScan_spec (pos : Vec3) (objects : List SDF) (m : ℝ) (c : Option SDF) :
    (∀ o ∈ objects, (Scene.closestScan pos objects (m, c)).1 ≤ o.distance pos) ∧
    (Scene.closestScan pos objects (m, c)).1 ≤ m ∧
    (Scene.closestScan pos objects (m, c) = (m, c) ∨
      ∃ o ∈ objects, (Scene.closestScan pos objects (m, c)).2 = some (o.afterDistance pos) ∧
        o.distance pos = (Scene.closestScan pos objects (m, c)).1 ∧
        (Scene.closestScan pos objects (m, c)).1 < m) := by
  induction objects generalizing m c with
  | nil =>
    refine ⟨?_, le_refl _, Or.inl rfl⟩
    intro o ho
    cases ho
  | cons a rest ih =>
    simp only [Scene.closestScan]
    split_ifs with h
    · obtain ⟨h1, h2, h3⟩ := ih (a.distance pos) (some (a.afterDistance pos))
      refine ⟨?_, h2.trans h.le, Or.inr ?_⟩
      · intro o ho
        rcases List.mem_cons.mp ho with rfl | ho
        · exact h2
        · exact h1 o ho
      · rcases h3 with h3 | ⟨o, ho, e1, e2, e3⟩
        · refine ⟨a, List.mem_cons_self _ _, ?_, ?_, ?_⟩
          · rw [h3]
          · rw [h3]
          · rw [h3]
            exact h
        · exact ⟨o, List.mem_cons_of_mem _ ho, e1, e2, e3.trans h⟩
    · obtain ⟨h1, h2, h3⟩ := ih m c
      refine ⟨?_, h2, ?_⟩
      · intro o ho
        rcases List.mem_cons.mp ho with rfl | ho
        · exact h2.trans (not_lt.mp h)
        · exact h1 o ho
      · rcases h3 with h3 | ⟨o, ho, e1, e2, e3⟩
        · exact Or.inl h3
        · exact Or.inr ⟨o, List.mem_cons_of_mem _ ho, e1, e2, e3⟩

/-- From the starting state of a march step the closest object is null only if the minimum
stayed at `FLT_MAX`. -/
theorem closestScan_none (pos : Vec3) (objects : List SDF)
    (h : (Scene.closestScan pos objects (FLT_MAX, none)).2 = none) :
    (Scene.closestScan pos objects (FLT_MAX, none)).1 = FLT_MAX := by
  rcases (closestScan_spec pos objects FLT_MAX none).2.2 with h3 | ⟨o, _, e1, _, _⟩
  · rw [h3]
  · rw [h] at e1
    cases e1

/-- A non-null closest object is a root that attains the minimum over all roots. -/
theorem closestScan_some (pos : Vec3) (objects : List SDF) (closest : SDF)
    (h : (Scene.closestScan pos objects (FLT_MAX, none)).2 = some closest) :
    ∃ o ∈ objects, closest = o.afterDistance pos ∧
      o.distance pos = (Scene.closestScan pos objects (FLT_MAX, none)).1 ∧
      ∀ o' ∈ objects, o.distance pos ≤ o'.distance pos := by
  obtain ⟨h1, _, h3⟩ := closestScan_spec pos objects FLT_MAX none
  rcases h3 with h3 | ⟨o, ho, e1, e2, _⟩
  · rw [h3] at h
    cases h
  · rw [h] at e1
    refine ⟨o, ho, Option.some.inj e1, e2, ?_⟩
    intro o' ho'
    rw [e2]
    exact h1 o' ho'

/-- The minimum the inner loop finds is the minimum over the roots as soon as there is a
root and the root distances at the position are finite floats. -/
theorem sceneDist_isMin (objects : List SDF) (pos : Vec3) (hne : objects ≠ [])
    (hfin : ∀ o ∈ objects, o.distance pos ≤ FLT_MAX) :
    IsMinRootDistance objects pos (sceneDist objects pos) := by
  obtain ⟨h1, _, h3⟩ := closestScan_spec pos objects FLT_MAX none
  rw [closestScan_fst_eq_sceneDist] at h1
  refine ⟨?_, h1⟩
  rcases h3 with h3 | ⟨o, ho, _, e2, _⟩
  · obtain ⟨o, ho⟩ := List.exists_mem_of_ne_nil objects hne
    have e : sceneDist objects pos = FLT_MAX := by
      rw [← closestScan_fst_eq_sceneDist, h3]
    exact ⟨o, ho, le_antisymm (by rw [e]; exact hfin o ho) (h1 o ho)⟩
  · rw [closestScan_fst_eq_sceneDist] at e2
    exact ⟨o, ho, e2⟩

/-! ## The outer loop of `march` -/

/-- One iteration of the outer loop, with the inner loop's result named. -/
theorem marchLoop_succ (order : List SDF.Probe) (objects : List SDF) (ray : Ray)
    (maxDist epsilon : ℝ) (n : ℕ) (t : ℝ) :
    Scene.marchLoop order objects ray maxDist epsilon (n + 1) t =
      if (Scene.closestScan (ray.at t) objects (FLT_MAX, none)).1 < epsilon then
        match (Scene.closestScan (ray.at t) objects (FLT_MAX, none)).2 with
        | none => MarchResult.nullDeref
        | some closestObject =>
            MarchResult.hit
              { distance := t
                position := ray.at t
                normal := closestObject.normal (ray.at t)
                material := (closestObject.afterNormal order (ray.at t)).getMaterial }
      else if t + (Scene.closestScan (ray.at t) objects (FLT_MAX, none)).1 > maxDist then
        MarchResult.miss
      else Scene.marchLoop order objects ray maxDist epsilon n
        (t + (Scene.closestScan (ray.at t) objects (FLT_MAX, none)).1) := rfl

/-- With a finite `epsilon` the loop never dereferences the null `closestObject`. -/
theorem marchLoop_ne_nullDeref (order : List SDF.Probe) (objects : List SDF) (ray : Ray)
    (maxDist epsilon : ℝ) (hfin : epsilon ≤ FLT_MAX) (n : ℕ) (t : ℝ) :
    Scene.marchLoop order objects ray maxDist epsilon n t ≠ MarchResult.nullDeref := by
  induction n generalizing t with
  | zero =>
    intro h
    cases h
  | succ n ih =>
    rw [marchLoop_succ]
    split_ifs with h1 h2
    · cases hc : (Scene.closestScan (ray.at t) objects (FLT_MAX, none)).2 with
      | none =>
        have := closestScan_none _ _ hc
        linarith
      | some closest =>
        intro h
        cases h
    · intro h
      cases h
    · exact ih _

/-- With a finite `epsilon`, `march` never dereferences the null `closestObject`. -/
theorem march_ne_nullDeref (order : List SDF.Probe) (sc : Scene) (ray : Ray)
    (maxDist epsilon : ℝ) (hfin : epsilon ≤ FLT_MAX) :
    sc.march order ray maxDist epsilon ≠ MarchResult.nullDeref :=
  marchLoop_ne_nullDeref order sc.objects ray maxDist epsilon hfin 100 0

theorem defaultEpsilon_le : defaultEpsilon ≤ FLT_MAX := by
  unfold defaultEpsilon FLT_MAX
  norm_num

/-- If no root comes closer than a finite `epsilon ≥ 0` anywhere on the forward ray, the
loop started at a parameter `t ≥ 0` misses. -/
theorem marchLoop_miss (order : List SDF.Probe) (objects : List SDF) (ray : Ray)
    (maxDist epsilon : ℝ) (h0 : 0 ≤ epsilon) (hfin : epsilon ≤ FLT_MAX)
    (hfar : ∀ t, 0 ≤ t → ∀ o ∈ objects, epsilon ≤ o.distance (ray.at t)) (n : ℕ) (t : ℝ)
    (ht : 0 ≤ t) :
    Scene.marchLoop order objects ray maxDist epsilon n t = MarchResult.miss := by
  induction n generalizing t with
  | zero => rfl
  | succ n ih =>
    have hge : epsilon ≤ (Scene.closestScan (ray.at t) objects (FLT_MAX, none)).1 := by
      rcases (closestScan_spec (ray.at t) objects FLT_MAX none).2.2 with h3 | ⟨o, ho, _, e2, _⟩
      · rw [h3]
        exact hfin
      · rw [← e2]
        exact hfar t ht o ho
    rw [marchLoop_succ, if_neg (not_lt.mpr hge)]
    split_ifs with h2
    · rfl
    · exact ih _ (by linarith)

theorem visitedParam_eq_sum (objects : List SDF) (ray : Ray) (j : ℕ) :
    visitedParam objects ray j =
      ∑ k in Finset.range j, sceneDist objects (ray.at (visitedParam objects ray k)) := by
  induction j with
  | zero => rfl
  | succ j ih =>
    rw [Finset.sum_range_succ, ← ih]
    rfl

/-- What a hit of the loop started at the `i`-th visited position tells: it happens at a
later visited position `j`, within the iterations left; the minimum found there is below
`epsilon`, at the positions in between it was not and the advance stayed within `maxDist`;
normal and material are taken from a root that attains the minimum over all roots. -/
theorem marchLoop_hit_spec (order : List SDF.Probe) (objects : List SDF) (ray : Ray)
    (maxDist epsilon : ℝ) (n i : ℕ) (h : Hit)
    (hhit : Scene.marchLoop order objects ray maxDist epsilon n (visitedParam objects ray i) =
      MarchResult.hit h) :
    ∃ j, i ≤ j ∧ j < i + n ∧ h.distance = visitedParam objects ray j ∧
      h.position = ray.at (visitedParam objects ray j) ∧
      sceneDist objects h.position < epsilon ∧
      (∀ k, i ≤ k → k < j →
        epsilon ≤ sceneDist objects (ray.at (visitedParam objects ray k)) ∧
        visitedParam objects ray (k + 1) ≤ maxDist) ∧
      ∃ o ∈ objects, o.distance h.position = sceneDist objects h.position ∧
        (∀ o' ∈ objects, o.distance h.position ≤ o'.distance h.position) ∧
        h.normal = o.normal h.position ∧
        h.material = ((o.afterDistance h.position).afterNormal order h.position).getMaterial := by
  induction n generalizing i with
  | zero => cases hhit
  | succ n ih =>
    rw [marchLoop_succ] at hhit
    split_ifs at hhit with h1 h2
    · cases hc : (Scene.closestScan (ray.at (visitedParam objects ray i)) objects
          (FLT_MAX, none)).2 with
      | none =>
        rw [hc] at hhit
        cases hhit
      | some closest =>
        rw [hc] at hhit
        obtain ⟨o, ho, e1, e2, e3⟩ := closestScan_some _ _ _ hc
        rw [closestScan_fst_eq_sceneDist] at h1 e2
        injection hhit with hh
        subst hh
        refine ⟨i, le_refl _, by omega, rfl, rfl, h1, ?_, o, ho, e2, e3, ?_, ?_⟩
        · intro k hk1 hk2
          omega
        · simp only [e1, SDF.normal_afterDistance]
        · simp only [e1]
    · rw [closestScan_fst_eq_sceneDist] at h1 h2 hhit
      obtain ⟨j, hj1, hj2, rest⟩ := ih (i + 1) hhit
      obtain ⟨r1, r2, r3, r4, r5⟩ := rest
      refine ⟨j, by omega, by omega, r1, r2, r3, ?_, r5⟩
      intro k hk1 hk2
      rcases Nat.eq_or_lt_of_le hk1 with rfl | hk
      · exact ⟨not_lt.mp h1, not_lt.mp h2⟩
      · exact r4 k hk hk2

/-! ## Marching towards a single sphere -/

theorem closestScan_singleton (pos : Vec3) (o : SDF) (h : o.distance pos < FLT_MAX) :
    Scene.closestScan pos [o] (FLT_MAX, none) = (o.distance pos, some (o.afterDistance pos)) := by
  simp only [Scene.closestScan, if_pos h]

theorem closestScan_singleton_fst (pos : Vec3) (o : SDF) (h : o.distance pos ≤ FLT_MAX) :
    (Scene.closestScan pos [o] (FLT_MAX, none)).1 = o.distance pos := by
  rw [closestScan_fst]
  simp only [List.foldl_cons, List.foldl_nil]
  exact min_eq_right h

theorem Ray.at_zero (ray : Ray) : ray.at 0 = ray.origin := by
  ext <;> simp [Ray.at]

theorem sphere_distance_eq (m : Material) (c : Vec3) (r : ℝ) (p : Vec3) :
    (SDF.Sphere m c r).distance p = euclid p c - r := by
  rw [euclid_eq_length]
  rfl

theorem sphere_afterNormal (order : List SDF.Probe) (m : Material) (c : Vec3) (r : ℝ)
    (p : Vec3) : (SDF.Sphere m c r).afterNormal order p = SDF.Sphere m c r := by
  unfold SDF.afterNormal
  induction order with
  | nil => rfl
  | cons a rest ih =>
    rw [List.foldl_cons]
    exact ih

/-- A ray aimed at the centre of a sphere reaches the surface after one step. -/
theorem ray_at_sphere_foot (c : Vec3) (r : ℝ) (ray : Ray) (hr : 0 ≤ r)
    (hout : r < euclid ray.origin c) (hdir : ray.direction = (c - ray.origin).normalize) :
    ray.at (euclid ray.origin c - r) =
      c + (ray.origin - c) * (r / euclid ray.origin c) := by
  have hL : 0 < euclid ray.origin c := lt_of_le_of_lt hr hout
  have hlen : (c - ray.origin).length = euclid ray.origin c := by
    rw [euclid_comm, euclid_eq_length]
  cases ray with
  | mk o d =>
    simp only at hdir hL hlen hout ⊢
    subst hdir
    unfold Ray.at Vec3.normalize
    rw [hlen]
    ext
    · simp only [Vec3.add_x, Vec3.smul_x, Vec3.sdiv_x, Vec3.sub_x]
      field_simp
      ring
    · simp only [Vec3.add_y, Vec3.smul_y, Vec3.sdiv_y, Vec3.sub_y]
      field_simp
      ring
    · simp only [Vec3.add_z, Vec3.smul_z, Vec3.sdiv_z, Vec3.sub_z]
      field_simp
      ring

/-- The march towards the centre of a single sphere: the first step lands on the surface and
the second iteration reports the hit there. -/
theorem march_sphere_toward (order : List SDF.Probe) (sc : Scene) (m : Material) (c : Vec3)
    (r : ℝ) (ray : Ray) (maxDist epsilon : ℝ) (hsc : sc.objects = [SDF.Sphere m c r])
    (hr : 0 < r) (heps : 0 < epsilon) (hstart : epsilon ≤ euclid ray.origin c - r)
    (hdir : ray.direction = (c - ray.origin).normalize)
    (hmax : euclid ray.origin c - r ≤ maxDist) (hfin : maxDist ≤ FLT_MAX) :
    sc.march order ray maxDist epsilon = MarchResult.hit
      { distance := euclid ray.origin c - r
        position := ray.at (euclid ray.origin c - r)
        normal := (SDF.Sphere m c r).normal (ray.at (euclid ray.origin c - r))
        material := m } ∧
    euclid (ray.at (euclid ray.origin c - r)) c = r := by
  have hout : r < euclid ray.origin c := by linarith
  have hfoot : euclid (ray.at (euclid ray.origin c - r)) c = r := by
    rw [ray_at_sphere_foot c r ray hr.le hout hdir]
    exact (sphere_foot c ray.origin r hr.le hout).1
  refine ⟨?_, hfoot⟩
  have hs0 : (Scene.closestScan (ray.at 0) [SDF.Sphere m c r] (FLT_MAX, none)).1 =
      euclid ray.origin c - r := by
    rw [closestScan_singleton_fst, Ray.at_zero, sphere_distance_eq]
    rw [Ray.at_zero, sphere_distance_eq]
    linarith
  have hd1 : (SDF.Sphere m c r).distance (ray.at (euclid ray.origin c - r)) = 0 := by
    rw [sphere_distance_eq, hfoot, sub_self]
  have hs1 : Scene.closestScan (ray.at (euclid ray.origin c - r)) [SDF.Sphere m c r]
      (FLT_MAX, none) = (0, some (SDF.Sphere m c r)) := by
    rw [closestScan_singleton _ _ (by rw [hd1]; exact FLT_MAX_pos), hd1]
    rfl
  unfold Scene.march
  rw [hsc, marchLoop_succ, hs0, if_neg (not_lt.mpr hstart), zero_add,
    if_neg (not_lt.mpr hmax), marchLoop_succ, hs1]
  simp only [if_pos heps, sphere_afterNormal, SDF.getMaterial]

/-- The estimated normal of the unit sphere at its pole `(0, 0, 1)`. -/
theorem sphere_normal_pole (m : Material) :
    (SDF.Sphere m ⟨0, 0, 0⟩ 1).normal ⟨0, 0, 1⟩ = ⟨0, 0, 1⟩ := by
  have hx : ((⟨0, 0, 1⟩ + ⟨SDF.normalStep, 0, 0⟩ : Vec3) - ⟨0, 0, 0⟩).length =
      ((⟨0, 0, 1⟩ - ⟨SDF.normalStep, 0, 0⟩ : Vec3) - ⟨0, 0, 0⟩).length := by
    unfold Vec3.length
    congr 1
    simp only [Vec3.add_x, Vec3.add_y, Vec3.add_z, Vec3.sub_x, Vec3.sub_y, Vec3.sub_z]
    ring
  have hy : ((⟨0, 0, 1⟩ + ⟨0, SDF.normalStep, 0⟩ : Vec3) - ⟨0, 0, 0⟩).length =
      ((⟨0, 0, 1⟩ - ⟨0, SDF.normalStep, 0⟩ : Vec3) - ⟨0, 0, 0⟩).length := by
    unfold Vec3.length
    congr 1
    simp only [Vec3.add_x, Vec3.add_y, Vec3.add_z, Vec3.sub_x, Vec3.sub_y, Vec3.sub_z]
    ring
  have hz1 : ((⟨0, 0, 1⟩ + ⟨0, 0, SDF.normalStep⟩ : Vec3) - ⟨0, 0, 0⟩).length =
      1 + 1 / 10000 := by
    apply Vec3.length_eq_of_mul_self _ _ (by norm_num)
    simp only [Vec3.add_x, Vec3.add_y, Vec3.add_z, Vec3.sub_x, Vec3.sub_y, Vec3.sub_z,
      SDF.normalStep]
    norm_num
  have hz2 : ((⟨0, 0, 1⟩ - ⟨0, 0, SDF.normalStep⟩ : Vec3) - ⟨0, 0, 0⟩).length =
      1 - 1 / 10000 := by
    apply Vec3.length_eq_of_mul_self _ _ (by norm_num)
    simp only [Vec3.sub_x, Vec3.sub_y, Vec3.sub_z, SDF.normalStep]
    norm_num
  have hl : (Vec3.mk 0 0 (2 / 10000)).length = 2 / 10000 := by
    apply Vec3.length_eq_of_mul_self _ _ (by norm_num)
    norm_num
  simp only [SDF.normal, SDF.distance, hx, hy, hz1, hz2, sub_self]
  have e : (1 + 1 / 10000 - 1 - (1 - 1 / 10000 - 1) : ℝ) = 2 / 10000 := by norm_num
  rw [e]
  unfold Vec3.normalize
  rw [hl]
  ext <;> simp

/-- The witness of the spec: the unit sphere at the origin, marched from `(0, 0, 5)` along
`-z` with the default arguments, is hit at distance `4` with normal `(0, 0, 1)`. -/
theorem march_unit_sphere (order : List SDF.Probe) :
    (Scene.add {} (SDF.newSphere ⟨0, 0, 0⟩ 1)).march order ⟨⟨0, 0, 5⟩, ⟨0, 0, -1⟩⟩
      defaultMaxDist defaultEpsilon =
    MarchResult.hit { distance := 4, position := ⟨0, 0, 1⟩, normal := ⟨0, 0, 1⟩, material := {} } := by
  have hL : euclid ⟨0, 0, 5⟩ ⟨0, 0, 0⟩ = 5 := by
    rw [euclid_eq_length]
    apply Vec3.length_eq_of_mul_self _ _ (by norm_num)
    simp only [Vec3.sub_x, Vec3.sub_y, Vec3.sub_z]
    norm_num
  have hlen : ((⟨0, 0, 0⟩ : Vec3) - ⟨0, 0, 5⟩).length = 5 := by
    apply Vec3.length_eq_of_mul_self _ _ (by norm_num)
    simp only [Vec3.sub_x, Vec3.sub_y, Vec3.sub_z]
    norm_num
  have hdir : (⟨0, 0, -1⟩ : Vec3) = ((⟨0, 0, 0⟩ : Vec3) - ⟨0, 0, 5⟩).normalize := by
    unfold Vec3.normalize
    rw [hlen]
    ext <;> simp
  have h := (march_sphere_toward order (Scene.add {} (SDF.newSphere ⟨0, 0, 0⟩ 1)) {}
    ⟨0, 0, 0⟩ 1 ⟨⟨0, 0, 5⟩, ⟨0, 0, -1⟩⟩ defaultMaxDist defaultEpsilon rfl one_pos
    (by unfold defaultEpsilon; norm_num)
    (by rw [hL]; unfold defaultEpsilon; norm_num) hdir
    (by rw [hL]; unfold defaultMaxDist; norm_num)
    (by unfold defaultMaxDist FLT_MAX; norm_num)).1
  have hat : (Ray.mk ⟨0, 0, 5⟩ ⟨0, 0, -1⟩).at 4 = ⟨0, 0, 1⟩ := by
    ext <;> simp [Ray.at]
    norm_num
  have e4 : (5 - 1 : ℝ) = 4 := by norm_num
  simp only [hL, e4, hat, sphere_normal_pole] at h
  exact h

theorem ray_axis_at (a b t : ℝ) : (Ray.mk ⟨0, 0, a⟩ ⟨0, 0, b⟩).at t = ⟨0, 0, a + b * t⟩ := by
  ext <;> simp [Ray.at]

theorem sphere_axis_distance (m : Material) (r z : ℝ) :
    (SDF.Sphere m ⟨0, 0, 0⟩ r).distance ⟨0, 0, z⟩ = |z| - r := by
  simp only [SDF.distance, Vec3.length, Vec3.sub_x, Vec3.sub_y, Vec3.sub_z, sub_zero,
    mul_zero, zero_add, Real.sqrt_mul_self_eq_abs]

/-- The inner loop for a sphere at the origin and a position on the z axis. -/
theorem axis_scan (m : Material) (r z : ℝ) (h : |z| - r < FLT_MAX) :
    Scene.closestScan ⟨0, 0, z⟩ [SDF.Sphere m ⟨0, 0, 0⟩ r] (FLT_MAX, none) =
      (|z| - r, some (SDF.Sphere m ⟨0, 0, 0⟩ r)) := by
  rw [closestScan_singleton _ _ (by rw [sphere_axis_distance]; exact h), sphere_axis_distance]
  rfl

/-! ## C1 to C4: the march -/

/-- C2: for every scene, ray, `maxDist ≥ 0` and `epsilon > 0`, whenever `march` returns a
hit: the position is `ray.at(hit.distance)`, the distance lies in `[0, maxDist]`, the minimum
over all roots of the distance at the hit position is below `epsilon`, and the distance is
the sum of the minimum distances found at the (fewer than 100) positions visited before;
the minimum found at such a position is the minimum over all roots whenever the root
distances there are finite floats. -/
theorem C2_march_hit (order : List SDF.Probe) (sc : Scene) (ray : Ray) (maxDist epsilon : ℝ)
    (hit : Hit) (hmax : 0 ≤ maxDist) (heps : 0 < epsilon)
    (hhit : sc.march order ray maxDist epsilon = MarchResult.hit hit) :
    hit.position = ray.at hit.distance ∧ 0 ≤ hit.distance ∧ hit.distance ≤ maxDist ∧
    (∃ d, IsMinRootDistance sc.objects hit.position d ∧ d < epsilon) ∧
    ∃ j < 100,
      hit.distance =
        ∑ k in Finset.range j, sceneDist sc.objects (ray.at (visitedParam sc.objects ray k)) ∧
      ∀ k < j, (∀ o ∈ sc.objects, o.distance (ray.at (visitedParam sc.objects ray k)) ≤ FLT_MAX) →
        IsMinRootDistance sc.objects (ray.at (visitedParam sc.objects ray k))
          (sceneDist sc.objects (ray.at (visitedParam sc.objects ray k))) := by
  obtain ⟨j, _, hj, hd, hp, hlt, hprev, o, ho, e1, e2, _, _⟩ :=
    marchLoop_hit_spec order sc.objects ray maxDist epsilon 100 0 hit hhit
  refine ⟨by rw [hp, hd], ?_, ?_, ⟨_, ⟨⟨o, ho, e1⟩, by rw [← e1]; exact e2⟩, hlt⟩, j,
    by omega, ?_, fun k _ hk => sceneDist_isMin _ _ (List.ne_nil_of_mem ho) hk⟩
  · rw [hd, visitedParam_eq_sum]
    apply Finset.sum_nonneg
    intro k hk
    have := (hprev k (Nat.zero_le _) (Finset.mem_range.mp hk)).1
    linarith
  · rw [hd]
    cases j with
    | zero => exact hmax
    | succ j => exact (hprev j (Nat.zero_le _) (Nat.lt_succ_self _)).2
  · rw [hd, visitedParam_eq_sum]

/-- Witness for C2: the hit of the spec's example (unit sphere, ray from `(0, 0, 5)`). -/
theorem C2_march_hit_witness :
    ((0 : ℝ) ≤ defaultMaxDist ∧ 0 < defaultEpsilon ∧
      (Scene.add {} (SDF.newSphere ⟨0, 0, 0⟩ 1)).march sourceOrder ⟨⟨0, 0, 5⟩, ⟨0, 0, -1⟩⟩
        defaultMaxDist defaultEpsilon =
      MarchResult.hit { distance := 4, position := ⟨0, 0, 1⟩, normal := ⟨0, 0, 1⟩, material := {} }) ∧
    ((⟨0, 0, 1⟩ : Vec3) = (Ray.mk ⟨0, 0, 5⟩ ⟨0, 0, -1⟩).at 4 ∧ (0 : ℝ) ≤ 4 ∧
      (4 : ℝ) ≤ defaultMaxDist ∧
      (∃ d, IsMinRootDistance (Scene.add {} (SDF.newSphere ⟨0, 0, 0⟩ 1)).objects ⟨0, 0, 1⟩ d ∧
        d < defaultEpsilon) ∧
      ∃ j < 100,
        (4 : ℝ) = ∑ k in Finset.range j,
          sceneDist (Scene.add {} (SDF.newSphere ⟨0, 0, 0⟩ 1)).objects
            ((Ray.mk ⟨0, 0, 5⟩ ⟨0, 0, -1⟩).at
              (visitedParam (Scene.add {} (SDF.newSphere ⟨0, 0, 0⟩ 1)).objects
                ⟨⟨0, 0, 5⟩, ⟨0, 0, -1⟩⟩ k)) ∧
        ∀ k < j,
          (∀ o ∈ (Scene.add {} (SDF.newSphere ⟨0, 0, 0⟩ 1)).objects,
            o.distance ((Ray.mk ⟨0, 0, 5⟩ ⟨0, 0, -1⟩).at
              (visitedParam (Scene.add {} (SDF.newSphere ⟨0, 0, 0⟩ 1)).objects
                ⟨⟨0, 0, 5⟩, ⟨0, 0, -1⟩⟩ k)) ≤ FLT_MAX) →
          IsMinRootDistance (Scene.add {} (SDF.newSphere ⟨0, 0, 0⟩ 1)).objects
            ((Ray.mk ⟨0, 0, 5⟩ ⟨0, 0, -1⟩).at
              (visitedParam (Scene.add {} (SDF.newSphere ⟨0, 0, 0⟩ 1)).objects
                ⟨⟨0, 0, 5⟩, ⟨0, 0, -1⟩⟩ k))
            (sceneDist (Scene.add {} (SDF.newSphere ⟨0, 0, 0⟩ 1)).objects
              ((Ray.mk ⟨0, 0, 5⟩ ⟨0, 0, -1⟩).at
                (visitedParam (Scene.add {} (SDF.newSphere ⟨0, 0, 0⟩ 1)).objects
                  ⟨⟨0, 0, 5⟩, ⟨0, 0, -1⟩⟩ k)))) := by
  have h0 : (0 : ℝ) ≤ defaultMaxDist := by
    unfold defaultMaxDist
    norm_num
  have h1 : (0 : ℝ) < defaultEpsilon := by
    unfold defaultEpsilon
    norm_num
  exact ⟨⟨h0, h1, march_unit_sphere sourceOrder⟩,
    C2_march_hit sourceOrder (Scene.add {} (SDF.newSphere ⟨0, 0, 0⟩ 1))
      ⟨⟨0, 0, 5⟩, ⟨0, 0, -1⟩⟩ defaultMaxDist defaultEpsilon
      { distance := 4, position := ⟨0, 0, 1⟩, normal := ⟨0, 0, 1⟩, material := {} } h0 h1
      (march_unit_sphere sourceOrder)⟩

/-- C3 as stated fails for a negative `epsilon`: for the unit sphere at the origin and the ray
from `(0, 0, 7/8)` along `+z`, every root distance on the forward ray is at least
`epsilon = -1/4`, yet the march steps backwards (`t = 0, -1/8, -3/8`) and returns a hit at
`(0, 0, 1/2)`. -/
theorem C3_negative_epsilon_hit :
    (∀ t : ℝ, 0 ≤ t → ∀ o ∈ (Scene.add {} (SDF.newSphere ⟨0, 0, 0⟩ 1)).objects,
      (-1 / 4 : ℝ) ≤ o.distance ((Ray.mk ⟨0, 0, 7 / 8⟩ ⟨0, 0, 1⟩).at t)) ∧
    ∃ hit, (Scene.add {} (SDF.newSphere ⟨0, 0, 0⟩ 1)).march sourceOrder
        ⟨⟨0, 0, 7 / 8⟩, ⟨0, 0, 1⟩⟩ defaultMaxDist (-1 / 4) = MarchResult.hit hit ∧
      hit.distance = -3 / 8 ∧ hit.position = ⟨0, 0, 1 / 2⟩ := by
  constructor
  · intro t ht o ho
    have ho' : o = SDF.Sphere {} ⟨0, 0, 0⟩ 1 := by
      simpa [Scene.add, SDF.newSphere] using ho
    rw [ho', ray_axis_at, sphere_axis_distance]
    have : 0 ≤ |7 / 8 + 1 * t| := abs_nonneg _
    have h2 : 7 / 8 + 1 * t ≤ |7 / 8 + 1 * t| := le_abs_self _
    linarith
  · have hF : (0 : ℝ) < FLT_MAX := FLT_MAX_pos
    have a0 : |(7 / 8 + 1 * 0 : ℝ)| = 7 / 8 := by
      rw [abs_of_nonneg] <;> norm_num
    have a1 : |(7 / 8 + 1 * (0 + (7 / 8 - 1)) : ℝ)| = 3 / 4 := by
      rw [abs_of_nonneg] <;> norm_num
    have a2 : |(7 / 8 + 1 * (0 + (7 / 8 - 1) + (3 / 4 - 1)) : ℝ)| = 1 / 2 := by
      rw [abs_of_nonneg] <;> norm_num
    have hobj : (Scene.add {} (SDF.newSphere ⟨0, 0, 0⟩ 1)).objects =
        [SDF.Sphere {} ⟨0, 0, 0⟩ 1] := rfl
    have hm : (Scene.add {} (SDF.newSphere ⟨0, 0, 0⟩ 1)).march sourceOrder
        ⟨⟨0, 0, 7 / 8⟩, ⟨0, 0, 1⟩⟩ defaultMaxDist (-1 / 4) =
        MarchResult.hit
          { distance := 0 + (7 / 8 - 1) + (3 / 4 - 1)
            position := ⟨0, 0, 7 / 8 + 1 * (0 + (7 / 8 - 1) + (3 / 4 - 1))⟩
            normal := (SDF.Sphere {} ⟨0, 0, 0⟩ 1).normal
              ⟨0, 0, 7 / 8 + 1 * (0 + (7 / 8 - 1) + (3 / 4 - 1))⟩
            material := {} } := by
      unfold Scene.march
      rw [hobj, marchLoop_succ, ray_axis_at, axis_scan _ _ _ (by rw [a0]; linarith), a0,
        if_neg (by norm_num), if_neg (by unfold defaultMaxDist; norm_num), marchLoop_succ,
        ray_axis_at, axis_scan _ _ _ (by rw [a1]; linarith), a1, if_neg (by norm_num),
        if_neg (by unfold defaultMaxDist; norm_num), marchLoop_succ, ray_axis_at,
        axis_scan _ _ _ (by rw [a2]; linarith), a2, if_pos (by norm_num)]
      simp only [sphere_afterNormal, SDF.getMaterial]
    refine ⟨_, hm, ?_, ?_⟩
    · norm_num
    · ext <;> norm_num

/-- C3, amended: for every scene, ray and `maxDist` and every finite `epsilon ≥ 0`, if at
every point `ray.at(t)` with `t ≥ 0` every root's distance is at least `epsilon`, then
`march` returns a miss. -/
theorem C3_march_miss (order : List SDF.Probe) (sc : Scene) (ray : Ray) (maxDist epsilon : ℝ)
    (h0 : 0 ≤ epsilon) (hfin : epsilon ≤ FLT_MAX)
    (hfar : ∀ t, 0 ≤ t → ∀ o ∈ sc.objects, epsilon ≤ o.distance (ray.at t)) :
    sc.march order ray maxDist epsilon = MarchResult.miss :=
  marchLoop_miss order sc.objects ray maxDist epsilon h0 hfin hfar 100 0 (le_refl 0)

/-- Witness for C3: the claim's example, the unit sphere with a ray from `(0, 0, 5)` along
`+z`. -/
theorem C3_march_miss_witness :
    ((0 : ℝ) ≤ defaultEpsilon ∧ defaultEpsilon ≤ FLT_MAX ∧
      ∀ t : ℝ, 0 ≤ t → ∀ o ∈ (Scene.add {} (SDF.newSphere ⟨0, 0, 0⟩ 1)).objects,
        defaultEpsilon ≤ o.distance ((Ray.mk ⟨0, 0, 5⟩ ⟨0, 0, 1⟩).at t)) ∧
    (Scene.add {} (SDF.newSphere ⟨0, 0, 0⟩ 1)).march sourceOrder ⟨⟨0, 0, 5⟩, ⟨0, 0, 1⟩⟩
      defaultMaxDist defaultEpsilon = MarchResult.miss := by
  have h0 : (0 : ℝ) ≤ defaultEpsilon := by
    unfold defaultEpsilon
    norm_num
  have hfar : ∀ t : ℝ, 0 ≤ t → ∀ o ∈ (Scene.add {} (SDF.newSphere ⟨0, 0, 0⟩ 1)).objects,
      defaultEpsilon ≤ o.distance ((Ray.mk ⟨0, 0, 5⟩ ⟨0, 0, 1⟩).at t) := by
    intro t ht o ho
    have ho' : o = SDF.Sphere {} ⟨0, 0, 0⟩ 1 := by
      simpa [Scene.add, SDF.newSphere] using ho
    rw [ho', ray_axis_at, sphere_axis_distance]
    have h2 : 5 + 1 * t ≤ |5 + 1 * t| := le_abs_self _
    unfold defaultEpsilon
    linarith
  exact ⟨⟨h0, defaultEpsilon_le, hfar⟩,
    C3_march_miss sourceOrder (Scene.add {} (SDF.newSphere ⟨0, 0, 0⟩ 1))
      ⟨⟨0, 0, 5⟩, ⟨0, 0, 1⟩⟩ defaultMaxDist defaultEpsilon h0 defaultEpsilon_le hfar⟩

/-- Without roots every iteration finds the minimum `FLT_MAX` and no closest object. -/
theorem marchLoop_nil (order : List SDF.Probe) (ray : Ray) (maxDist epsilon : ℝ)
    (hfin : epsilon ≤ FLT_MAX) (n : ℕ) (t : ℝ) :
    Scene.marchLoop order [] ray maxDist epsilon n t = MarchResult.miss := by
  induction n generalizing t with
  | zero => rfl
  | succ n ih =>
    rw [marchLoop_succ]
    simp only [Scene.closestScan]
    rw [if_neg (not_lt.mpr hfin)]
    split_ifs with h
    · rfl
    · exact ih _

/-- On one axis, a point of the interval `[c - h, c + h]` is at least the excess
`max(|p - c| - h, 0)` away from `p`. -/
theorem axis_lower (p c h b : ℝ) (hb1 : c - h ≤ b) (hb2 : b ≤ c + h) :
    max (|p - c| - h) 0 * max (|p - c| - h) 0 ≤ (p - b) ^ 2 := by
  have h1 : |p - c| ≤ |p - b| + |b - c| := by
    have := abs_add (p - b) (b - c)
    rwa [sub_add_sub_cancel] at this
  have h2 : |b - c| ≤ h := abs_le.mpr ⟨by linarith, by linarith⟩
  have he : max (|p - c| - h) 0 ≤ |p - b| := max_le (by linarith) (abs_nonneg _)
  have h0 : 0 ≤ max (|p - c| - h) 0 := le_max_right _ _
  calc max (|p - c| - h) 0 * max (|p - c| - h) 0 ≤ |p - b| * |p - b| :=
        mul_le_mul he he h0 (abs_nonneg _)
    _ = (p - b) ^ 2 := by rw [abs_mul_abs_self, sq]

/-- On one axis, clamping `p` to the interval `[c - h, c + h]` gives a point of the interval
at exactly the excess `max(|p - c| - h, 0)` from `p`. -/
theorem axis_clamp (p c h : ℝ) (hh : 0 ≤ h) :
    c - h ≤ max (c - h) (min p (c + h)) ∧ max (c - h) (min p (c + h)) ≤ c + h ∧
    (p - max (c - h) (min p (c + h))) ^ 2 = max (|p - c| - h) 0 * max (|p - c| - h) 0 := by
  refine ⟨le_max_left _ _, max_le (by linarith) (min_le_right _ _), ?_⟩
  rcases le_total p (c + h) with h1 | h1
  · rw [min_eq_left h1]
    rcases le_total (c - h) p with h2 | h2
    · rw [max_eq_right h2, max_eq_right]
      · ring
      · have : |p - c| ≤ h := abs_le.mpr ⟨by linarith, by linarith⟩
        linarith
    · rw [max_eq_left h2, abs_of_nonpos (by linarith), max_eq_left (by linarith)]
      ring
  · rw [min_eq_right h1, max_eq_right (by linarith), abs_of_nonneg (by linarith),
      max_eq_left (by linarith)]
    ring

theorem abs_sub_x_le_euclid (p q : Vec3) : |p.x - q.x| ≤ euclid p q :=
  Real.abs_le_sqrt (by nlinarith [sq_nonneg (p.y - q.y), sq_nonneg (p.z - q.z)])

theorem abs_sub_y_le_euclid (p q : Vec3) : |p.y - q.y| ≤ euclid p q :=
  Real.abs_le_sqrt (by nlinarith [sq_nonneg (p.x - q.x), sq_nonneg (p.z - q.z)])

theorem abs_sub_z_le_euclid (p q : Vec3) : |p.z - q.z| ≤ euclid p q :=
  Real.abs_le_sqrt (by nlinarith [sq_nonneg (p.x - q.x), sq_nonneg (p.y - q.y)])

/-- On one axis, the end of the interval `[c - h, c + h]` on the side of an inner point `p`
is `h - |p - c|` away from `p`. -/
theorem axis_face (p c h : ℝ) (h1 : c - h ≤ p) (h2 : p ≤ c + h) :
    ∃ b, c - h ≤ b ∧ b ≤ c + h ∧ |b - c| = h ∧ |p - b| = h - |p - c| := by
  have hh : 0 ≤ h := by linarith
  rcases le_total c p with hp | hp
  · refine ⟨c + h, by linarith, le_refl _, ?_, ?_⟩
    · rw [add_sub_cancel_left, abs_of_nonneg hh]
    · rw [abs_of_nonpos (by linarith), abs_of_nonneg (by linarith)]
      ring
  · refine ⟨c - h, le_refl _, by linarith, ?_, ?_⟩
    · rw [sub_sub_cancel_left, abs_neg, abs_of_nonneg hh]
    · rw [abs_of_nonneg (by linarith), abs_of_nonpos (by linarith)]
      ring

theorem euclid_x_only (p : Vec3) (b : ℝ) : euclid p ⟨b, p.y, p.z⟩ = |p.x - b| := by
  unfold euclid
  simp only [sub_self, ne_eq, OfNat.ofNat_ne_zero, not_false_eq_true, zero_pow, add_zero]
  exact Real.sqrt_sq_eq_abs _

theorem euclid_y_only (p : Vec3) (b : ℝ) : euclid p ⟨p.x, b, p.z⟩ = |p.y - b| := by
  unfold euclid
  simp only [sub_self, ne_eq, OfNat.ofNat_ne_zero, not_false_eq_true, zero_pow, add_zero,
    zero_add]
  exact Real.sqrt_sq_eq_abs _

theorem euclid_z_only (p : Vec3) (b : ℝ) : euclid p ⟨p.x, p.y, b⟩ = |p.z - b| := by
  unfold euclid
  simp only [sub_self, ne_eq, OfNat.ofNat_ne_zero, not_false_eq_true, zero_pow, zero_add]
  exact Real.sqrt_sq_eq_abs _

/-- The value of `Box::distance` with the per-axis excesses written out. -/
theorem box_distance_eq (m : Material) (c dim p : Vec3) :
    (SDF.Box m c dim).distance p =
      min (max (|p.x - c.x| - dim.x / 2) (max (|p.y - c.y| - dim.y / 2)
        (|p.z - c.z| - dim.z / 2))) 0 +
      Real.sqrt (max (|p.x - c.x| - dim.x / 2) 0 * max (|p.x - c.x| - dim.x / 2) 0 +
        max (|p.y - c.y| - dim.y / 2) 0 * max (|p.y - c.y| - dim.y / 2) 0 +
        max (|p.z - c.z| - dim.z / 2) 0 * max (|p.z - c.z| - dim.z / 2) 0) := by
  simp only [SDF.distance, Vec3.length, mul_one_div]

/-- Outside the solid box: `Box::distance` is the distance to the nearest point of the box. -/
theorem box_outside (m : Material) (c dim p : Vec3) (hx : 0 ≤ dim.x) (hy : 0 ≤ dim.y)
    (hz : 0 ≤ dim.z) (hout : ¬ inSolidBox c dim p) :
    IsNearestDistance (inSolidBox c dim) p ((SDF.Box m c dim).distance p) := by
  rw [box_distance_eq]
  have hpos : 0 < max (|p.x - c.x| - dim.x / 2) (max (|p.y - c.y| - dim.y / 2)
      (|p.z - c.z| - dim.z / 2)) := by
    by_contra hneg
    push_neg at hneg
    have h1 := (le_max_left _ _).trans hneg
    have h2 := ((le_max_left _ _).trans (le_max_right _ _)).trans hneg
    have h3 := ((le_max_right _ _).trans (le_max_right _ _)).trans hneg
    apply hout
    have a1 := abs_le.mp (by linarith : |p.x - c.x| ≤ dim.x / 2)
    have a2 := abs_le.mp (by linarith : |p.y - c.y| ≤ dim.y / 2)
    have a3 := abs_le.mp (by linarith : |p.z - c.z| ≤ dim.z / 2)
    exact ⟨⟨by linarith [a1.1], by linarith [a1.2]⟩, ⟨by linarith [a2.1], by linarith [a2.2]⟩,
      ⟨by linarith [a3.1], by linarith [a3.2]⟩⟩
  rw [min_eq_right hpos.le, zero_add]
  constructor
  · obtain ⟨x1, x2, x3⟩ := axis_clamp p.x c.x (dim.x / 2) (by linarith)
    obtain ⟨y1, y2, y3⟩ := axis_clamp p.y c.y (dim.y / 2) (by linarith)
    obtain ⟨z1, z2, z3⟩ := axis_clamp p.z c.z (dim.z / 2) (by linarith)
    refine ⟨⟨max (c.x - dim.x / 2) (min p.x (c.x + dim.x / 2)),
      max (c.y - dim.y / 2) (min p.y (c.y + dim.y / 2)),
      max (c.z - dim.z / 2) (min p.z (c.z + dim.z / 2))⟩, ⟨⟨x1, x2⟩, ⟨y1, y2⟩, ⟨z1, z2⟩⟩, ?_⟩
    unfold euclid
    rw [x3, y3, z3]
  · intro b hb
    obtain ⟨⟨bx1, bx2⟩, ⟨by1, by2⟩, ⟨bz1, bz2⟩⟩ := hb
    unfold euclid
    apply Real.sqrt_le_sqrt
    have ax := axis_lower p.x c.x (dim.x / 2) b.x bx1 bx2
    have ay := axis_lower p.y c.y (dim.y / 2) b.y by1 by2
    have az := axis_lower p.z c.z (dim.z / 2) b.z bz1 bz2
    linarith

/-- Inside the solid box: `Box::distance` is minus the distance to the nearest face. -/
theorem box_inside (m : Material) (c dim p : Vec3) (hin : inSolidBox c dim p) :
    IsNearestDistance (onBoxFace c dim) p (-((SDF.Box m c dim).distance p)) := by
  obtain ⟨⟨x1, x2⟩, ⟨y1, y2⟩, ⟨z1, z2⟩⟩ := hin
  have hin : inSolidBox c dim p := ⟨⟨x1, x2⟩, ⟨y1, y2⟩, ⟨z1, z2⟩⟩
  have qx : |p.x - c.x| - dim.x / 2 ≤ 0 := by
    have := abs_le.mpr (⟨by linarith, by linarith⟩ : -(dim.x / 2) ≤ p.x - c.x ∧ p.x - c.x ≤ dim.x / 2)
    linarith
  have qy : |p.y - c.y| - dim.y / 2 ≤ 0 := by
    have := abs_le.mpr (⟨by linarith, by linarith⟩ : -(dim.y / 2) ≤ p.y - c.y ∧ p.y - c.y ≤ dim.y / 2)
    linarith
  have qz : |p.z - c.z| - dim.z / 2 ≤ 0 := by
    have := abs_le.mpr (⟨by linarith, by linarith⟩ : -(dim.z / 2) ≤ p.z - c.z ∧ p.z - c.z ≤ dim.z / 2)
    linarith
  rw [box_distance_eq, max_eq_right qx, max_eq_right qy, max_eq_right qz,
    min_eq_left (max_le qx (max_le qy qz))]
  simp only [mul_zero, add_zero, Real.sqrt_zero]
  constructor
  · rcases max_choice (|p.x - c.x| - dim.x / 2)
        (max (|p.y - c.y| - dim.y / 2) (|p.z - c.z| - dim.z / 2)) with e | e
    · obtain ⟨b, b1, b2, b3, b4⟩ := axis_face p.x c.x (dim.x / 2) x1 x2
      refine ⟨⟨b, p.y, p.z⟩, ⟨⟨⟨b1, b2⟩, ⟨y1, y2⟩, ⟨z1, z2⟩⟩, Or.inl b3⟩, ?_⟩
      rw [euclid_x_only, b4, e]
      ring
    · rcases max_choice (|p.y - c.y| - dim.y / 2) (|p.z - c.z| - dim.z / 2) with e' | e'
      · obtain ⟨b, b1, b2, b3, b4⟩ := axis_face p.y c.y (dim.y / 2) y1 y2
        refine ⟨⟨p.x, b, p.z⟩, ⟨⟨⟨x1, x2⟩, ⟨b1, b2⟩, ⟨z1, z2⟩⟩, Or.inr (Or.inl b3)⟩, ?_⟩
        rw [euclid_y_only, b4, e, e']
        ring
      · obtain ⟨b, b1, b2, b3, b4⟩ := axis_face p.z c.z (dim.z / 2) z1 z2
        refine ⟨⟨p.x, p.y, b⟩, ⟨⟨⟨x1, x2⟩, ⟨y1, y2⟩, ⟨b1, b2⟩⟩, Or.inr (Or.inr b3)⟩, ?_⟩
        rw [euclid_z_only, b4, e, e']
        ring
  · intro b hb
    obtain ⟨_, hface⟩ := hb
    have m1 : |p.x - c.x| - dim.x / 2 ≤ max (|p.x - c.x| - dim.x / 2)
        (max (|p.y - c.y| - dim.y / 2) (|p.z - c.z| - dim.z / 2)) := le_max_left _ _
    have m2 : |p.y - c.y| - dim.y / 2 ≤ max (|p.x - c.x| - dim.x / 2)
        (max (|p.y - c.y| - dim.y / 2) (|p.z - c.z| - dim.z / 2)) :=
      (le_max_left _ _).trans (le_max_right _ _)
    have m3 : |p.z - c.z| - dim.z / 2 ≤ max (|p.x - c.x| - dim.x / 2)
        (max (|p.y - c.y| - dim.y / 2) (|p.z - c.z| - dim.z / 2)) :=
      (le_max_right _ _).trans (le_max_right _ _)
    rcases hface with hf | hf | hf
    · have t1 := abs_sub_x_le_euclid p b
      have t2 : |b.x - c.x| ≤ |b.x - p.x| + |p.x - c.x| := by
        have := abs_add (b.x - p.x) (p.x - c.x)
        rwa [sub_add_sub_cancel] at this
      rw [abs_sub_comm b.x p.x] at t2
      linarith
    · have t1 := abs_sub_y_le_euclid p b
      have t2 : |b.y - c.y| ≤ |b.y - p.y| + |p.y - c.y| := by
        have := abs_add (b.y - p.y) (p.y - c.y)
        rwa [sub_add_sub_cancel] at this
      rw [abs_sub_comm b.y p.y] at t2
      linarith
    · have t1 := abs_sub_z_le_euclid p b
      have t2 : |b.z - c.z| ≤ |b.z - p.z| + |p.z - c.z| := by
        have := abs_add (b.z - p.z) (p.z - c.z)
        rwa [sub_add_sub_cancel] at this
      rw [abs_sub_comm b.z p.z] at t2
      linarith

/-- C8: for every box with centre `c` and strictly positive dimensions `dim` and every point
`p`: if `p` is outside the solid box `[c - dim/2, c + dim/2]`, `Box::distance` is the
Euclidean distance from `p` to the nearest point of the box, and if `p` is inside, it is minus
the distance from `p` to the nearest face. -/
theorem C8_box_distance (m : Material) (c dim p : Vec3) (hx : 0 < dim.x) (hy : 0 < dim.y)
    (hz : 0 < dim.z) :
    (¬ inSolidBox c dim p →
      IsNearestDistance (inSolidBox c dim) p ((SDF.Box m c dim).distance p)) ∧
    (inSolidBox c dim p →
      IsNearestDistance (onBoxFace c dim) p (-((SDF.Box m c dim).distance p))) :=
  ⟨box_outside m c dim p hx.le hy.le hz.le, box_inside m c dim p⟩

/-- Witness for C8: the `centralBox` of `main.cpp`, centre `(0, 1, 0)` and dimensions
`(2, 2, 2)`, queried at the origin. -/
theorem C8_box_distance_witness :
    ((0 : ℝ) < 2 ∧ (0 : ℝ) < 2 ∧ (0 : ℝ) < 2) ∧
    ((¬ inSolidBox ⟨0, 1, 0⟩ ⟨2, 2, 2⟩ ⟨0, 0, 0⟩ →
      IsNearestDistance (inSolidBox ⟨0, 1, 0⟩ ⟨2, 2, 2⟩) ⟨0, 0, 0⟩
        ((SDF.Box {} ⟨0, 1, 0⟩ ⟨2, 2, 2⟩).distance ⟨0, 0, 0⟩)) ∧
    (inSolidBox ⟨0, 1, 0⟩ ⟨2, 2, 2⟩ ⟨0, 0, 0⟩ →
      IsNearestDistance (onBoxFace ⟨0, 1, 0⟩ ⟨2, 2, 2⟩) ⟨0, 0, 0⟩
        (-((SDF.Box {} ⟨0, 1, 0⟩ ⟨2, 2, 2⟩).distance ⟨0, 0, 0⟩)))) :=
  ⟨⟨two_pos, two_pos, two_pos⟩,
    C8_box_distance {} ⟨0, 1, 0⟩ ⟨2, 2, 2⟩ ⟨0, 0, 0⟩ two_pos two_pos two_pos⟩

/-! ## C11, C12: direct lighting -/

theorem Vec3.vadd_assoc (u v w : Vec3) : u + v + w = u + (v + w) := by
  ext <;> simp [add_assoc]

theorem Vec3.vadd_zero (u : Vec3) : u + ⟨0, 0, 0⟩ = u := by
  ext <;> simp

theorem Vec3.vzero_add (u : Vec3) : (⟨0, 0, 0⟩ : Vec3) + u = u := by
  ext <;> simp

theorem Vec3.dot_comm (u v : Vec3) : u.dot v = v.dot u := by
  unfold Vec3.dot
  ring

theorem Vec3.sum_append (l1 l2 : List Vec3) :
    Vec3.sum (l1 ++ l2) = Vec3.sum l1 + Vec3.sum l2 := by
  induction l1 with
  | nil => rw [List.nil_append, Vec3.sum, Vec3.vzero_add]
  | cons a rest ih => rw [List.cons_append, Vec3.sum, Vec3.sum, ih, Vec3.vadd_assoc]

/-- The reflection vector as the code computes it and as the lighting model states it. -/
theorem reflect_eq (d n : Vec3) : d - n * (2 : ℝ) * d.dot n = d - n * (2 * d.dot n) := by
  ext <;> simp only [Vec3.sub_x, Vec3.sub_y, Vec3.sub_z, Vec3.smul_x, Vec3.smul_y,
    Vec3.smul_z] <;> ring

/-- With the default `epsilon` a shadow march either hits or misses. -/
theorem shadowMarch_returned (order : List SDF.Probe) (sc : Scene) (hit : Hit)
    (light : Light) :
    (sc.shadowMarch order hit light).returned = !(sc.shadowMarch order hit light).isMiss := by
  have h := march_ne_nullDeref order sc
    ⟨hit.position + hit.normal * (1 / 1000 : ℝ), (light.position - hit.position).normalize⟩
    (light.position - hit.position).length defaultEpsilon defaultEpsilon_le
  unfold Scene.shadowMarch
  cases hm : sc.march order
    ⟨hit.position + hit.normal * (1 / 1000 : ℝ), (light.position - hit.position).normalize⟩
    (light.position - hit.position).length defaultEpsilon with
  | hit h' => rfl
  | miss => rfl
  | nullDeref => exact absurd hm h

/-- The body of the loop over the lights adds, for a light whose shadow march misses, the
light's term of the lighting model, and nothing for an occluded light. -/
theorem addLightContribution_eq (order : List SDF.Probe) (sc : Scene) (hit : Hit) (ray : Ray)
    (color : Vec3) (light : Light) :
    Scene.addLightContribution order sc hit ray color light =
      color + (if (sc.shadowMarch order hit light).isMiss then specLightTerm hit ray light
        else ⟨0, 0, 0⟩) := by
  have hr := shadowMarch_returned order sc hit light
  unfold Scene.shadowMarch at hr
  unfold Scene.addLightContribution Scene.shadowMarch specLightTerm
  simp only [hr, Bool.not_not]
  cases (sc.march order
    ⟨hit.position + hit.normal * (1 / 1000 : ℝ), (light.position - hit.position).normalize⟩
    (light.position - hit.position).length defaultEpsilon).isMiss with
  | false => simp [Vec3.vadd_zero]
  | true =>
    simp only [if_true, reflect_eq, Vec3.dot_comm hit.normal]
    split_ifs with hmet
    · rw [Vec3.vadd_assoc]
    · rw [Vec3.vadd_zero]

/-- The loop over the lights adds up the contributions of the lights. -/
theorem foldl_addLightContribution (order : List SDF.Probe) (sc : Scene) (hit : Hit)
    (ray : Ray) (lights : List Light) (color : Vec3) :
    lights.foldl (Scene.addLightContribution order sc hit ray) color =
      color + Vec3.sum (lights.map fun light =>
        if (sc.shadowMarch order hit light).isMiss then specLightTerm hit ray light
        else ⟨0, 0, 0⟩) := by
  induction lights generalizing color with
  | nil => simp only [List.foldl_nil, List.map_nil, Vec3.sum, Vec3.vadd_zero]
  | cons a rest ih =>
    rw [List.foldl_cons, ih, addLightContribution_eq, List.map_cons, Vec3.sum,
      Vec3.vadd_assoc]

/-- Summing zero for the occluded lights is summing over the unoccluded lights only. -/
theorem sum_unoccluded (order : List SDF.Probe) (sc : Scene) (hit : Hit) (ray : Ray)
    (lights : List Light) :
    Vec3.sum (lights.map fun light =>
        if (sc.shadowMarch order hit light).isMiss then specLightTerm hit ray light
        else ⟨0, 0, 0⟩) =
      Vec3.sum ((lights.filter fun light => (sc.shadowMarch order hit light).isMiss).map
        (specLightTerm hit ray)) := by
  induction lights with
  | nil => rfl
  | cons a rest ih =>
    rw [List.map_cons, Vec3.sum, ih]
    cases ha : (sc.shadowMarch order hit a).isMiss with
    | false => simp only [List.filter_cons, ha, Bool.false_eq_true, if_false, Vec3.vzero_add]
    | true => simp only [List.filter_cons, ha, if_true, List.map_cons, Vec3.sum]

/-- The value of `calculateLighting` with the loop over the lights summed up. -/
theorem calculateLighting_eq (order : List SDF.Probe) (sc : Scene) (hit : Hit) (ray : Ray) :
    sc.calculateLighting order hit ray =
      if hit.material.emissive > 0 then
        hit.material.albedo * sc.ambientLight +
          Vec3.sum ((sc.lights.filter fun light => (sc.shadowMarch order hit light).isMiss).map
            (specLightTerm hit ray)) +
          hit.material.albedo * hit.material.emissive
      else
        hit.material.albedo * sc.ambientLight +
          Vec3.sum ((sc.lights.filter fun light => (sc.shadowMarch order hit light).isMiss).map
            (specLightTerm hit ray)) := by
  unfold Scene.calculateLighting
  simp only [foldl_addLightContribution, sum_unoccluded]

/-- C11: for every scene, ray and hit whose material has `emissive ≥ 0` (in particular every
material within the documented ranges), `calculateLighting(hit, ray)` is the ambient term
`albedo * ambient`, plus the sum over the lights whose shadow march misses of the diffuse term
and (only when `metallic > 0`) the specular term, plus the emissive term `albedo * emissive`,
which is present whatever the lights are. -/
theorem C11_calculateLighting_formula (order : List SDF.Probe) (sc : Scene) (hit : Hit)
    (ray : Ray) (_hmet : 0 ≤ hit.material.metallic ∧ hit.material.metallic ≤ 1)
    (_hrough : 0 ≤ hit.material.roughness ∧ hit.material.roughness ≤ 1)
    (hemi : 0 ≤ hit.material.emissive) :
    sc.calculateLighting order hit ray = specLighting order sc hit ray := by
  rw [calculateLighting_eq]
  unfold specLighting
  split_ifs with h
  · rfl
  · have h0 : hit.material.emissive = 0 := le_antisymm (not_lt.mp h) hemi
    rw [h0]
    ext <;> simp

/-- Witness for C11: the hit of the spec's example (unit sphere, default material) under one
light above the pole. -/
theorem C11_calculateLighting_formula_witness :
    (((0 : ℝ) ≤ (0 : ℝ) ∧ (0 : ℝ) ≤ 1) ∧ ((0 : ℝ) ≤ 1 / 2 ∧ (1 / 2 : ℝ) ≤ 1) ∧
      (0 : ℝ) ≤ 0) ∧
    Scene.calculateLighting sourceOrder
        ((Scene.add {} (SDF.newSphere ⟨0, 0, 0⟩ 1)).addLight ⟨0, 0, 5⟩ ⟨1, 1, 1⟩ 1)
        { distance := 4, position := ⟨0, 0, 1⟩, normal := ⟨0, 0, 1⟩, material := {} }
        ⟨⟨0, 0, 5⟩, ⟨0, 0, -1⟩⟩ =
      specLighting sourceOrder
        ((Scene.add {} (SDF.newSphere ⟨0, 0, 0⟩ 1)).addLight ⟨0, 0, 5⟩ ⟨1, 1, 1⟩ 1)
        { distance := 4, position := ⟨0, 0, 1⟩, normal := ⟨0, 0, 1⟩, material := {} }
        ⟨⟨0, 0, 5⟩, ⟨0, 0, -1⟩⟩ :=
  ⟨⟨⟨le_refl _, zero_le_one⟩, ⟨by norm_num, by norm_num⟩, le_refl _⟩,
    C11_calculateLighting_formula sourceOrder _
      { distance := 4, position := ⟨0, 0, 1⟩, normal := ⟨0, 0, 1⟩, material := {} } _
      ⟨le_refl _, zero_le_one⟩ ⟨by norm_num, by norm_num⟩ (le_refl _)⟩

/-- The value of `calculateLighting` with the contribution of every light, zero for an
occluded one, summed up. -/
theorem calculateLighting_sum (order : List SDF.Probe) (sc : Scene) (hit : Hit) (ray : Ray) :
    sc.calculateLighting order hit ray =
      if hit.material.emissive > 0 then
        hit.material.albedo * sc.ambientLight +
          Vec3.sum (sc.lights.map fun light =>
            if (sc.shadowMarch order hit light).isMiss then specLightTerm hit ray light
            else ⟨0, 0, 0⟩) +
          hit.material.albedo * hit.material.emissive
      else
        hit.material.albedo * sc.ambientLight +
          Vec3.sum (sc.lights.map fun light =>
            if (sc.shadowMarch order hit light).isMiss then specLightTerm hit ray light
            else ⟨0, 0, 0⟩) := by
  unfold Scene.calculateLighting
  simp only [foldl_addLightContribution]

/-- Under the positivity conditions the term of a light is positive in every channel. -/
theorem specLightTerm_pos (hit : Hit) (ray : Ray) (light : Light)
    (ha : 0 < hit.material.albedo.x ∧ 0 < hit.material.albedo.y ∧ 0 < hit.material.albedo.z)
    (hc : 0 < light.color.x ∧ 0 < light.color.y ∧ 0 < light.color.z)
    (hi : 0 < light.intensity)
    (hn : 0 < hit.normal.dot (light.position - hit.position).normalize) :
    0 < (specLightTerm hit ray light).x ∧ 0 < (specLightTerm hit ray light).y ∧
    0 < (specLightTerm hit ray light).z := by
  obtain ⟨ax, ay, az⟩ := ha
  obtain ⟨cx, cy, cz⟩ := hc
  have hs : 0 ≤ (max 0 ((ray.direction - hit.normal * (2 * ray.direction.dot hit.normal)).dot
      (light.position - hit.position).normalize)) ^ (32 * (1 - hit.material.roughness)) :=
    Real.rpow_nonneg (le_max_left 0 _) _
  unfold specLightTerm
  simp only [max_eq_right hn.le]
  split_ifs with hmet
  · simp only [Vec3.add_x, Vec3.add_y, Vec3.add_z, Vec3.smul_x, Vec3.smul_y, Vec3.smul_z,
      Vec3.mul_x, Vec3.mul_y, Vec3.mul_z]
    refine ⟨?_, ?_, ?_⟩
    · have h1 : 0 < hit.material.albedo.x * light.color.x * hit.normal.dot
          (light.position - hit.position).normalize * light.intensity := by positivity
      have h2 : 0 ≤ hit.material.albedo.x * light.color.x *
          (max 0 ((ray.direction - hit.normal * (2 * ray.direction.dot hit.normal)).dot
            (light.position - hit.position).normalize)) ^
            (32 * (1 - hit.material.roughness)) *
          hit.material.metallic * light.intensity := by positivity
      linarith
    · have h1 : 0 < hit.material.albedo.y * light.color.y * hit.normal.dot
          (light.position - hit.position).normalize * light.intensity := by positivity
      have h2 : 0 ≤ hit.material.albedo.y * light.color.y *
          (max 0 ((ray.direction - hit.normal * (2 * ray.direction.dot hit.normal)).dot
            (light.position - hit.position).normalize)) ^
            (32 * (1 - hit.material.roughness)) *
          hit.material.metallic * light.intensity := by positivity
      linarith
    · have h1 : 0 < hit.material.albedo.z * light.color.z * hit.normal.dot
          (light.position - hit.position).normalize * light.intensity := by positivity
      have h2 : 0 ≤ hit.material.albedo.z * light.color.z *
          (max 0 ((ray.direction - hit.normal * (2 * ray.direction.dot hit.normal)).dot
            (light.position - hit.position).normalize)) ^
            (32 * (1 - hit.material.roughness)) *
          hit.material.metallic * light.intensity := by positivity
      linarith
  · simp only [Vec3.add_x, Vec3.add_y, Vec3.add_z, Vec3.smul_x, Vec3.smul_y, Vec3.smul_z,
      Vec3.mul_x, Vec3.mul_y, Vec3.mul_z, add_zero]
    exact ⟨by positivity, by positivity, by positivity⟩

/-- The shadow march does not depend on the light list of the scene. -/
theorem shadowMarch_lights (order : List SDF.Probe) (sc : Scene) (lights : List Light)
    (hit : Hit) (light : Light) :
    Scene.shadowMarch order { sc with lights := lights } hit light =
      sc.shadowMarch order hit light := rfl

/-- C12 (shadow monotonicity): for every scene, hit and ray and every light of the scene's
light list, if the light's shadow march reports a hit, `calculateLighting` equals its value
with that light removed from the list; if the shadow march misses and albedo, light colour,
intensity and `dot(hit.normal, lightDir)` are strictly positive, the value with the light is
strictly greater in every channel than the value with the light removed. -/
theorem C12_shadow_monotonicity (order : List SDF.Probe) (sc : Scene) (hit : Hit) (ray : Ray)
    (l1 l2 : List Light) (light : Light) (hl : sc.lights = l1 ++ light :: l2) :
    ((sc.shadowMarch order hit light).returned = true →
      sc.calculateLighting order hit ray =
        Scene.calculateLighting order { sc with lights := l1 ++ l2 } hit ray) ∧
    ((sc.shadowMarch order hit light).returned = false →
      (0 < hit.material.albedo.x ∧ 0 < hit.material.albedo.y ∧ 0 < hit.material.albedo.z) →
      (0 < light.color.x ∧ 0 < light.color.y ∧ 0 < light.color.z) →
      0 < light.intensity →
      0 < hit.normal.dot (light.position - hit.position).normalize →
      (Scene.calculateLighting order { sc with lights := l1 ++ l2 } hit ray).x <
          (sc.calculateLighting order hit ray).x ∧
        (Scene.calculateLighting order { sc with lights := l1 ++ l2 } hit ray).y <
          (sc.calculateLighting order hit ray).y ∧
        (Scene.calculateLighting order { sc with lights := l1 ++ l2 } hit ray).z <
          (sc.calculateLighting order hit ray).z) := by
  have hret := shadowMarch_returned order sc hit light
  rw [calculateLighting_sum order sc, calculateLighting_sum order { sc with lights := l1 ++ l2 }]
  simp only [shadowMarch_lights, hl, List.map_append, List.map_cons, Vec3.sum_append, Vec3.sum]
  constructor
  · intro h
    rw [h] at hret
    have hm : (sc.shadowMarch order hit light).isMiss = false := by
      cases hv : (sc.shadowMarch order hit light).isMiss with
      | false => rfl
      | true =>
        rw [hv] at hret
        cases hret
    simp only [hm, Bool.false_eq_true, if_false, Vec3.vzero_add]
  · intro h ha hc hi hn
    rw [h] at hret
    have hm : (sc.shadowMarch order hit light).isMiss = true := by
      cases hv : (sc.shadowMarch order hit light).isMiss with
      | true => rfl
      | false =>
        rw [hv] at hret
        cases hret
    obtain ⟨px, py, pz⟩ := specLightTerm_pos hit ray light ha hc hi hn
    simp only [hm, if_true]
    split_ifs with he
    · simp only [Vec3.add_x, Vec3.add_y, Vec3.add_z]
      exact ⟨by linarith, by linarith, by linarith⟩
    · simp only [Vec3.add_x, Vec3.add_y, Vec3.add_z]
      exact ⟨by linarith, by linarith, by linarith⟩

theorem Vec3.length_axis_z (z : ℝ) : (Vec3.mk 0 0 z).length = |z| := by
  simp only [Vec3.length, mul_zero, zero_add, Real.sqrt_mul_self_eq_abs]

/-- A light straight behind the unit sphere, seen from a hit point at `(0, 0, 5)`, is
occluded: its shadow march hits the sphere. -/
theorem shadowMarch_occluded (order : List SDF.Probe) (lights : List Light) :
    (Scene.shadowMarch order
      { objects := [SDF.Sphere {} ⟨0, 0, 0⟩ 1], lights := lights }
      { distance := 4, position := ⟨0, 0, 5⟩, normal := ⟨0, 0, -1⟩, material := {} }
      ⟨⟨0, 0, -5⟩, ⟨1, 1, 1⟩, 1⟩).returned = true := by
  have hlen : ((⟨0, 0, -5⟩ : Vec3) - ⟨0, 0, 5⟩).length = 10 := by
    apply Vec3.length_eq_of_mul_self _ _ (by norm_num)
    simp only [Vec3.sub_x, Vec3.sub_y, Vec3.sub_z]
    norm_num
  have hdir : ((⟨0, 0, -5⟩ : Vec3) - ⟨0, 0, 5⟩).normalize = ⟨0, 0, -1⟩ := by
    unfold Vec3.normalize
    rw [hlen]
    ext <;> simp
    norm_num
  have hpos : (⟨0, 0, 5⟩ : Vec3) + (⟨0, 0, -1⟩ : Vec3) * (1 / 1000 : ℝ) =
      ⟨0, 0, 4999 / 1000⟩ := by
    ext <;> simp
    norm_num
  have hL : euclid ⟨0, 0, 4999 / 1000⟩ ⟨0, 0, 0⟩ = 4999 / 1000 := by
    rw [euclid_eq_length]
    apply Vec3.length_eq_of_mul_self _ _ (by norm_num)
    simp only [Vec3.sub_x, Vec3.sub_y, Vec3.sub_z]
    norm_num
  have hd : (⟨0, 0, -1⟩ : Vec3) = ((⟨0, 0, 0⟩ : Vec3) - ⟨0, 0, 4999 / 1000⟩).normalize := by
    have hl2 : ((⟨0, 0, 0⟩ : Vec3) - ⟨0, 0, 4999 / 1000⟩).length = 4999 / 1000 := by
      apply Vec3.length_eq_of_mul_self _ _ (by norm_num)
      simp only [Vec3.sub_x, Vec3.sub_y, Vec3.sub_z]
      norm_num
    unfold Vec3.normalize
    rw [hl2]
    ext <;> simp
  have h := (march_sphere_toward order
    { objects := [SDF.Sphere {} ⟨0, 0, 0⟩ 1], lights := lights } {} ⟨0, 0, 0⟩ 1
    ⟨⟨0, 0, 4999 / 1000⟩, ⟨0, 0, -1⟩⟩ 10 defaultEpsilon rfl one_pos
    (by unfold defaultEpsilon; norm_num)
    (by rw [hL]; unfold defaultEpsilon; norm_num) hd
    (by rw [hL]; norm_num)
    (by unfold FLT_MAX; norm_num)).1
  unfold Scene.shadowMarch
  simp only [hlen, hdir, hpos]
  rw [h]
  rfl

/-- Witness for C12: the unit sphere between the hit point `(0, 0, 5)` and the only light at
`(0, 0, -5)`; the light is occluded and removing it does not change the lighting. -/
theorem C12_shadow_monotonicity_witness :
    ([(⟨⟨0, 0, -5⟩, ⟨1, 1, 1⟩, 1⟩ : Light)] = [] ++ (⟨⟨0, 0, -5⟩, ⟨1, 1, 1⟩, 1⟩ : Light) :: []) ∧
    (Scene.shadowMarch sourceOrder
      { objects := [SDF.Sphere {} ⟨0, 0, 0⟩ 1], lights := [⟨⟨0, 0, -5⟩, ⟨1, 1, 1⟩, 1⟩] }
      { distance := 4, position := ⟨0, 0, 5⟩, normal := ⟨0, 0, -1⟩, material := {} }
      ⟨⟨0, 0, -5⟩, ⟨1, 1, 1⟩, 1⟩).returned = true ∧
    Scene.calculateLighting sourceOrder
        { objects := [SDF.Sphere {} ⟨0, 0, 0⟩ 1], lights := [⟨⟨0, 0, -5⟩, ⟨1, 1, 1⟩, 1⟩] }
        { distance := 4, position := ⟨0, 0, 5⟩, normal := ⟨0, 0, -1⟩, material := {} }
        ⟨⟨0, 0, 9⟩, ⟨0, 0, -1⟩⟩ =
      Scene.calculateLighting sourceOrder
        { objects := [SDF.Sphere {} ⟨0, 0, 0⟩ 1], lights := [] ++ [] }
        { distance := 4, position := ⟨0, 0, 5⟩, normal := ⟨0, 0, -1⟩, material := {} }
        ⟨⟨0, 0, 9⟩, ⟨0, 0, -1⟩⟩ :=
  ⟨rfl, shadowMarch_occluded sourceOrder _,
    (C12_shadow_monotonicity sourceOrder
      { objects := [SDF.Sphere {} ⟨0, 0, 0⟩ 1], lights := [⟨⟨0, 0, -5⟩, ⟨1, 1, 1⟩, 1⟩] }
      { distance := 4, position := ⟨0, 0, 5⟩, normal := ⟨0, 0, -1⟩, material := {} }
      ⟨⟨0, 0, 9⟩, ⟨0, 0, -1⟩⟩ [] [] ⟨⟨0, 0, -5⟩, ⟨1, 1, 1⟩, 1⟩ rfl).1
      (shadowMarch_occluded sourceOrder _)⟩

/-! ## C13, C14, C15: the recursive trace -/

/-- With the depth exhausted `trace` returns black. -/
theorem trace_nonpos (r : Renderer) (order : List SDF.Probe) (ray : Ray) (sc : Scene)
    (depth : ℤ) (hd : depth ≤ 0) : r.trace order ray sc depth = ⟨0, 0, 0⟩ := by
  rw [Renderer.trace, if_pos hd]

/-- The value of `trace` after a hit of the primary march. -/
theorem trace_hit (r : Renderer) (order : List SDF.Probe) (ray : Ray) (sc : Scene)
    (depth : ℤ) (hit : Hit) (hd : 1 ≤ depth)
    (hm : sc.march order ray defaultMaxDist defaultEpsilon = MarchResult.hit hit) :
    r.trace order ray sc depth =
      if hit.material.metallic > 9 / 10 ∧ hit.material.roughness < 1 / 10 then
        sc.calculateLighting order hit ray +
          r.trace order ⟨hit.position + hit.normal * (1 / 1000 : ℝ),
            ray.direction - hit.normal * (2 : ℝ) * ray.direction.dot hit.normal⟩ sc
            (depth - 1) * hit.material.albedo * (8 / 10 : ℝ)
      else sc.calculateLighting order hit ray := by
  rw [Renderer.trace, if_neg (by omega), hm]

/-- The value of `trace` after a miss of the primary march. -/
theorem trace_miss (r : Renderer) (order : List SDF.Probe) (ray : Ray) (sc : Scene)
    (depth : ℤ) (hd : 1 ≤ depth)
    (hm : sc.march order ray defaultMaxDist defaultEpsilon = MarchResult.miss) :
    r.trace order ray sc depth = r.renderSky ray := by
  rw [Renderer.trace, if_neg (by omega), hm]

/-- C13: for every scene, ray and `depth ≥ 1` for which `march` reports a hit: for a mirror
material (`metallic > 0.9` and `roughness < 0.1`) `trace` is the direct lighting plus `0.8`
times the albedo-tinted trace of the reflection ray at `depth - 1`; otherwise it is exactly
the direct lighting; and at depth 1 it is the full direct lighting in both cases. -/
theorem C13_trace_hit (r : Renderer) (order : List SDF.Probe) (ray : Ray) (sc : Scene)
    (depth : ℤ) (hit : Hit) (hd : 1 ≤ depth)
    (hm : sc.march order ray defaultMaxDist defaultEpsilon = MarchResult.hit hit) :
    (hit.material.metallic > 9 / 10 ∧ hit.material.roughness < 1 / 10 →
      r.trace order ray sc depth =
        sc.calculateLighting order hit ray +
          hit.material.albedo *
            r.trace order ⟨hit.position + hit.normal * (1 / 1000 : ℝ),
              ray.direction - hit.normal * (2 * ray.direction.dot hit.normal)⟩ sc (depth - 1) *
            (8 / 10 : ℝ)) ∧
    (¬(hit.material.metallic > 9 / 10 ∧ hit.material.roughness < 1 / 10) →
      r.trace order ray sc depth = sc.calculateLighting order hit ray) ∧
    (depth = 1 → r.trace order ray sc depth = sc.calculateLighting order hit ray) := by
  have h := trace_hit r order ray sc depth hit hd hm
  refine ⟨?_, ?_, ?_⟩
  · intro hmirror
    rw [h, if_pos hmirror, reflect_eq]
    congr 1
    ext <;> simp only [Vec3.smul_x, Vec3.smul_y, Vec3.smul_z, Vec3.mul_x, Vec3.mul_y,
      Vec3.mul_z] <;> ring
  · intro hmirror
    rw [h, if_neg hmirror]
  · intro h1
    rw [h]
    split_ifs with hmirror
    · rw [trace_nonpos r order _ sc (depth - 1) (by omega)]
      ext <;> simp
    · rfl

/-- Witness for C13: the spec's example (unit sphere, ray from `(0, 0, 5)` along `-z`) traced
at depth 1. -/
theorem C13_trace_hit_witness :
    ((1 : ℤ) ≤ 1 ∧
      (Scene.add {} (SDF.newSphere ⟨0, 0, 0⟩ 1)).march sourceOrder ⟨⟨0, 0, 5⟩, ⟨0, 0, -1⟩⟩
        defaultMaxDist defaultEpsilon =
      MarchResult.hit { distance := 4, position := ⟨0, 0, 1⟩, normal := ⟨0, 0, 1⟩, material := {} }) ∧
    Renderer.trace { width := 1280, height := 720 } sourceOrder ⟨⟨0, 0, 5⟩, ⟨0, 0, -1⟩⟩
        (Scene.add {} (SDF.newSphere ⟨0, 0, 0⟩ 1)) 1 =
      Scene.calculateLighting sourceOrder (Scene.add {} (SDF.newSphere ⟨0, 0, 0⟩ 1))
        { distance := 4, position := ⟨0, 0, 1⟩, normal := ⟨0, 0, 1⟩, material := {} }
        ⟨⟨0, 0, 5⟩, ⟨0, 0, -1⟩⟩ :=
  ⟨⟨le_refl _, march_unit_sphere sourceOrder⟩,
    (C13_trace_hit { width := 1280, height := 720 } sourceOrder ⟨⟨0, 0, 5⟩, ⟨0, 0, -1⟩⟩
      (Scene.add {} (SDF.newSphere ⟨0, 0, 0⟩ 1)) 1
      { distance := 4, position := ⟨0, 0, 1⟩, normal := ⟨0, 0, 1⟩, material := {} }
      (le_refl _) (march_unit_sphere sourceOrder)).2.2 rfl⟩

/-- The instrumented trace returns the colour of `trace` and makes at most `n` calls of
`march` when `depth ≤ n`. -/
theorem traceCounted_spec (r : Renderer) (order : List SDF.Probe) (sc : Scene) (n : ℕ) :
    ∀ (depth : ℤ) (ray : Ray), depth ≤ n →
      (r.traceCounted order ray sc depth).1 = r.trace order ray sc depth ∧
      ((r.traceCounted order ray sc depth).2 : ℤ) ≤ max depth 0 := by
  induction n with
  | zero =>
    intro depth ray hd
    have hd0 : depth ≤ 0 := by simpa using hd
    rw [Renderer.traceCounted, Renderer.trace, if_pos hd0, if_pos hd0]
    exact ⟨rfl, by simp⟩
  | succ n ih =>
    intro depth ray hd
    rw [Renderer.traceCounted, Renderer.trace]
    split_ifs with hd0
    · exact ⟨rfl, by simp⟩
    · have hpos : 1 ≤ depth := by omega
      cases hm : sc.march order ray defaultMaxDist defaultEpsilon with
      | hit hit =>
        simp only
        split_ifs with hmirror
        · obtain ⟨e1, e2⟩ := ih (depth - 1)
            ⟨hit.position + hit.normal * (1 / 1000 : ℝ),
              ray.direction - hit.normal * (2 : ℝ) * ray.direction.dot hit.normal⟩
            (by push_cast at hd; omega)
          refine ⟨by rw [e1], ?_⟩
          have hmax : max (depth - 1) 0 = depth - 1 := max_eq_left (by omega)
          have hmax' : max depth 0 = depth := max_eq_left (by omega)
          rw [hmax] at e2
          rw [hmax']
          push_cast
          omega
        · refine ⟨rfl, ?_⟩
          rw [max_eq_left (by omega)]
          simpa using hpos
      | miss =>
        refine ⟨rfl, ?_⟩
        rw [max_eq_left (by omega)]
        simpa using hpos
      | nullDeref =>
        refine ⟨rfl, ?_⟩
        rw [max_eq_left (by omega)]
        simpa using hpos

/-- C14: for every scene and ray, `trace` with `depth ≤ 0` returns black without marching,
and for every depth the recursion (a total function, defined by recursion on the depth) makes
at most `max(depth, 0)` calls of `Scene::march` on primary and reflection rays. -/
theorem C14_trace_depth_bound (r : Renderer) (order : List SDF.Probe) (ray : Ray) (sc : Scene)
    (depth : ℤ) :
    (r.traceCounted order ray sc depth).1 = r.trace order ray sc depth ∧
    (depth ≤ 0 → r.trace order ray sc depth = ⟨0, 0, 0⟩ ∧
      (r.traceCounted order ray sc depth).2 = 0) ∧
    ((r.traceCounted order ray sc depth).2 : ℤ) ≤ max depth 0 := by
  obtain ⟨h1, h2⟩ := traceCounted_spec r order sc depth.toNat depth ray (Int.self_le_toNat depth)
  refine ⟨h1, ?_, h2⟩
  intro hd
  refine ⟨trace_nonpos r order ray sc depth hd, ?_⟩
  rw [max_eq_right hd] at h2
  exact_mod_cast le_antisymm h2 (by positivity)

/-- Witness for C14: a trace of the spec's example at depth 0. -/
theorem C14_trace_depth_bound_witness :
    (0 : ℤ) ≤ 0 ∧
    Renderer.trace { width := 1280, height := 720 } sourceOrder ⟨⟨0, 0, 5⟩, ⟨0, 0, -1⟩⟩
        (Scene.add {} (SDF.newSphere ⟨0, 0, 0⟩ 1)) 0 = ⟨0, 0, 0⟩ ∧
    (Renderer.traceCounted { width := 1280, height := 720 } sourceOrder
        ⟨⟨0, 0, 5⟩, ⟨0, 0, -1⟩⟩ (Scene.add {} (SDF.newSphere ⟨0, 0, 0⟩ 1)) 0).2 = 0 :=
  ⟨le_refl _,
    (C14_trace_depth_bound { width := 1280, height := 720 } sourceOrder
      ⟨⟨0, 0, 5⟩, ⟨0, 0, -1⟩⟩ (Scene.add {} (SDF.newSphere ⟨0, 0, 0⟩ 1)) 0).2.1 (le_refl _)⟩

/-- In a scene without roots `march` misses for every finite `epsilon`. -/
theorem march_empty (order : List SDF.Probe) (sc : Scene) (ray : Ray) (maxDist epsilon : ℝ)
    (hempty : sc.objects = []) (hfin : epsilon ≤ FLT_MAX) :
    sc.march order ray maxDist epsilon = MarchResult.miss := by
  unfold Scene.march
  rw [hempty]
  exact marchLoop_nil order ray maxDist epsilon hfin 100 0

/-- A component of a unit vector has magnitude at most one. -/
theorem Vec3.abs_y_le_one (u : Vec3) (h : u.length = 1) : |u.y| ≤ 1 := by
  have h2 := u.length_mul_self
  rw [h] at h2
  rw [abs_le]
  constructor <;> nlinarith [mul_self_nonneg u.x, mul_self_nonneg u.z, mul_self_nonneg (u.y + 1),
    mul_self_nonneg (u.y - 1)]

/-- C15: for an empty scene, every `depth ≥ 1` and every ray with unit-length direction `d`:
when `d.y ≥ 0`, `trace` returns `(1 - g) * skyHorizon + g * skyZenith` with
`g = sqrt(d.y)` in `[0, 1]`, and when `d.y < 0` it returns
`(1 - g) * groundHorizon + g * groundNadir` with `g = sqrt(min(-d.y, 1))` in `[0, 1]`; both
are convex combinations of the two configured colours. -/
theorem C15_empty_scene_gradient (r : Renderer) (order : List SDF.Probe) (ray : Ray)
    (sc : Scene) (depth : ℤ) (hempty : sc.objects = []) (hd : 1 ≤ depth)
    (hunit : ray.direction.length = 1) :
    (0 ≤ ray.direction.y →
      (0 ≤ Real.sqrt ray.direction.y ∧ Real.sqrt ray.direction.y ≤ 1) ∧
      r.trace order ray sc depth =
        r.skyHorizon * (1 - Real.sqrt ray.direction.y) +
          r.skyZenith * Real.sqrt ray.direction.y) ∧
    (ray.direction.y < 0 →
      (0 ≤ Real.sqrt (min (-ray.direction.y) 1) ∧ Real.sqrt (min (-ray.direction.y) 1) ≤ 1) ∧
      r.trace order ray sc depth =
        r.groundHorizon * (1 - Real.sqrt (min (-ray.direction.y) 1)) +
          r.groundNadir * Real.sqrt (min (-ray.direction.y) 1)) := by
  have ht := trace_miss r order ray sc depth hd
    (march_empty order sc ray defaultMaxDist defaultEpsilon hempty defaultEpsilon_le)
  have hy := abs_le.mp (ray.direction.abs_y_le_one hunit)
  rw [ht]
  unfold Renderer.renderSky
  constructor
  · intro h0
    refine ⟨⟨Real.sqrt_nonneg _, Real.sqrt_le_one.mpr hy.2⟩, ?_⟩
    simp only [ge_iff_le, h0, if_true, Real.sqrt_eq_rpow]
  · intro hneg
    refine ⟨⟨Real.sqrt_nonneg _, Real.sqrt_le_one.mpr (min_le_right _ _)⟩, ?_⟩
    simp only [ge_iff_le, not_le.mpr hneg, if_false, Real.sqrt_eq_rpow]

/-- Witness for C15: the empty scene and a ray straight up, traced with the default number
of bounces. -/
theorem C15_empty_scene_gradient_witness :
    (({} : Scene).objects = [] ∧ (1 : ℤ) ≤ 4 ∧ (Vec3.mk 0 1 0).length = 1) ∧
    ((0 ≤ Real.sqrt (1 : ℝ) ∧ Real.sqrt (1 : ℝ) ≤ 1) ∧
      Renderer.trace { width := 1280, height := 720 } sourceOrder ⟨⟨0, 0, 0⟩, ⟨0, 1, 0⟩⟩ {} 4 =
        (⟨8 / 10, 9 / 10, 1⟩ : Vec3) * (1 - Real.sqrt (1 : ℝ)) +
          (⟨2 / 10, 4 / 10, 8 / 10⟩ : Vec3) * Real.sqrt (1 : ℝ)) := by
  have hlen : (Vec3.mk 0 1 0).length = 1 := by
    apply Vec3.length_eq_of_mul_self _ _ zero_le_one
    norm_num
  exact ⟨⟨rfl, by norm_num, hlen⟩,
    (C15_empty_scene_gradient { width := 1280, height := 720 } sourceOrder
      ⟨⟨0, 0, 0⟩, ⟨0, 1, 0⟩⟩ {} 4 rfl (by norm_num) hlen).1 zero_le_one⟩

/-! ## C16, C17, C18: the camera -/

theorem Vec3.length_ne_zero_of_ne (u v : Vec3) (h : u ≠ v) : (v - u).length ≠ 0 := by
  intro h0
  have h2 := (v - u).length_mul_self
  rw [h0] at h2
  simp only [Vec3.sub_x, Vec3.sub_y, Vec3.sub_z, mul_zero] at h2
  apply h
  ext
  · nlinarith [mul_self_nonneg (v.x - u.x), mul_self_nonneg (v.y - u.y),
      mul_self_nonneg (v.z - u.z)]
  · nlinarith [mul_self_nonneg (v.x - u.x), mul_self_nonneg (v.y - u.y),
      mul_self_nonneg (v.z - u.z)]
  · nlinarith [mul_self_nonneg (v.x - u.x), mul_self_nonneg (v.y - u.y),
      mul_self_nonneg (v.z - u.z)]

/-- Normalising a vector of non-zero length gives a unit vector. -/
theorem Vec3.length_normalize (u : Vec3) (h : u.length ≠ 0) : u.normalize.length = 1 := by
  have h2 := u.length_mul_self
  apply Vec3.length_eq_of_mul_self _ _ zero_le_one
  unfold Vec3.normalize
  simp only [Vec3.sdiv_x, Vec3.sdiv_y, Vec3.sdiv_z]
  field_simp
  linarith

theorem Vec3.dot_self_of_length_one (u : Vec3) (h : u.length = 1) :
    u.x * u.x + u.y * u.y + u.z * u.z = 1 := by
  have h2 := u.length_mul_self
  rw [h] at h2
  linarith

theorem Vec3.dot_sdiv (u v : Vec3) (s : ℝ) : u.dot (v / s) = u.dot v / s := by
  unfold Vec3.dot
  simp only [Vec3.sdiv_x, Vec3.sdiv_y, Vec3.sdiv_z]
  ring

theorem Vec3.dot_cross_left (u v : Vec3) : u.dot (u.cross v) = 0 := by
  unfold Vec3.dot Vec3.cross
  ring

theorem Vec3.dot_cross_right (u v : Vec3) : v.dot (u.cross v) = 0 := by
  unfold Vec3.dot Vec3.cross
  ring

/-- The cross product of two orthogonal unit vectors is a unit vector. -/
theorem Vec3.length_cross_of_orthonormal (u v : Vec3) (hu : u.length = 1) (hv : v.length = 1)
    (huv : u.dot v = 0) : (u.cross v).length = 1 := by
  have h1 := u.dot_self_of_length_one hu
  have h2 := v.dot_self_of_length_one hv
  apply Vec3.length_eq_of_mul_self _ _ zero_le_one
  unfold Vec3.dot at huv
  unfold Vec3.cross
  simp only
  have e : (u.y * v.z - u.z * v.y) * (u.y * v.z - u.z * v.y) +
      (u.z * v.x - u.x * v.z) * (u.z * v.x - u.x * v.z) +
      (u.x * v.y - u.y * v.x) * (u.x * v.y - u.y * v.x) =
      (u.x * u.x + u.y * u.y + u.z * u.z) * (v.x * v.x + v.y * v.y + v.z * v.z) -
        (u.x * v.x + u.y * v.y + u.z * v.z) ^ 2 := by ring
  rw [e, h1, h2, huv]
  norm_num

/-- The first branch of `updateVectors`: a near-vertical `forward`. -/
theorem updateVectors_steep (cam : Camera)
    (h : |(cam.target - cam.position).normalize.y| > 99999 / 100000) :
    cam.updateVectors =
      { cam with
        forward := (cam.target - cam.position).normalize
        right := ⟨1, 0, 0⟩
        up := ⟨0, if (cam.target - cam.position).normalize.y > 0 then 0 else 1,
          if (cam.target - cam.position).normalize.y > 0 then -1 else 0⟩ } := by
  unfold Camera.updateVectors
  simp only [if_pos h]

/-- The second branch of `updateVectors`: the basis built from the world up vector. -/
theorem updateVectors_regular (cam : Camera)
    (h : ¬ |(cam.target - cam.position).normalize.y| > 99999 / 100000) :
    cam.updateVectors =
      { cam with
        forward := (cam.target - cam.position).normalize
        right := ((Vec3.mk 0 1 0).cross (cam.target - cam.position).normalize).normalize
        up := ((cam.target - cam.position).normalize.cross
          ((Vec3.mk 0 1 0).cross (cam.target - cam.position).normalize).normalize).normalize } := by
  unfold Camera.updateVectors
  simp only [if_neg h]

/-- Outside the near-vertical band, and for a target straight above, `updateVectors` leaves an
orthonormal basis. -/
theorem updateVectors_orthonormal (cam : Camera) (hne : cam.position ≠ cam.target)
    (hcase : regularOrStraightUp (cam.target - cam.position)) :
    cam.updateVectors.Orthonormal := by
  have hf : (cam.target - cam.position).normalize.length = 1 :=
    Vec3.length_normalize _ (Vec3.length_ne_zero_of_ne _ _ hne)
  by_cases hsteep : |(cam.target - cam.position).normalize.y| > 99999 / 100000
  · rcases hcase with hreg | hup
    · exact absurd hsteep (not_lt.mpr hreg)
    · rw [updateVectors_steep cam hsteep]
      simp only [Camera.Orthonormal, hup]
      have l1 : (Vec3.mk 0 1 0).length = 1 :=
        Vec3.length_eq_of_mul_self _ _ zero_le_one (by norm_num)
      have l2 : (Vec3.mk 1 0 0).length = 1 :=
        Vec3.length_eq_of_mul_self _ _ zero_le_one (by norm_num)
      have l3 : (Vec3.mk 0 0 (-1)).length = 1 :=
        Vec3.length_eq_of_mul_self _ _ zero_le_one (by norm_num)
      simp only [zero_lt_one, gt_iff_lt, if_true, l1, l2, l3, Vec3.dot]
      norm_num
  · rw [updateVectors_regular cam hsteep]
    set f := (cam.target - cam.position).normalize with hfdef
    have hf2 := f.dot_self_of_length_one hf
    have hy := abs_le.mp (not_lt.mp hsteep)
    have hw : ((Vec3.mk 0 1 0).cross f).length ≠ 0 := by
      intro h0
      have h2 := ((Vec3.mk 0 1 0).cross f).length_mul_self
      rw [h0] at h2
      simp only [Vec3.cross] at h2
      nlinarith
    have hr : ((Vec3.mk 0 1 0).cross f).normalize.length = 1 := Vec3.length_normalize _ hw
    have hfr : f.dot ((Vec3.mk 0 1 0).cross f).normalize = 0 := by
      unfold Vec3.normalize
      rw [Vec3.dot_sdiv, Vec3.dot_cross_right, zero_div]
    have hc := Vec3.length_cross_of_orthonormal f _ hf hr hfr
    have hu : (f.cross ((Vec3.mk 0 1 0).cross f).normalize).normalize =
        f.cross ((Vec3.mk 0 1 0).cross f).normalize := by
      unfold Vec3.normalize at hc ⊢
      rw [hc]
      ext <;> simp
    refine ⟨hf, hr, ?_, hfr, ?_, ?_⟩
    · simp only [hu]
      exact hc
    · simp only [hu]
      exact Vec3.dot_cross_left _ _
    · simp only [hu]
      exact Vec3.dot_cross_right _ _

theorem updateVectors_forward (cam : Camera) :
    cam.updateVectors.forward = (cam.target - cam.position).normalize := by
  by_cases h : |(cam.target - cam.position).normalize.y| > 99999 / 100000
  · rw [updateVectors_steep cam h]
  · rw [updateVectors_regular cam h]

theorem updateVectors_position (cam : Camera) : cam.updateVectors.position = cam.position := by
  by_cases h : |(cam.target - cam.position).normalize.y| > 99999 / 100000
  · rw [updateVectors_steep cam h]
  · rw [updateVectors_regular cam h]

theorem updateVectors_target (cam : Camera) : cam.updateVectors.target = cam.target := by
  by_cases h : |(cam.target - cam.position).normalize.y| > 99999 / 100000
  · rw [updateVectors_steep cam h]
  · rw [updateVectors_regular cam h]

theorem updateVectors_fov (cam : Camera) : cam.updateVectors.fov = cam.fov := by
  by_cases h : |(cam.target - cam.position).normalize.y| > 99999 / 100000
  · rw [updateVectors_steep cam h]
  · rw [updateVectors_regular cam h]

theorem updateVectors_aspect (cam : Camera) : cam.updateVectors.aspect = cam.aspect := by
  by_cases h : |(cam.target - cam.position).normalize.y| > 99999 / 100000
  · rw [updateVectors_steep cam h]
  · rw [updateVectors_regular cam h]

theorem updateVectors_tanHalfFov (cam : Camera) :
    cam.updateVectors.tanHalfFov = cam.tanHalfFov := by
  by_cases h : |(cam.target - cam.position).normalize.y| > 99999 / 100000
  · rw [updateVectors_steep cam h]
  · rw [updateVectors_regular cam h]

/-- The constructor leaves the default position and target. -/
theorem new_position_target (fov aspect : ℝ) :
    (Camera.new fov aspect).position = ⟨0, 0, 5⟩ ∧ (Camera.new fov aspect).target = ⟨0, 0, 0⟩ := by
  unfold Camera.new
  rw [updateVectors_position, updateVectors_target]
  exact ⟨rfl, rfl⟩

theorem new_tanHalfFov (fov aspect : ℝ) :
    (Camera.new fov aspect).tanHalfFov = Real.tan (fov * (1 / 2) * Real.pi / 180) := by
  unfold Camera.new
  rw [updateVectors_tanHalfFov]

/-- The direction from `(0, 0, 5)` to `(2000, 999999, 5)`, normalised. -/
theorem normalize_near_vertical :
    ((⟨2000, 999999, 5⟩ : Vec3) - ⟨0, 0, 5⟩).normalize =
      ⟨2000 / 1000001, 999999 / 1000001, 0⟩ := by
  have hlen : ((⟨2000, 999999, 5⟩ : Vec3) - ⟨0, 0, 5⟩).length = 1000001 := by
    apply Vec3.length_eq_of_mul_self _ _ (by norm_num)
    simp only [Vec3.sub_x, Vec3.sub_y, Vec3.sub_z]
    norm_num
  unfold Vec3.normalize
  rw [hlen]
  ext <;> simp

/-- The direction from `(0, 5, 0)` straight down to the origin, normalised. -/
theorem normalize_straight_down :
    ((⟨0, 0, 0⟩ : Vec3) - ⟨0, 5, 0⟩).normalize = ⟨0, -1, 0⟩ := by
  have hlen : ((⟨0, 0, 0⟩ : Vec3) - ⟨0, 5, 0⟩).length = 5 := by
    apply Vec3.length_eq_of_mul_self _ _ (by norm_num)
    simp only [Vec3.sub_x, Vec3.sub_y, Vec3.sub_z]
    norm_num
  unfold Vec3.normalize
  rw [hlen]
  ext <;> simp

/-- A camera at `(0, 5, 0)` looking straight down at the origin gets `forward = (0, -1, 0)`,
`right = (1, 0, 0)` and `up = (0, 1, 0)`. -/
theorem basis_straight_down (cam : Camera) (ht : cam.target = ⟨0, 0, 0⟩) :
    (cam.setPosition ⟨0, 5, 0⟩).forward = ⟨0, -1, 0⟩ ∧
    (cam.setPosition ⟨0, 5, 0⟩).right = ⟨1, 0, 0⟩ ∧
    (cam.setPosition ⟨0, 5, 0⟩).up = ⟨0, 1, 0⟩ := by
  have hsteep : |(({ cam with position := ⟨0, 5, 0⟩ } : Camera).target -
      ({ cam with position := ⟨0, 5, 0⟩ } : Camera).position).normalize.y| > 99999 / 100000 := by
    simp only [ht, normalize_straight_down]
    norm_num
  unfold Camera.setPosition
  rw [updateVectors_steep _ hsteep]
  simp only [ht, normalize_straight_down]
  norm_num

/-- A camera at `(0, 0, 5)` aimed at `(2000, 999999, 5)` gets
`forward = (2000/1000001, 999999/1000001, 0)` and the fallback `right = (1, 0, 0)`. -/
theorem basis_near_vertical (cam : Camera) (hp : cam.position = ⟨0, 0, 5⟩) :
    (cam.setTarget ⟨2000, 999999, 5⟩).forward = ⟨2000 / 1000001, 999999 / 1000001, 0⟩ ∧
    (cam.setTarget ⟨2000, 999999, 5⟩).right = ⟨1, 0, 0⟩ := by
  have hsteep : |(({ cam with target := ⟨2000, 999999, 5⟩ } : Camera).target -
      ({ cam with target := ⟨2000, 999999, 5⟩ } : Camera).position).normalize.y| >
      99999 / 100000 := by
    simp only [hp, normalize_near_vertical]
    rw [abs_of_nonneg (by norm_num)]
    norm_num
  unfold Camera.setTarget
  rw [updateVectors_steep _ hsteep]
  simp only [hp, normalize_near_vertical, and_self]

theorem setPosition_position_target (cam : Camera) (v : Vec3) :
    (cam.setPosition v).position = v ∧ (cam.setPosition v).target = cam.target := by
  unfold Camera.setPosition
  rw [updateVectors_position, updateVectors_target]
  exact ⟨rfl, rfl⟩

theorem setTarget_position_target (cam : Camera) (v : Vec3) :
    (cam.setTarget v).position = cam.position ∧ (cam.setTarget v).target = v := by
  unfold Camera.setTarget
  rw [updateVectors_position, updateVectors_target]
  exact ⟨rfl, rfl⟩

/-- C16 as stated fails in the near-vertical band of `updateVectors`: a camera at `(0, 0, 5)`
aimed at `(2000, 999999, 5)` gets the fallback `right = (1, 0, 0)`, which is not orthogonal to
`forward = (2000/1000001, 999999/1000001, 0)`; and a camera at `(0, 5, 0)` looking straight
down at the origin gets `up = (0, 1, 0)`, which is parallel to `forward = (0, -1, 0)`. -/
theorem C16_fallback_basis_not_orthonormal :
    (((Camera.new 45 1).setTarget ⟨2000, 999999, 5⟩).position ≠
        ((Camera.new 45 1).setTarget ⟨2000, 999999, 5⟩).target ∧
      ¬ ((Camera.new 45 1).setTarget ⟨2000, 999999, 5⟩).Orthonormal) ∧
    (((Camera.new 45 1).setPosition ⟨0, 5, 0⟩).position ≠
        ((Camera.new 45 1).setPosition ⟨0, 5, 0⟩).target ∧
      ¬ ((Camera.new 45 1).setPosition ⟨0, 5, 0⟩).Orthonormal) := by
  obtain ⟨hp, ht⟩ := new_position_target 45 1
  refine ⟨⟨?_, ?_⟩, ⟨?_, ?_⟩⟩
  · rw [(setTarget_position_target _ _).1, (setTarget_position_target _ _).2, hp]
    intro h
    have := congrArg Vec3.x h
    norm_num at this
  · intro ho
    obtain ⟨f, r⟩ := basis_near_vertical (Camera.new 45 1) hp
    have h4 := ho.2.2.2.1
    rw [f, r] at h4
    simp only [Vec3.dot] at h4
    norm_num at h4
  · rw [(setPosition_position_target _ _).1, (setPosition_position_target _ _).2, ht]
    intro h
    have := congrArg Vec3.y h
    norm_num at this
  · intro ho
    obtain ⟨f, _, u⟩ := basis_straight_down (Camera.new 45 1) ht
    have h5 := ho.2.2.2.2.1
    rw [f, u] at h5
    simp only [Vec3.dot] at h5
    norm_num at h5

/-- C16, amended: after `setPosition` or `setTarget`, for every camera position and target
with `position ≠ target` whose direction to the target is outside the near-vertical band
(`|forward.y| ≤ 0.99999`) or points straight up, the derived basis is orthonormal: `forward`,
`right` and `up` have length 1 and are pairwise orthogonal. -/
theorem C16_basis_orthonormal (cam0 : Camera) (v : Vec3) (cam : Camera)
    (hcam : cam = cam0.setPosition v ∨ cam = cam0.setTarget v)
    (hne : cam.position ≠ cam.target)
    (hcase : regularOrStraightUp (cam.target - cam.position)) : cam.Orthonormal := by
  rcases hcam with rfl | rfl
  · rw [(setPosition_position_target _ _).1, (setPosition_position_target _ _).2] at hne hcase
    exact updateVectors_orthonormal { cam0 with position := v } hne hcase
  · rw [(setTarget_position_target _ _).1, (setTarget_position_target _ _).2] at hne hcase
    exact updateVectors_orthonormal { cam0 with target := v } hne hcase

/-- Witness for C16: the default camera moved to `(0, 3, 4)`, looking at the origin. -/
theorem C16_basis_orthonormal_witness :
    (((Camera.new 45 1).setPosition ⟨0, 3, 4⟩ = (Camera.new 45 1).setPosition ⟨0, 3, 4⟩ ∨
        (Camera.new 45 1).setPosition ⟨0, 3, 4⟩ = (Camera.new 45 1).setTarget ⟨0, 3, 4⟩) ∧
      ((Camera.new 45 1).setPosition ⟨0, 3, 4⟩).position ≠
        ((Camera.new 45 1).setPosition ⟨0, 3, 4⟩).target ∧
      regularOrStraightUp (((Camera.new 45 1).setPosition ⟨0, 3, 4⟩).target -
        ((Camera.new 45 1).setPosition ⟨0, 3, 4⟩).position)) ∧
    ((Camera.new 45 1).setPosition ⟨0, 3, 4⟩).Orthonormal := by
  obtain ⟨_, ht⟩ := new_position_target 45 1
  have hne : ((Camera.new 45 1).setPosition ⟨0, 3, 4⟩).position ≠
      ((Camera.new 45 1).setPosition ⟨0, 3, 4⟩).target := by
    rw [(setPosition_position_target _ _).1, (setPosition_position_target _ _).2, ht]
    intro h
    have := congrArg Vec3.y h
    norm_num at this
  have hcase : regularOrStraightUp (((Camera.new 45 1).setPosition ⟨0, 3, 4⟩).target -
      ((Camera.new 45 1).setPosition ⟨0, 3, 4⟩).position) := by
    rw [(setPosition_position_target _ _).1, (setPosition_position_target _ _).2, ht]
    left
    have hlen : ((⟨0, 0, 0⟩ : Vec3) - ⟨0, 3, 4⟩).length = 5 := by
      apply Vec3.length_eq_of_mul_self _ _ (by norm_num)
      simp only [Vec3.sub_x, Vec3.sub_y, Vec3.sub_z]
      norm_num
    unfold Vec3.normalize
    rw [hlen]
    simp only [Vec3.sdiv_y, Vec3.sub_y]
    rw [abs_le]
    constructor <;> norm_num
  exact ⟨⟨Or.inl rfl, hne, hcase⟩,
    C16_basis_orthonormal (Camera.new 45 1) ⟨0, 3, 4⟩ _ (Or.inl rfl) hne hcase⟩

/-- C17, evaluated at the failing input `Camera(90, 1)` moved by `setPosition((0, 5, 0))`,
looking straight down at the origin, and `getRay(0.5, 0)`: position and target differ and the
field of view is 90 degrees, yet the vector `forward + right * nx + up * ny` that `getRay`
normalises is the zero vector. -/
theorem C17_direction_zero_looking_down :
    ((Camera.new 90 1).setPosition ⟨0, 5, 0⟩).position ≠
      ((Camera.new 90 1).setPosition ⟨0, 5, 0⟩).target ∧
    ((Camera.new 90 1).setPosition ⟨0, 5, 0⟩).fov = 90 ∧
    ((Camera.new 90 1).setPosition ⟨0, 5, 0⟩).direction (1 / 2) 0 = ⟨0, 0, 0⟩ ∧
    (((Camera.new 90 1).setPosition ⟨0, 5, 0⟩).getRay (1 / 2) 0).direction =
      (⟨0, 0, 0⟩ : Vec3).normalize := by
  obtain ⟨_, ht⟩ := new_position_target 90 1
  obtain ⟨f, r, u⟩ := basis_straight_down (Camera.new 90 1) ht
  have htan : ((Camera.new 90 1).setPosition ⟨0, 5, 0⟩).tanHalfFov = 1 := by
    unfold Camera.setPosition
    rw [updateVectors_tanHalfFov]
    show (Camera.new 90 1).tanHalfFov = 1
    rw [new_tanHalfFov]
    have e : (90 * (1 / 2) * Real.pi / 180 : ℝ) = Real.pi / 4 := by ring
    rw [e, Real.tan_pi_div_four]
  have hfov : ((Camera.new 90 1).setPosition ⟨0, 5, 0⟩).fov = 90 := by
    unfold Camera.setPosition Camera.new
    rw [updateVectors_fov]
    show (Camera.updateVectors _).fov = 90
    rw [updateVectors_fov]
  have hdir : ((Camera.new 90 1).setPosition ⟨0, 5, 0⟩).direction (1 / 2) 0 = ⟨0, 0, 0⟩ := by
    unfold Camera.direction
    rw [f, r, u, htan]
    ext <;> simp
  refine ⟨?_, hfov, hdir, ?_⟩
  · rw [(setPosition_position_target _ _).1, (setPosition_position_target _ _).2, ht]
    intro h
    have := congrArg Vec3.y h
    norm_num at this
  · unfold Camera.getRay
    rw [hdir]

theorem Camera.eq_of_fields (c1 c2 : Camera) (h1 : c1.position = c2.position)
    (h2 : c1.target = c2.target) (h3 : c1.forward = c2.forward) (h4 : c1.right = c2.right)
    (h5 : c1.up = c2.up) (h6 : c1.fov = c2.fov) (h7 : c1.aspect = c2.aspect)
    (h8 : c1.tanHalfFov = c2.tanHalfFov) : c1 = c2 := by
  cases c1
  cases c2
  simp only at h1 h2 h3 h4 h5 h6 h7 h8
  subst h1 h2 h3 h4 h5 h6 h7 h8
  rfl

/-- The basis `updateVectors` derives depends on position and target only. -/
theorem updateVectors_basis_congr (c1 c2 : Camera) (hp : c1.position = c2.position)
    (ht : c1.target = c2.target) :
    c1.updateVectors.forward = c2.updateVectors.forward ∧
    c1.updateVectors.right = c2.updateVectors.right ∧
    c1.updateVectors.up = c2.updateVectors.up := by
  by_cases h : |(c1.target - c1.position).normalize.y| > 99999 / 100000
  · have h2 : |(c2.target - c2.position).normalize.y| > 99999 / 100000 := by
      rw [← hp, ← ht]
      exact h
    rw [updateVectors_steep c1 h, updateVectors_steep c2 h2]
    simp only [hp, ht, and_self]
  · have h2 : ¬ |(c2.target - c2.position).normalize.y| > 99999 / 100000 := by
      rw [← hp, ← ht]
      exact h
    rw [updateVectors_regular c1 h, updateVectors_regular c2 h2]
    simp only [hp, ht, and_self]

/-- Recomputing the basis a second time changes nothing. -/
theorem updateVectors_idem (cam : Camera) : cam.updateVectors.updateVectors = cam.updateVectors := by
  obtain ⟨h3, h4, h5⟩ := updateVectors_basis_congr cam.updateVectors cam
    (updateVectors_position cam) (updateVectors_target cam)
  exact Camera.eq_of_fields _ _ (updateVectors_position _) (updateVectors_target _) h3 h4 h5
    (updateVectors_fov _) (updateVectors_aspect _) (updateVectors_tanHalfFov _)

theorem tan_half_fov (fov : ℝ) :
    Real.tan (fov * (1 / 2) * Real.pi / 180) = Real.tan (fov * Real.pi / 360) := by
  congr 1
  ring

/-- The state after `updateVectors` is consistent as soon as `tanHalfFov` matches `fov`. -/
theorem consistent_updateVectors (cam : Camera)
    (h : cam.tanHalfFov = Real.tan (cam.fov * Real.pi / 360)) :
    cam.updateVectors.Consistent := by
  refine ⟨?_, updateVectors_idem cam, ?_⟩
  · rw [updateVectors_forward, updateVectors_position, updateVectors_target]
  · rw [updateVectors_tanHalfFov, updateVectors_fov]
    exact h

/-- A change of fields other than position, target and basis keeps `updateVectors` a no-op. -/
theorem updateVectors_fixed_congr (c1 c2 : Camera) (hfix : c1.updateVectors = c1)
    (h1 : c2.position = c1.position) (h2 : c2.target = c1.target)
    (h3 : c2.forward = c1.forward) (h4 : c2.right = c1.right) (h5 : c2.up = c1.up) :
    c2.updateVectors = c2 := by
  obtain ⟨e3, e4, e5⟩ := updateVectors_basis_congr c2 c1 h1 h2
  rw [hfix] at e3 e4 e5
  exact Camera.eq_of_fields _ _ (updateVectors_position _) (updateVectors_target _)
    (by rw [e3, h3]) (by rw [e4, h4]) (by rw [e5, h5])
    (updateVectors_fov _) (updateVectors_aspect _) (updateVectors_tanHalfFov _)

/-- Every setter keeps the state consistent. -/
theorem consistent_apply (cam : Camera) (op : CameraOp) (h : cam.Consistent) :
    (cam.apply op).Consistent := by
  obtain ⟨hf, hfix, htan⟩ := h
  cases op with
  | setPosition v => exact consistent_updateVectors _ htan
  | setTarget v => exact consistent_updateVectors _ htan
  | setFOV f =>
    refine ⟨hf, ?_, tan_half_fov f⟩
    exact updateVectors_fixed_congr cam _ hfix rfl rfl rfl rfl rfl
  | setAspectRatio a =>
    refine ⟨hf, ?_, htan⟩
    exact updateVectors_fixed_congr cam _ hfix rfl rfl rfl rfl rfl

theorem consistent_run (cam : Camera) (ops : List CameraOp) (h : cam.Consistent) :
    (cam.run ops).Consistent := by
  unfold Camera.run
  induction ops generalizing cam with
  | nil => exact h
  | cons op rest ih => exact ih (cam.apply op) (consistent_apply cam op h)

/-- C18: after construction and after any sequence of `setPosition`, `setTarget`, `setFOV` and
`setAspectRatio` calls that keeps `position ≠ target`, `forward` is
`normalize(target - position)`, `right` and `up` are the values `updateVectors` derives, and
`tanHalfFov` is `tan(fov * pi / 360)` for the current `fov`; `setAspectRatio` changes only the
aspect field. -/
theorem C18_camera_invariant (fov aspect : ℝ) (ops : List CameraOp)
    (_hkeep : (Camera.new fov aspect).keepsApart ops) :
    ((Camera.new fov aspect).run ops).Consistent ∧
    ∀ (cam : Camera) (a : ℝ),
      (cam.setAspectRatio a).aspect = a ∧
      (cam.setAspectRatio a).position = cam.position ∧
      (cam.setAspectRatio a).target = cam.target ∧
      (cam.setAspectRatio a).forward = cam.forward ∧
      (cam.setAspectRatio a).right = cam.right ∧
      (cam.setAspectRatio a).up = cam.up ∧
      (cam.setAspectRatio a).fov = cam.fov ∧
      (cam.setAspectRatio a).tanHalfFov = cam.tanHalfFov := by
  refine ⟨consistent_run _ ops ?_, fun cam a => ⟨rfl, rfl, rfl, rfl, rfl, rfl, rfl, rfl⟩⟩
  unfold Camera.new
  exact consistent_updateVectors _ (tan_half_fov fov)

/-- Witness for C18: the camera set-up of `main.cpp`, then a change of the aspect ratio. -/
theorem C18_camera_invariant_witness :
    (Camera.new 45 (1280 / 720)).keepsApart
      [CameraOp.setPosition ⟨0, 2, 10⟩, CameraOp.setTarget ⟨0, 0, 0⟩,
        CameraOp.setAspectRatio (4 / 3)] ∧
    ((Camera.new 45 (1280 / 720)).run
      [CameraOp.setPosition ⟨0, 2, 10⟩, CameraOp.setTarget ⟨0, 0, 0⟩,
        CameraOp.setAspectRatio (4 / 3)]).Consistent := by
  have hkeep : (Camera.new 45 (1280 / 720)).keepsApart
      [CameraOp.setPosition ⟨0, 2, 10⟩, CameraOp.setTarget ⟨0, 0, 0⟩,
        CameraOp.setAspectRatio (4 / 3)] := by
    obtain ⟨hp, ht⟩ := new_position_target 45 (1280 / 720)
    have h1 : (Camera.new 45 (1280 / 720)).position ≠ (Camera.new 45 (1280 / 720)).target := by
      rw [hp, ht]
      intro h
      have := congrArg Vec3.z h
      norm_num at this
    have hp2 := setPosition_position_target (Camera.new 45 (1280 / 720)) ⟨0, 2, 10⟩
    have hp3 := setTarget_position_target
      ((Camera.new 45 (1280 / 720)).setPosition ⟨0, 2, 10⟩) ⟨0, 0, 0⟩
    have h2 : ((Camera.new 45 (1280 / 720)).setPosition ⟨0, 2, 10⟩).position ≠
        ((Camera.new 45 (1280 / 720)).setPosition ⟨0, 2, 10⟩).target := by
      rw [hp2.1, hp2.2, ht]
      intro h
      have := congrArg Vec3.y h
      norm_num at this
    have h3 : (((Camera.new 45 (1280 / 720)).setPosition ⟨0, 2, 10⟩).setTarget
        ⟨0, 0, 0⟩).position ≠
        (((Camera.new 45 (1280 / 720)).setPosition ⟨0, 2, 10⟩).setTarget ⟨0, 0, 0⟩).target := by
      rw [hp3.1, hp3.2, hp2.1]
      intro h
      have := congrArg Vec3.y h
      norm_num at this
    exact ⟨h1, h2, h3, h3⟩
  exact ⟨hkeep, (C18_camera_invariant 45 (1280 / 720) _ hkeep).1⟩

/-! ## C19: the supersampling pattern -/

/-- For the first four sample indices the sample lies inside the pixel's own footprint. -/
theorem sample_in_pixel_of_lt_four (r : Renderer) (x row s : ℤ) (hw : 0 < r.width)
    (hh : 0 < r.height) (hs0 : 0 ≤ s) (hs : s < 4) :
    ((x : ℝ) / r.width ≤ r.sampleU x s ∧ r.sampleU x s < ((x : ℝ) + 1) / r.width) ∧
    ((row : ℝ) / r.height ≤ r.sampleV row s ∧ r.sampleV row s < ((row : ℝ) + 1) / r.height) := by
  have hw' : (0 : ℝ) < r.width := by exact_mod_cast hw
  have hh' : (0 : ℝ) < r.height := by exact_mod_cast hh
  unfold Renderer.sampleU Renderer.sampleV
  have hcases : s = 0 ∨ s = 1 ∨ s = 2 ∨ s = 3 := by omega
  rcases hcases with rfl | rfl | rfl | rfl
  · have e1 : Int.tmod 0 2 = 0 := by decide
    have e2 : Int.tdiv 0 2 = 0 := by decide
    rw [e1, e2]
    refine ⟨⟨?_, ?_⟩, ⟨?_, ?_⟩⟩
    · apply div_le_div_of_nonneg_right _ hw'.le
      norm_num
    · apply div_lt_div_of_pos_right _ hw'
      norm_num
    · apply div_le_div_of_nonneg_right _ hh'.le
      norm_num
    · apply div_lt_div_of_pos_right _ hh'
      norm_num
  · have e1 : Int.tmod 1 2 = 1 := by decide
    have e2 : Int.tdiv 1 2 = 0 := by decide
    rw [e1, e2]
    refine ⟨⟨?_, ?_⟩, ⟨?_, ?_⟩⟩
    · apply div_le_div_of_nonneg_right _ hw'.le
      norm_num
    · apply div_lt_div_of_pos_right _ hw'
      norm_num
    · apply div_le_div_of_nonneg_right _ hh'.le
      norm_num
    · apply div_lt_div_of_pos_right _ hh'
      norm_num
  · have e1 : Int.tmod 2 2 = 0 := by decide
    have e2 : Int.tdiv 2 2 = 1 := by decide
    rw [e1, e2]
    refine ⟨⟨?_, ?_⟩, ⟨?_, ?_⟩⟩
    · apply div_le_div_of_nonneg_right _ hw'.le
      norm_num
    · apply div_lt_div_of_pos_right _ hw'
      norm_num
    · apply div_le_div_of_nonneg_right _ hh'.le
      norm_num
    · apply div_lt_div_of_pos_right _ hh'
      norm_num
  · have e1 : Int.tmod 3 2 = 1 := by decide
    have e2 : Int.tdiv 3 2 = 1 := by decide
    rw [e1, e2]
    refine ⟨⟨?_, ?_⟩, ⟨?_, ?_⟩⟩
    · apply div_le_div_of_nonneg_right _ hw'.le
      norm_num
    · apply div_lt_div_of_pos_right _ hw'
      norm_num
    · apply div_le_div_of_nonneg_right _ hh'.le
      norm_num
    · apply div_lt_div_of_pos_right _ hh'
      norm_num

/-- C19, evaluated at the failing input: the 1280 x 720 renderer of `main.cpp` after the R key
has raised the samples per pixel to 8. For sample index `s = 4` of a pixel in row 0 the
coordinate `v` is `(0 + 1)/720`, the upper end of the footprint, not inside it; for `s = 6` of
a pixel in the last row 719 it is `720.5/720`, above 1. -/
theorem C19_sample_leaves_pixel :
    ((4 : ℤ) < (8 : ℤ) ∧ (6 : ℤ) < (8 : ℤ)) ∧
    Renderer.sampleV { width := 1280, height := 720, samplesPerPixel := 8 } 0 4 =
      ((0 : ℝ) + 1) / 720 ∧
    ¬ (Renderer.sampleV { width := 1280, height := 720, samplesPerPixel := 8 } 0 4 <
      ((0 : ℝ) + 1) / 720) ∧
    Renderer.sampleV { width := 1280, height := 720, samplesPerPixel := 8 } 719 6 =
      (7205 / 10) / 720 ∧
    1 < Renderer.sampleV { width := 1280, height := 720, samplesPerPixel := 8 } 719 6 := by
  have e4 : Int.tdiv 4 2 = 2 := by decide
  have e6 : Int.tdiv 6 2 = 3 := by decide
  have h4 : Renderer.sampleV { width := 1280, height := 720, samplesPerPixel := 8 } 0 4 =
      ((0 : ℝ) + 1) / 720 := by
    unfold Renderer.sampleV
    rw [e4]
    norm_num
  have h6 : Renderer.sampleV { width := 1280, height := 720, samplesPerPixel := 8 } 719 6 =
      (7205 / 10) / 720 := by
    unfold Renderer.sampleV
    rw [e6]
    norm_num
  refine ⟨⟨by norm_num, by norm_num⟩, h4, ?_, h6, ?_⟩
  · rw [h4]
    exact lt_irrefl _
  · rw [h6]
    norm_num

/-! ## C20: tone mapping -/

/-- C21 as stated fails: the constructor and the setters store non-positive values without
any check; a renderer of size `0 x -5`, a sample count of `0` or `-3` and a bounce depth of
`0` are all accepted and held in the renderer state. -/
theorem C21_invalid_configuration_accepted :
    ((Renderer.new 0 (-5)).width = 0 ∧ (Renderer.new 0 (-5)).height = -5) ∧
    ((Renderer.new 1280 720).setSamplesPerPixel 0).samplesPerPixel = 0 ∧
    ((Renderer.new 1280 720).setSamplesPerPixel (-3)).samplesPerPixel = -3 ∧
    ((Renderer.new 1280 720).setMaxBounces 0).maxBounces = 0 :=
  ⟨⟨rfl, rfl⟩, rfl, rfl, rfl⟩

/-- The supersampling loop does not run for a non-positive sample count. -/
theorem sampleSum_nonpos (r : Renderer) (order : List SDF.Probe) (scene : Scene)
    (camera : Camera) (x row : ℤ) (h : r.samplesPerPixel ≤ 0) :
    r.sampleSum order scene camera x row = ⟨0, 0, 0⟩ := by
  unfold Renderer.sampleSum
  rw [Int.toNat_of_nonpos h]
  rfl

/-- C21, amended: the renderer does not validate its configuration. The constructor stores
any width and height, `setSamplesPerPixel` and `setMaxBounces` store any value, also values
`≤ 0`; with `maxBounces ≤ 0` every traced ray is black, and with `samplesPerPixel ≤ 0` the
supersampling loop accumulates no sample before the sum is divided by the sample count. -/
theorem C21_configuration_stored (width height samples bounces : ℤ) (r : Renderer)
    (order : List SDF.Probe) (scene : Scene) (camera : Camera) (ray : Ray) (x row : ℤ) :
    ((Renderer.new width height).width = width ∧ (Renderer.new width height).height = height) ∧
    (r.setSamplesPerPixel samples).samplesPerPixel = samples ∧
    (r.setMaxBounces bounces).maxBounces = bounces ∧
    (r.maxBounces ≤ 0 → r.trace order ray scene r.maxBounces = ⟨0, 0, 0⟩) ∧
    (r.samplesPerPixel ≤ 0 → r.sampleSum order scene camera x row = ⟨0, 0, 0⟩) :=
  ⟨⟨rfl, rfl⟩, rfl, rfl, trace_nonpos r order ray scene r.maxBounces,
    sampleSum_nonpos r order scene camera x row⟩

/-- Witness for C21: the 1280 x 720 renderer of `main.cpp` with the sample count set to 0. -/
theorem C21_configuration_stored_witness :
    ((Renderer.new 1280 720).setSamplesPerPixel 0).samplesPerPixel ≤ 0 ∧
    Renderer.sampleSum ((Renderer.new 1280 720).setSamplesPerPixel 0) sourceOrder {}
      (Camera.new 45 1) 0 0 = ⟨0, 0, 0⟩ :=
  ⟨le_refl _,
    (C21_configuration_stored 1280 720 0 0 ((Renderer.new 1280 720).setSamplesPerPixel 0)
      sourceOrder {} (Camera.new 45 1) ⟨⟨0, 0, 0⟩, ⟨0, 0, 1⟩⟩ 0 0).2.2.2.2 (le_refl _)⟩

/-! ## C22: the iteration cap -/

/-- The instrumented loop returns the result of the loop and counts at most one position per
iteration. -/
theorem marchLoopCounted_spec (order : List SDF.Probe) (objects : List SDF) (ray : Ray)
    (maxDist epsilon : ℝ) (n : ℕ) (t : ℝ) :
    (Scene.marchLoopCounted order objects ray maxDist epsilon n t).1 =
      Scene.marchLoop order objects ray maxDist epsilon n t ∧
    (Scene.marchLoopCounted order objects ray maxDist epsilon n t).2 ≤ n := by
  induction n generalizing t with
  | zero => exact ⟨rfl, le_refl _⟩
  | succ n ih =>
    rw [marchLoop_succ]
    simp only [Scene.marchLoopCounted]
    split_ifs with h1 h2
    · cases (Scene.closestScan (ray.at t) objects (FLT_MAX, none)).2 with
      | none => exact ⟨rfl, Nat.le_add_left 1 n⟩
      | some closest => exact ⟨rfl, Nat.le_add_left 1 n⟩
    · exact ⟨rfl, Nat.le_add_left 1 n⟩
    · obtain ⟨e1, e2⟩ := ih (t + (Scene.closestScan (ray.at t) objects (FLT_MAX, none)).1)
      exact ⟨e1, Nat.succ_le_succ e2⟩

/-- If the minimum found is at least `epsilon` at each of the next `n` visited positions, the
loop with `n` iterations left misses. -/
theorem marchLoop_miss_of_far (order : List SDF.Probe) (objects : List SDF) (ray : Ray)
    (maxDist epsilon : ℝ) (n i : ℕ)
    (hfar : ∀ k, i ≤ k → k < i + n →
      epsilon ≤ sceneDist objects (ray.at (visitedParam objects ray k))) :
    Scene.marchLoop order objects ray maxDist epsilon n (visitedParam objects ray i) =
      MarchResult.miss := by
  induction n generalizing i with
  | zero => rfl
  | succ n ih =>
    rw [marchLoop_succ, closestScan_fst_eq_sceneDist,
      if_neg (not_lt.mpr (hfar i (le_refl _) (by omega)))]
    split_ifs with h2
    · rfl
    · exact ih (i + 1) (fun k hk1 hk2 => hfar k (by omega) (by omega))

theorem normalize_unit_y : (Vec3.mk 0 1 0).normalize = ⟨0, 1, 0⟩ := by
  have hlen : (Vec3.mk 0 1 0).length = 1 :=
    Vec3.length_eq_of_mul_self _ _ zero_le_one (by norm_num)
  unfold Vec3.normalize
  rw [hlen]
  ext <;> simp

/-- The ground plane `y = 0` seen from a ray at height `0.5` parallel to it: the minimum
found is `0.5` at every parameter. -/
theorem sceneDist_plane_parallel (t : ℝ) :
    sceneDist (Scene.add {} (SDF.newPlane ⟨0, 1, 0⟩ 0)).objects
      ((Ray.mk ⟨0, 1 / 2, 0⟩ ⟨1, 0, 0⟩).at t) = 1 / 2 := by
  have hobj : (Scene.add {} (SDF.newPlane ⟨0, 1, 0⟩ 0)).objects =
      [SDF.Plane {} ⟨0, 1, 0⟩ 0] := by
    simp only [Scene.add, SDF.newPlane, normalize_unit_y, List.nil_append]
  rw [hobj]
  unfold sceneDist
  simp only [List.foldl_cons, List.foldl_nil, SDF.distance, Vec3.dot, Ray.at, Vec3.add_x,
    Vec3.add_y, Vec3.add_z, Vec3.smul_x, Vec3.smul_y, Vec3.smul_z]
  have hF : (1 / 2 : ℝ) ≤ FLT_MAX := by
    unfold FLT_MAX
    norm_num
  rw [min_eq_right (by linarith)]
  ring

/-- Along that ray the march parameter advances by `0.5` per iteration. -/
theorem visitedParam_plane_parallel (k : ℕ) :
    visitedParam (Scene.add {} (SDF.newPlane ⟨0, 1, 0⟩ 0)).objects
      ⟨⟨0, 1 / 2, 0⟩, ⟨1, 0, 0⟩⟩ k = (k : ℝ) / 2 := by
  induction k with
  | zero => simp [visitedParam]
  | succ k ih =>
    rw [visitedParam, sceneDist_plane_parallel, ih]
    push_cast
    ring

/-- C22: `march` evaluates the scene at no more than 100 positions and terminates (the loop
is a total function of the iterations left); if the minimum found is at least `epsilon` at
each of the 100 visited positions, it returns a miss; for the single root
`Plane((0, 1, 0), 0)`, the ray from `(0, 0.5, 0)` along `(1, 0, 0)` and the default arguments
the parameter `t` only reaches `50`, never exceeds `maxDist = 100`, and the result is a
miss. -/
theorem C22_iteration_cap (order : List SDF.Probe) (sc : Scene) (ray : Ray)
    (maxDist epsilon : ℝ) :
    ((Scene.marchLoopCounted order sc.objects ray maxDist epsilon 100 0).1 =
        sc.march order ray maxDist epsilon ∧
      (Scene.marchLoopCounted order sc.objects ray maxDist epsilon 100 0).2 ≤ 100) ∧
    ((∀ k < 100, epsilon ≤ sceneDist sc.objects (ray.at (visitedParam sc.objects ray k))) →
      sc.march order ray maxDist epsilon = MarchResult.miss) ∧
    ((Scene.add {} (SDF.newPlane ⟨0, 1, 0⟩ 0)).march order ⟨⟨0, 1 / 2, 0⟩, ⟨1, 0, 0⟩⟩
        defaultMaxDist defaultEpsilon = MarchResult.miss ∧
      visitedParam (Scene.add {} (SDF.newPlane ⟨0, 1, 0⟩ 0)).objects
        ⟨⟨0, 1 / 2, 0⟩, ⟨1, 0, 0⟩⟩ 100 = 50 ∧
      ∀ k ≤ 100, visitedParam (Scene.add {} (SDF.newPlane ⟨0, 1, 0⟩ 0)).objects
        ⟨⟨0, 1 / 2, 0⟩, ⟨1, 0, 0⟩⟩ k ≤ defaultMaxDist) := by
  have hgen : ∀ (sc : Scene) (ray : Ray) (maxDist epsilon : ℝ),
      (∀ k < 100, epsilon ≤ sceneDist sc.objects (ray.at (visitedParam sc.objects ray k))) →
      sc.march order ray maxDist epsilon = MarchResult.miss := by
    intro sc ray maxDist epsilon hfar
    exact marchLoop_miss_of_far order sc.objects ray maxDist epsilon 100 0
      (fun k _ hk => hfar k (by omega))
  refine ⟨marchLoopCounted_spec order sc.objects ray maxDist epsilon 100 0,
    hgen sc ray maxDist epsilon, ?_, ?_, ?_⟩
  · apply hgen
    intro k _
    rw [sceneDist_plane_parallel]
    unfold defaultEpsilon
    norm_num
  · rw [visitedParam_plane_parallel]
    norm_num
  · intro k hk
    rw [visitedParam_plane_parallel]
    unfold defaultMaxDist
    have : (k : ℝ) ≤ 100 := by exact_mod_cast hk
    linarith

/-- Witness for C22: the ground plane and the parallel ray of the claim. -/
theorem C22_iteration_cap_witness :
    (∀ k < 100, defaultEpsilon ≤ sceneDist (Scene.add {} (SDF.newPlane ⟨0, 1, 0⟩ 0)).objects
      ((Ray.mk ⟨0, 1 / 2, 0⟩ ⟨1, 0, 0⟩).at
        (visitedParam (Scene.add {} (SDF.newPlane ⟨0, 1, 0⟩ 0)).objects
          ⟨⟨0, 1 / 2, 0⟩, ⟨1, 0, 0⟩⟩ k))) ∧
    (Scene.add {} (SDF.newPlane ⟨0, 1, 0⟩ 0)).march sourceOrder ⟨⟨0, 1 / 2, 0⟩, ⟨1, 0, 0⟩⟩
      defaultMaxDist defaultEpsilon = MarchResult.miss := by
  have hfar : ∀ k < 100,
      defaultEpsilon ≤ sceneDist (Scene.add {} (SDF.newPlane ⟨0, 1, 0⟩ 0)).objects
        ((Ray.mk ⟨0, 1 / 2, 0⟩ ⟨1, 0, 0⟩).at
          (visitedParam (Scene.add {} (SDF.newPlane ⟨0, 1, 0⟩ 0)).objects
            ⟨⟨0, 1 / 2, 0⟩, ⟨1, 0, 0⟩⟩ k)) := by
    intro k _
    rw [sceneDist_plane_parallel]
    unfold defaultEpsilon
    norm_num
  exact ⟨hfar,
    (C22_iteration_cap sourceOrder (Scene.add {} (SDF.newPlane ⟨0, 1, 0⟩ 0))
      ⟨⟨0, 1 / 2, 0⟩, ⟨1, 0, 0⟩⟩ defaultMaxDist defaultEpsilon).2.1 hfar⟩

/-! ## C23: the cylinder -/

/-- The value of `Cylinder::distance` is at most the distance to any point of the solid
cylinder: the cap/radial combination never overestimates. -/
theorem cylinder_distance_le (m : Material) (c : Vec3) (r h : ℝ) (p q : Vec3)
    (hq : inSolidCylinder c r h q) : (SDF.Cylinder m c r h).distance p ≤ euclid p q := by
  obtain ⟨hrad, hcap⟩ := hq
  simp only [SDF.distance, Vec3.sub_x, Vec3.sub_y, Vec3.sub_z]
  apply max_le
  · have ht := Vec3.length_add_le ⟨p.x - q.x, 0, p.z - q.z⟩ ⟨q.x - c.x, 0, q.z - c.z⟩
    have e1 : ((⟨p.x - q.x, 0, p.z - q.z⟩ : Vec3) + ⟨q.x - c.x, 0, q.z - c.z⟩).length =
        Real.sqrt ((p.x - c.x) * (p.x - c.x) + (p.z - c.z) * (p.z - c.z)) := by
      unfold Vec3.length
      congr 1
      simp only [Vec3.add_x, Vec3.add_y, Vec3.add_z]
      ring
    have e2 : (⟨q.x - c.x, 0, q.z - c.z⟩ : Vec3).length =
        Real.sqrt ((q.x - c.x) ^ 2 + (q.z - c.z) ^ 2) := by
      unfold Vec3.length
      congr 1
      ring
    have e3 : (⟨p.x - q.x, 0, p.z - q.z⟩ : Vec3).length ≤ euclid p q := by
      unfold Vec3.length euclid
      apply Real.sqrt_le_sqrt
      simp only
      nlinarith [sq_nonneg (p.y - q.y)]
    rw [e1, e2] at ht
    linarith
  · have h1 : |p.y - c.y| ≤ |p.y - q.y| + |q.y - c.y| := by
      have := abs_add (p.y - q.y) (q.y - c.y)
      rwa [sub_add_sub_cancel] at this
    have h2 := abs_sub_y_le_euclid p q
    linarith

/-- C23 as stated fails: there is no cylinder with positive radius and height and no point
outside it at which `Cylinder::distance` is strictly greater than the Euclidean distance from
the point to the solid capped cylinder. -/
theorem C23_cylinder_never_overestimates :
    ¬ ∃ (m : Material) (c : Vec3) (r h : ℝ) (p : Vec3) (d : ℝ),
      0 < r ∧ 0 < h ∧ ¬ inSolidCylinder c r h p ∧
      IsNearestDistance (inSolidCylinder c r h) p d ∧ d < (SDF.Cylinder m c r h).distance p := by
  rintro ⟨m, c, r, h, p, d, _, _, _, ⟨⟨q, hq, hd⟩, _⟩, hlt⟩
  have := cylinder_distance_le m c r h p q hq
  linarith

/-- The point `(4, 5, 0)` and the cylinder of radius 1 and height 2 around the origin: the
nearest point of the solid is the rim point `(1, 1, 0)` at distance 5, while
`Cylinder::distance` is `max(3, 4) = 4`. -/
theorem cylinder_corner_example (m : Material) :
    ¬ inSolidCylinder ⟨0, 0, 0⟩ 1 2 ⟨4, 5, 0⟩ ∧
    IsNearestDistance (inSolidCylinder ⟨0, 0, 0⟩ 1 2) ⟨4, 5, 0⟩ 5 ∧
    (SDF.Cylinder m ⟨0, 0, 0⟩ 1 2).distance ⟨4, 5, 0⟩ = 4 := by
  refine ⟨?_, ⟨⟨⟨1, 1, 0⟩, ⟨?_, ?_⟩, ?_⟩, ?_⟩, ?_⟩
  · rintro ⟨_, hcap⟩
    norm_num at hcap
  · simp
  · simp
  · unfold euclid
    have e : ((4 : ℝ) - 1) ^ 2 + (5 - 1) ^ 2 + (0 - 0) ^ 2 = 5 * 5 := by norm_num
    rw [e, Real.sqrt_mul_self (by norm_num)]
  · rintro q ⟨hrad, hcap⟩
    have h1 : (q.x - 0) ^ 2 + (q.z - 0) ^ 2 ≤ 1 := Real.sqrt_le_one.mp hrad
    have hx : q.x ≤ 1 := by nlinarith [sq_nonneg (q.z - 0), sq_nonneg (q.x - 1)]
    have hy : q.y ≤ 1 := by
      have := (abs_le.mp hcap).2
      linarith
    unfold euclid
    calc (5 : ℝ) = Real.sqrt (5 * 5) := (Real.sqrt_mul_self (by norm_num)).symm
      _ ≤ Real.sqrt ((4 - q.x) ^ 2 + (5 - q.y) ^ 2 + (0 - q.z) ^ 2) := by
        apply Real.sqrt_le_sqrt
        nlinarith [sq_nonneg (0 - q.z), mul_nonneg (sub_nonneg.mpr hx) (sub_nonneg.mpr hx),
          mul_nonneg (sub_nonneg.mpr hy) (sub_nonneg.mpr hy)]
  · simp only [SDF.distance, Vec3.sub_x, Vec3.sub_y, Vec3.sub_z, sub_zero, mul_zero, add_zero]
    rw [Real.sqrt_mul_self (by norm_num), abs_of_nonneg (by norm_num)]
    norm_num

/-- C23, amended: for every cylinder with positive radius and height and every point `p`
outside it, `Cylinder::distance(p)`, the maximum of radial and cap distance, is at most the
Euclidean distance from `p` to the solid capped cylinder, and there are a cylinder and a
point beyond the rim (radius 1, height 2, `p = (4, 5, 0)`) where it is strictly smaller
(`4 < 5`): near the edges the combination underestimates the distance. -/
theorem C23_cylinder_underestimates (m : Material) (c : Vec3) (r h : ℝ) (p : Vec3) (d : ℝ)
    (_hr : 0 < r) (_hh : 0 < h) (_hout : ¬ inSolidCylinder c r h p)
    (hd : IsNearestDistance (inSolidCylinder c r h) p d) :
    (SDF.Cylinder m c r h).distance p ≤ d ∧
    (¬ inSolidCylinder ⟨0, 0, 0⟩ 1 2 ⟨4, 5, 0⟩ ∧
      IsNearestDistance (inSolidCylinder ⟨0, 0, 0⟩ 1 2) ⟨4, 5, 0⟩ 5 ∧
      (SDF.Cylinder m ⟨0, 0, 0⟩ 1 2).distance ⟨4, 5, 0⟩ < 5) := by
  obtain ⟨⟨q, hq, hqd⟩, _⟩ := hd
  obtain ⟨e1, e2, e3⟩ := cylinder_corner_example m
  refine ⟨?_, e1, e2, ?_⟩
  · rw [← hqd]
    exact cylinder_distance_le m c r h p q hq
  · rw [e3]
    norm_num

/-- Witness for C23: the cylinder of radius 1 and height 2 and the point `(4, 5, 0)`. -/
theorem C23_cylinder_underestimates_witness :
    ((0 : ℝ) < 1 ∧ (0 : ℝ) < 2 ∧ ¬ inSolidCylinder ⟨0, 0, 0⟩ 1 2 ⟨4, 5, 0⟩ ∧
      IsNearestDistance (inSolidCylinder ⟨0, 0, 0⟩ 1 2) ⟨4, 5, 0⟩ 5) ∧
    (SDF.Cylinder {} ⟨0, 0, 0⟩ 1 2).distance ⟨4, 5, 0⟩ ≤ 5 :=
  ⟨⟨one_pos, two_pos, (cylinder_corner_example {}).1, (cylinder_corner_example {}).2.1⟩,
    (C23_cylinder_underestimates {} ⟨0, 0, 0⟩ 1 2 ⟨4, 5, 0⟩ 5 one_pos two_pos
      (cylinder_corner_example {}).1 (cylinder_corner_example {}).2.1).1⟩

/-! ## C24: the order of the lights -/

/-- The minimum the inner loop finds is a lower bound of every root distance. -/
theorem sceneDist_le (objects : List SDF) (pos : Vec3) :
    ∀ o ∈ objects, sceneDist objects pos ≤ o.distance pos := by
  have h := (closestScan_spec pos objects FLT_MAX none).1
  rw [closestScan_fst_eq_sceneDist] at h
  exact h

theorem Vec3.length_smul (u : Vec3) (a : ℝ) : (u * a).length = |a| * u.length := by
  unfold Vec3.length
  simp only [Vec3.smul_x, Vec3.smul_y, Vec3.smul_z]
  have e : u.x * a * (u.x * a) + u.y * a * (u.y * a) + u.z * a * (u.z * a) =
      a * a * (u.x * u.x + u.y * u.y + u.z * u.z) := by ring
  rw [e, Real.sqrt_mul (mul_self_nonneg a), Real.sqrt_mul_self_eq_abs]

/-- Two points of a ray are `|s - t|` times the length of the direction apart. -/
theorem euclid_ray_at (ray : Ray) (s t : ℝ) :
    euclid (ray.at s) (ray.at t) = |s - t| * ray.direction.length := by
  rw [euclid_eq_length, ← Vec3.length_smul]
  congr 1
  ext <;> simp only [Ray.at, Vec3.sub_x, Vec3.sub_y, Vec3.sub_z, Vec3.add_x, Vec3.add_y,
    Vec3.add_z, Vec3.smul_x, Vec3.smul_y, Vec3.smul_z] <;> ring

/-- For 1-Lipschitz roots and a unit direction, every point of the ray before the `j`-th
visited parameter lies strictly outside every root, as long as no earlier position was a
hit. -/
theorem march_safe_before (objects : List SDF) (ray : Ray) (epsilon : ℝ)
    (hlip : ∀ o ∈ objects, ∀ p q, |o.distance p - o.distance q| ≤ euclid p q)
    (hunit : ray.direction.length = 1) (_heps : 0 < epsilon) (j : ℕ)
    (hfar : ∀ k < j, epsilon ≤ sceneDist objects (ray.at (visitedParam objects ray k))) :
    ∀ s, 0 ≤ s → s < visitedParam objects ray j → ∀ o ∈ objects, 0 < o.distance (ray.at s) := by
  induction j with
  | zero =>
    intro s h0 hs
    simp only [visitedParam] at hs
    linarith
  | succ j ih =>
    intro s h0 hs o ho
    rcases lt_or_le s (visitedParam objects ray j) with hlt | hge
    · exact ih (fun k hk => hfar k (by omega)) s h0 hlt o ho
    · simp only [visitedParam] at hs
      have h1 := sceneDist_le objects (ray.at (visitedParam objects ray j)) o ho
      have h2 := hlip o ho (ray.at (visitedParam objects ray j)) (ray.at s)
      have hst : |s - visitedParam objects ray j| = s - visitedParam objects ray j :=
        abs_of_nonneg (by linarith)
      rw [euclid_comm, euclid_ray_at, hunit, mul_one, hst] at h2
      have h3 := (abs_le.mp h2).2
      linarith

/-- C26 (sphere-marching safety): for every scene whose root distance functions are all
1-Lipschitz, every ray with unit-length direction and every `epsilon > 0`: at every iteration
of `march`, with `t` the current march parameter, every root distance is strictly positive at
each point `ray.at(s)` with `0 ≤ s < t`; hence a reported hit is never preceded along the ray
by a point on or inside a surface. -/
theorem C26_march_safety (order : List SDF.Probe) (sc : Scene) (ray : Ray)
    (maxDist epsilon : ℝ)
    (hlip : ∀ o ∈ sc.objects, ∀ p q, |o.distance p - o.distance q| ≤ euclid p q)
    (hunit : ray.direction.length = 1) (heps : 0 < epsilon) :
    (∀ j, (∀ k < j, epsilon ≤ sceneDist sc.objects (ray.at (visitedParam sc.objects ray k))) →
      ∀ s, 0 ≤ s → s < visitedParam sc.objects ray j →
        ∀ o ∈ sc.objects, 0 < o.distance (ray.at s)) ∧
    (∀ hit, sc.march order ray maxDist epsilon = MarchResult.hit hit →
      ∀ s, 0 ≤ s → s < hit.distance → ∀ o ∈ sc.objects, 0 < o.distance (ray.at s)) := by
  refine ⟨fun j => march_safe_before sc.objects ray epsilon hlip hunit heps j, ?_⟩
  intro hit hhit s h0 hs
  obtain ⟨j, _, _, hd, _, _, hprev, _⟩ :=
    marchLoop_hit_spec order sc.objects ray maxDist epsilon 100 0 hit hhit
  rw [hd] at hs
  exact march_safe_before sc.objects ray epsilon hlip hunit heps j
    (fun k hk => (hprev k (Nat.zero_le _) hk).1) s h0 hs

/-- The distance function of a sphere is 1-Lipschitz. -/
theorem sphere_lipschitz (m : Material) (c : Vec3) (r : ℝ) (p q : Vec3) :
    |(SDF.Sphere m c r).distance p - (SDF.Sphere m c r).distance q| ≤ euclid p q := by
  rw [sphere_distance_eq, sphere_distance_eq, abs_le]
  have h1 := euclid_triangle p q c
  have h2 := euclid_triangle q p c
  rw [euclid_comm q p] at h2
  constructor <;> linarith

/-- Witness for C26: the spec's example, the unit sphere and the ray from `(0, 0, 5)` along
`-z`; no point of the ray before the hit at distance 4 lies on or inside the sphere. -/
theorem C26_march_safety_witness :
    ((∀ o ∈ (Scene.add {} (SDF.newSphere ⟨0, 0, 0⟩ 1)).objects, ∀ p q,
        |o.distance p - o.distance q| ≤ euclid p q) ∧
      (Vec3.mk 0 0 (-1)).length = 1 ∧ 0 < defaultEpsilon) ∧
    ∀ s : ℝ, 0 ≤ s → s < 4 → ∀ o ∈ (Scene.add {} (SDF.newSphere ⟨0, 0, 0⟩ 1)).objects,
      0 < o.distance ((Ray.mk ⟨0, 0, 5⟩ ⟨0, 0, -1⟩).at s) := by
  have hlip : ∀ o ∈ (Scene.add {} (SDF.newSphere ⟨0, 0, 0⟩ 1)).objects, ∀ p q,
      |o.distance p - o.distance q| ≤ euclid p q := by
    intro o ho p q
    have ho' : o = SDF.Sphere {} ⟨0, 0, 0⟩ 1 := by
      simpa [Scene.add, SDF.newSphere] using ho
    rw [ho']
    exact sphere_lipschitz _ _ _ p q
  have hunit : (Vec3.mk 0 0 (-1)).length = 1 := by
    rw [Vec3.length_axis_z]
    norm_num
  have heps : 0 < defaultEpsilon := by
    unfold defaultEpsilon
    norm_num
  exact ⟨⟨hlip, hunit, heps⟩,
    (C26_march_safety sourceOrder (Scene.add {} (SDF.newSphere ⟨0, 0, 0⟩ 1))
      ⟨⟨0, 0, 5⟩, ⟨0, 0, -1⟩⟩ defaultMaxDist defaultEpsilon hlip hunit heps).2
      { distance := 4, position := ⟨0, 0, 1⟩, normal := ⟨0, 0, 1⟩, material := {} }
      (march_unit_sphere sourceOrder)⟩

/-! ## C29: the shadow bias on a plane -/

/-- The inner loop keeps the first root that attains the minimum: either nothing was closer
than the starting value, or the result is a root before which every root is strictly farther
and after which no root is closer. -/
theorem closestScan_first (pos : Vec3) (objects : List SDF) (m : ℝ) (c : Option SDF) :
    (Scene.closestScan pos objects (m, c) = (m, c) ∧ ∀ x ∈ objects, m ≤ x.distance pos) ∨
    ∃ pre o post, objects = pre ++ o :: post ∧
      Scene.closestScan pos objects (m, c) = (o.distance pos, some (o.afterDistance pos)) ∧
      o.distance pos < m ∧
      (∀ x ∈ pre, o.distance pos < x.distance pos) ∧
      (∀ x ∈ post, o.distance pos ≤ x.distance pos) := by
  induction objects generalizing m c with
  | nil =>
    left
    exact ⟨rfl, fun x hx => by cases hx⟩
  | cons a rest ih =>
    by_cases h : a.distance pos < m
    · have hstep : Scene.closestScan pos (a :: rest) (m, c) =
          Scene.closestScan pos rest (a.distance pos, some (a.afterDistance pos)) := by
        simp only [Scene.closestScan, if_pos h]
      rw [hstep]
      right
      rcases ih (a.distance pos) (some (a.afterDistance pos)) with ⟨e, hall⟩ |
          ⟨pre, o, post, e1, e2, e3, e4, e5⟩
      · exact ⟨[], a, rest, rfl, e, h, fun x hx => absurd hx (List.not_mem_nil x), hall⟩
      · refine ⟨a :: pre, o, post, by rw [e1]; rfl, e2, e3.trans h, ?_, e5⟩
        intro x hx
        rcases List.mem_cons.mp hx with rfl | hx
        · exact e3
        · exact e4 x hx
    · have hstep : Scene.closestScan pos (a :: rest) (m, c) =
          Scene.closestScan pos rest (m, c) := by
        simp only [Scene.closestScan, if_neg h]
      rw [hstep]
      rcases ih m c with ⟨e, hall⟩ | ⟨pre, o, post, e1, e2, e3, e4, e5⟩
      · left
        refine ⟨e, ?_⟩
        intro x hx
        rcases List.mem_cons.mp hx with rfl | hx
        · exact not_lt.mp h
        · exact hall x hx
      · right
        refine ⟨a :: pre, o, post, by rw [e1]; rfl, e2, e3, ?_, e5⟩
        intro x hx
        rcases List.mem_cons.mp hx with rfl | hx
        · exact lt_of_lt_of_le e3 (not_lt.mp h)
        · exact e4 x hx

theorem primitive_afterDistance (o : SDF) (h : o.IsPrimitive) (p : Vec3) :
    o.afterDistance p = o := by
  cases o <;> first | rfl | exact absurd h (by simp [SDF.IsPrimitive])

theorem primitive_afterNormal (order : List SDF.Probe) (o : SDF) (h : o.IsPrimitive)
    (p : Vec3) : o.afterNormal order p = o := by
  unfold SDF.afterNormal
  induction order with
  | nil => rfl
  | cons a rest ih =>
    rw [List.foldl_cons, primitive_afterDistance o h]
    exact ih

/-- A hit of the loop takes normal and material from the first root that attains the minimum
at the hit position. -/
theorem marchLoop_hit_first (order : List SDF.Probe) (objects : List SDF) (ray : Ray)
    (maxDist epsilon : ℝ) (n : ℕ) (t : ℝ) (hit : Hit)
    (hhit : Scene.marchLoop order objects ray maxDist epsilon n t = MarchResult.hit hit) :
    ∃ pre o post, objects = pre ++ o :: post ∧
      (∀ x ∈ pre, o.distance hit.position < x.distance hit.position) ∧
      (∀ x ∈ post, o.distance hit.position ≤ x.distance hit.position) ∧
      hit.normal = o.normal hit.position ∧
      hit.material = ((o.afterDistance hit.position).afterNormal order hit.position).getMaterial := by
  induction n generalizing t with
  | zero => cases hhit
  | succ n ih =>
    rw [marchLoop_succ] at hhit
    split_ifs at hhit with h1 h2
    · rcases closestScan_first (ray.at t) objects FLT_MAX none with ⟨e, _⟩ |
          ⟨pre, o, post, e1, e2, _, e4, e5⟩
      · rw [e] at hhit
        cases hhit
      · rw [e2] at hhit
        injection hhit with hh
        subst hh
        exact ⟨pre, o, post, e1, e4, e5, SDF.normal_afterDistance _ _ _, rfl⟩
    · exact ih _ hhit

/-- For roots that are all primitives the loop does not depend on the order in which
`SDF::normal` evaluates its six probes. -/
theorem marchLoop_order_irrelevant (order order' : List SDF.Probe) (objects : List SDF)
    (ray : Ray) (maxDist epsilon : ℝ) (hprim : ∀ o ∈ objects, o.IsPrimitive) (n : ℕ) (t : ℝ) :
    Scene.marchLoop order objects ray maxDist epsilon n t =
      Scene.marchLoop order' objects ray maxDist epsilon n t := by
  induction n generalizing t with
  | zero => rfl
  | succ n ih =>
    rw [marchLoop_succ, marchLoop_succ]
    split_ifs with h1 h2
    · cases hc : (Scene.closestScan (ray.at t) objects (FLT_MAX, none)).2 with
      | none => rfl
      | some closest =>
        obtain ⟨o, ho, e1, _, _⟩ := closestScan_some _ _ _ hc
        have hp : closest.IsPrimitive := by
          rw [e1, primitive_afterDistance o (hprim o ho)]
          exact hprim o ho
        simp only [primitive_afterNormal _ closest hp]
    · rfl
    · exact ih _

/-- C28 (closest-hit tie-break): when `march` reports a hit, normal and material are taken
from the root that attains the minimum distance at the hit position and was added first
(every root added before it is strictly farther, no root added after it is closer); for a
primitive root the material is the root's own; and for a scene of primitive roots the result
of `march` is a function of the ordered root list, the ray, `maxDist` and `epsilon` alone: it
does not depend on the order in which the normal probes are evaluated. -/
theorem C28_tie_break_first_added (order order' : List SDF.Probe) (sc : Scene) (ray : Ray)
    (maxDist epsilon : ℝ) (hit : Hit)
    (hhit : sc.march order ray maxDist epsilon = MarchResult.hit hit) :
    (∃ pre o post, sc.objects = pre ++ o :: post ∧
      (∀ x ∈ pre, o.distance hit.position < x.distance hit.position) ∧
      (∀ x ∈ post, o.distance hit.position ≤ x.distance hit.position) ∧
      hit.normal = o.normal hit.position ∧
      hit.material =
        ((o.afterDistance hit.position).afterNormal order hit.position).getMaterial ∧
      (o.IsPrimitive → hit.material = o.getMaterial)) ∧
    ((∀ o ∈ sc.objects, o.IsPrimitive) →
      sc.march order' ray maxDist epsilon = MarchResult.hit hit) := by
  constructor
  · obtain ⟨pre, o, post, e1, e2, e3, e4, e5⟩ :=
      marchLoop_hit_first order sc.objects ray maxDist epsilon 100 0 hit hhit
    refine ⟨pre, o, post, e1, e2, e3, e4, e5, ?_⟩
    intro hp
    rw [e5, primitive_afterDistance o hp, primitive_afterNormal order o hp]
  · intro hprim
    rw [← hhit]
    exact marchLoop_order_irrelevant order' order sc.objects ray maxDist epsilon hprim 100 0

/-- The inner loop for two spheres of the same radius around the origin and a position on the
z axis: both are equally far and the first one is kept. -/
theorem axis_scan_two (m1 m2 : Material) (r z : ℝ) (h : |z| - r < FLT_MAX) :
    Scene.closestScan ⟨0, 0, z⟩ [SDF.Sphere m1 ⟨0, 0, 0⟩ r, SDF.Sphere m2 ⟨0, 0, 0⟩ r]
        (FLT_MAX, none) =
      (|z| - r, some (SDF.Sphere m1 ⟨0, 0, 0⟩ r)) := by
  simp only [Scene.closestScan, sphere_axis_distance, if_pos h, lt_self_iff_false, if_false]
  rfl

/-- Two coinciding unit spheres with different materials, marched from `(0, 0, 5)` along
`-z`: the hit carries the material of the sphere added first. -/
theorem march_two_spheres (order : List SDF.Probe) (m1 m2 : Material) :
    Scene.march order
        { objects := [SDF.Sphere m1 ⟨0, 0, 0⟩ 1, SDF.Sphere m2 ⟨0, 0, 0⟩ 1] }
        ⟨⟨0, 0, 5⟩, ⟨0, 0, -1⟩⟩ defaultMaxDist defaultEpsilon =
      MarchResult.hit { distance := 4, position := ⟨0, 0, 1⟩, normal := ⟨0, 0, 1⟩, material := m1 } := by
  have hF : (0 : ℝ) < FLT_MAX := FLT_MAX_pos
  have hF4 : (4 : ℝ) < FLT_MAX := by
    unfold FLT_MAX
    norm_num
  have a0 : |(5 + -1 * 0 : ℝ)| = 5 := by
    rw [abs_of_nonneg] <;> norm_num
  have a1 : |(5 + -1 * (0 + (5 - 1)) : ℝ)| = 1 := by
    rw [abs_of_nonneg] <;> norm_num
  have e1 : (5 + -1 * (0 + (5 - 1)) : ℝ) = 1 := by norm_num
  have e4 : (0 + (5 - 1) : ℝ) = 4 := by norm_num
  have e5 : (5 + -1 * 4 : ℝ) = 1 := by norm_num
  unfold Scene.march
  simp only
  rw [marchLoop_succ, ray_axis_at, axis_scan_two _ _ _ _ (by rw [a0]; linarith), a0,
    if_neg (by unfold defaultEpsilon; norm_num), if_neg (by unfold defaultMaxDist; norm_num),
    marchLoop_succ, ray_axis_at, axis_scan_two _ _ _ _ (by rw [a1]; linarith), a1,
    if_pos (by unfold defaultEpsilon; norm_num)]
  simp only [sphere_afterNormal, SDF.getMaterial, e4, e5, sphere_normal_pole]

/-- Witness for C28: two coinciding unit spheres, the first one red; the tie at the hit is
resolved in favour of the first, whatever the order of the normal probes. -/
theorem C28_tie_break_first_added_witness :
    Scene.march sourceOrder
        { objects := [SDF.Sphere ⟨⟨9 / 10, 2 / 10, 2 / 10⟩, 0, 1 / 2, 0⟩ ⟨0, 0, 0⟩ 1,
            SDF.Sphere {} ⟨0, 0, 0⟩ 1] }
        ⟨⟨0, 0, 5⟩, ⟨0, 0, -1⟩⟩ defaultMaxDist defaultEpsilon =
      MarchResult.hit ⟨4, ⟨0, 0, 1⟩, ⟨0, 0, 1⟩, ⟨⟨9 / 10, 2 / 10, 2 / 10⟩, 0, 1 / 2, 0⟩⟩ ∧
    Scene.march sourceOrder.reverse
        { objects := [SDF.Sphere ⟨⟨9 / 10, 2 / 10, 2 / 10⟩, 0, 1 / 2, 0⟩ ⟨0, 0, 0⟩ 1,
            SDF.Sphere {} ⟨0, 0, 0⟩ 1] }
        ⟨⟨0, 0, 5⟩, ⟨0, 0, -1⟩⟩ defaultMaxDist defaultEpsilon =
      MarchResult.hit ⟨4, ⟨0, 0, 1⟩, ⟨0, 0, 1⟩, ⟨⟨9 / 10, 2 / 10, 2 / 10⟩, 0, 1 / 2, 0⟩⟩ :=
  ⟨march_two_spheres sourceOrder _ _,
    (C28_tie_break_first_added sourceOrder sourceOrder.reverse
      { objects := [SDF.Sphere ⟨⟨9 / 10, 2 / 10, 2 / 10⟩, 0, 1 / 2, 0⟩ ⟨0, 0, 0⟩ 1,
          SDF.Sphere {} ⟨0, 0, 0⟩ 1] }
      ⟨⟨0, 0, 5⟩, ⟨0, 0, -1⟩⟩ defaultMaxDist defaultEpsilon _
      (march_two_spheres sourceOrder _ _)).2
      (by
        intro o ho
        simp only [List.mem_cons, List.mem_singleton, List.not_mem_nil, or_false] at ho
        rcases ho with rfl | rfl <;> trivial)⟩

/-! ## C27: the material of a `Union` hit -/

/-- A `distance` call overwrites every cache an earlier call wrote. -/
theorem SDF.afterDistance_afterDistance (s : SDF) (p q : Vec3) :
    (s.afterDistance p).afterDistance q = s.afterDistance q := by
  induction s generalizing p q with
  | Sphere m c r => rfl
  | Box m c d => rfl
  | Torus m c r1 r2 => rfl
  | Plane m n d => rfl
  | Cylinder m c r h => rfl
  | Union m a b cs iha ihb =>
    simp only [SDF.afterDistance, SDF.distance_afterDistance, iha, ihb]
  | Subtraction m a b iha ihb => simp only [SDF.afterDistance, iha, ihb]
  | Intersection m a b iha ihb => simp only [SDF.afterDistance, iha, ihb]
  | SmoothUnion m a b k cs iha ihb =>
    simp only [SDF.afterDistance, SDF.distance_afterDistance, iha, ihb]
  | RepetitionSDF m shape spacing ih => simp only [SDF.afterDistance, ih]

theorem SDF.afterDistance_foldl (pos q : Vec3) (probes : List SDF.Probe) (s : SDF) :
    (probes.foldl (fun node probe => node.afterDistance (probe.point pos)) s).afterDistance q =
      s.afterDistance q := by
  induction probes generalizing s with
  | nil => rfl
  | cons a rest ih => rw [List.foldl_cons, ih, SDF.afterDistance_afterDistance]

/-- After `SDF::normal` the caches are those of the probe that was evaluated last. -/
theorem SDF.afterNormal_last (probes : List SDF.Probe) (last : SDF.Probe) (s : SDF)
    (pos : Vec3) :
    s.afterNormal (probes ++ [last]) pos = s.afterDistance (last.point pos) := by
  unfold SDF.afterNormal
  rw [List.foldl_append, List.foldl_cons, List.foldl_nil, SDF.afterDistance_foldl]

/-- The six probes of `SDF::normal` at the centre of a sphere all lie at distance
`h - radius` from it. -/
theorem sphere_probe_distance (m : Material) (r : ℝ) (probe : SDF.Probe) :
    (SDF.Sphere m ⟨0, 0, 0⟩ r).distance (probe.point ⟨0, 0, 0⟩) = 1 / 10000 - r := by
  have h : (probe.point ⟨0, 0, 0⟩ - (⟨0, 0, 0⟩ : Vec3)).length = 1 / 10000 := by
    apply Vec3.length_eq_of_mul_self _ _ (by norm_num)
    cases probe <;>
      simp only [SDF.Probe.point, SDF.normalStep, Vec3.sub_x, Vec3.sub_y, Vec3.sub_z,
        Vec3.add_x, Vec3.add_y, Vec3.add_z] <;> norm_num
  simp only [SDF.distance, h]

/-- C27, evaluated at the failing input: the single root
`Union(Sphere((0, 0, 0), 0.0001), Plane((2/3, 2/3, 1/3), -1/12000))` with a red first and a
blue second child, marched with the default arguments from the origin. The march hits at
once; at the hit position the first child is closer (`-1/10000 < -1/12000`), but
`hit.material` is read after `normal(pos)`, and at each of its six probes the sphere is at
distance `0` and the plane at a distance of at most `-1/60000`, so whichever probe is
evaluated last leaves the second child in the cache: the recorded material is the blue one
of the second child, for every evaluation order of the probes. -/
theorem C27_union_material_after_normal (probes : List SDF.Probe) (last : SDF.Probe) :
    ∃ hit, Scene.march (probes ++ [last])
        { objects := [SDF.Union {}
            (SDF.Sphere ⟨⟨9 / 10, 2 / 10, 2 / 10⟩, 0, 1 / 2, 0⟩ ⟨0, 0, 0⟩ (1 / 10000))
            (SDF.Plane ⟨⟨2 / 10, 2 / 10, 9 / 10⟩, 0, 1 / 2, 0⟩ ⟨2 / 3, 2 / 3, 1 / 3⟩
              (-1 / 12000)) none] }
        ⟨⟨0, 0, 0⟩, ⟨0, 0, 1⟩⟩ defaultMaxDist defaultEpsilon = MarchResult.hit hit ∧
      hit.position = ⟨0, 0, 0⟩ ∧
      (SDF.Sphere ⟨⟨9 / 10, 2 / 10, 2 / 10⟩, 0, 1 / 2, 0⟩ ⟨0, 0, 0⟩ (1 / 10000)).distance
          hit.position <
        (SDF.Plane ⟨⟨2 / 10, 2 / 10, 9 / 10⟩, 0, 1 / 2, 0⟩ ⟨2 / 3, 2 / 3, 1 / 3⟩
          (-1 / 12000)).distance hit.position ∧
      hit.material = ⟨⟨2 / 10, 2 / 10, 9 / 10⟩, 0, 1 / 2, 0⟩ ∧
      hit.material ≠
        (SDF.Sphere ⟨⟨9 / 10, 2 / 10, 2 / 10⟩, 0, 1 / 2, 0⟩ ⟨0, 0, 0⟩ (1 / 10000)).getMaterial := by
  have hlen : ((⟨0, 0, 0⟩ : Vec3) - ⟨0, 0, 0⟩).length = 0 :=
    Vec3.length_eq_of_mul_self _ _ (le_refl _) (by simp)
  have ha : (SDF.Sphere ⟨⟨9 / 10, 2 / 10, 2 / 10⟩, 0, 1 / 2, 0⟩ ⟨0, 0, 0⟩
      (1 / 10000)).distance ⟨0, 0, 0⟩ = -1 / 10000 := by
    simp only [SDF.distance, hlen]
    norm_num
  have hb : (SDF.Plane ⟨⟨2 / 10, 2 / 10, 9 / 10⟩, 0, 1 / 2, 0⟩ ⟨2 / 3, 2 / 3, 1 / 3⟩
      (-1 / 12000)).distance ⟨0, 0, 0⟩ = -1 / 12000 := by
    simp only [SDF.distance, Vec3.dot]
    norm_num
  have hlt0 : (SDF.Sphere ⟨⟨9 / 10, 2 / 10, 2 / 10⟩, 0, 1 / 2, 0⟩ ⟨0, 0, 0⟩
        (1 / 10000)).distance ⟨0, 0, 0⟩ <
      (SDF.Plane ⟨⟨2 / 10, 2 / 10, 9 / 10⟩, 0, 1 / 2, 0⟩ ⟨2 / 3, 2 / 3, 1 / 3⟩
        (-1 / 12000)).distance ⟨0, 0, 0⟩ := by
    rw [ha, hb]
    norm_num
  have hd : (SDF.Union {}
      (SDF.Sphere ⟨⟨9 / 10, 2 / 10, 2 / 10⟩, 0, 1 / 2, 0⟩ ⟨0, 0, 0⟩ (1 / 10000))
      (SDF.Plane ⟨⟨2 / 10, 2 / 10, 9 / 10⟩, 0, 1 / 2, 0⟩ ⟨2 / 3, 2 / 3, 1 / 3⟩
        (-1 / 12000)) none).distance ⟨0, 0, 0⟩ = -1 / 10000 := by
    show (if (SDF.Sphere ⟨⟨9 / 10, 2 / 10, 2 / 10⟩, 0, 1 / 2, 0⟩ ⟨0, 0, 0⟩
        (1 / 10000)).distance ⟨0, 0, 0⟩ <
      (SDF.Plane ⟨⟨2 / 10, 2 / 10, 9 / 10⟩, 0, 1 / 2, 0⟩ ⟨2 / 3, 2 / 3, 1 / 3⟩
        (-1 / 12000)).distance ⟨0, 0, 0⟩
      then (SDF.Sphere ⟨⟨9 / 10, 2 / 10, 2 / 10⟩, 0, 1 / 2, 0⟩ ⟨0, 0, 0⟩
        (1 / 10000)).distance ⟨0, 0, 0⟩
      else (SDF.Plane ⟨⟨2 / 10, 2 / 10, 9 / 10⟩, 0, 1 / 2, 0⟩ ⟨2 / 3, 2 / 3, 1 / 3⟩
        (-1 / 12000)).distance ⟨0, 0, 0⟩) = -1 / 10000
    rw [if_pos hlt0, ha]
  have hscan : Scene.closestScan ⟨0, 0, 0⟩
      [SDF.Union {}
        (SDF.Sphere ⟨⟨9 / 10, 2 / 10, 2 / 10⟩, 0, 1 / 2, 0⟩ ⟨0, 0, 0⟩ (1 / 10000))
        (SDF.Plane ⟨⟨2 / 10, 2 / 10, 9 / 10⟩, 0, 1 / 2, 0⟩ ⟨2 / 3, 2 / 3, 1 / 3⟩
          (-1 / 12000)) none] (FLT_MAX, none) =
      (-1 / 10000, some ((SDF.Union {}
        (SDF.Sphere ⟨⟨9 / 10, 2 / 10, 2 / 10⟩, 0, 1 / 2, 0⟩ ⟨0, 0, 0⟩ (1 / 10000))
        (SDF.Plane ⟨⟨2 / 10, 2 / 10, 9 / 10⟩, 0, 1 / 2, 0⟩ ⟨2 / 3, 2 / 3, 1 / 3⟩
          (-1 / 12000)) none).afterDistance ⟨0, 0, 0⟩)) := by
    rw [closestScan_singleton _ _
      (by rw [hd]; exact lt_trans (by norm_num) FLT_MAX_pos), hd]
  have hmat : (((SDF.Union {}
      (SDF.Sphere ⟨⟨9 / 10, 2 / 10, 2 / 10⟩, 0, 1 / 2, 0⟩ ⟨0, 0, 0⟩ (1 / 10000))
      (SDF.Plane ⟨⟨2 / 10, 2 / 10, 9 / 10⟩, 0, 1 / 2, 0⟩ ⟨2 / 3, 2 / 3, 1 / 3⟩
        (-1 / 12000)) none).afterDistance ⟨0, 0, 0⟩).afterNormal (probes ++ [last])
        ⟨0, 0, 0⟩).getMaterial = ⟨⟨2 / 10, 2 / 10, 9 / 10⟩, 0, 1 / 2, 0⟩ := by
    rw [SDF.afterNormal_last, SDF.afterDistance_afterDistance]
    have hlt : ¬ ((SDF.Sphere ⟨⟨9 / 10, 2 / 10, 2 / 10⟩, 0, 1 / 2, 0⟩ ⟨0, 0, 0⟩
          (1 / 10000)).distance (last.point ⟨0, 0, 0⟩) <
        (SDF.Plane ⟨⟨2 / 10, 2 / 10, 9 / 10⟩, 0, 1 / 2, 0⟩ ⟨2 / 3, 2 / 3, 1 / 3⟩
          (-1 / 12000)).distance (last.point ⟨0, 0, 0⟩)) := by
      rw [sphere_probe_distance]
      cases last <;>
        simp only [SDF.distance, Vec3.dot, SDF.Probe.point, SDF.normalStep, Vec3.sub_x,
          Vec3.sub_y, Vec3.sub_z, Vec3.add_x, Vec3.add_y, Vec3.add_z] <;> norm_num
    simp only [SDF.afterDistance, if_neg hlt, SDF.getMaterial]
  have hm : Scene.march (probes ++ [last])
      { objects := [SDF.Union {}
          (SDF.Sphere ⟨⟨9 / 10, 2 / 10, 2 / 10⟩, 0, 1 / 2, 0⟩ ⟨0, 0, 0⟩ (1 / 10000))
          (SDF.Plane ⟨⟨2 / 10, 2 / 10, 9 / 10⟩, 0, 1 / 2, 0⟩ ⟨2 / 3, 2 / 3, 1 / 3⟩
            (-1 / 12000)) none] }
      ⟨⟨0, 0, 0⟩, ⟨0, 0, 1⟩⟩ defaultMaxDist defaultEpsilon =
      MarchResult.hit ⟨0, ⟨0, 0, 0⟩,
        ((SDF.Union {}
          (SDF.Sphere ⟨⟨9 / 10, 2 / 10, 2 / 10⟩, 0, 1 / 2, 0⟩ ⟨0, 0, 0⟩ (1 / 10000))
          (SDF.Plane ⟨⟨2 / 10, 2 / 10, 9 / 10⟩, 0, 1 / 2, 0⟩ ⟨2 / 3, 2 / 3, 1 / 3⟩
            (-1 / 12000)) none).afterDistance ⟨0, 0, 0⟩).normal ⟨0, 0, 0⟩,
        ⟨⟨2 / 10, 2 / 10, 9 / 10⟩, 0, 1 / 2, 0⟩⟩ := by
    unfold Scene.march
    simp only
    rw [marchLoop_succ, Ray.at_zero]
    simp only [hscan]
    rw [if_pos (by unfold defaultEpsilon; norm_num), hmat]
  refine ⟨_, hm, rfl, hlt0, rfl, ?_⟩
  simp only [SDF.getMaterial]
  intro h
  have hx := congrArg (fun mat : Material => mat.albedo.x) h
  norm_num at hx

/-! ## C25: the rows are partitioned among the workers -/

end rm

end
